import Mathlib

/-!
Nexium numeric core: vectors, quaternions and colours.

A shallow embedding of the header-only math library `NX_Math.h`.

The C code works on `float`.  The embedding is written over an arbitrary
linearly ordered field `α` (with a floor function where the code truncates to
an integer), so every definition can be evaluated on rational inputs and every
theorem holds in particular over the real numbers.  The libm functions
`sqrtf`, `sinf` and `cosf` are passed as parameters.

Where the documented range of a function depends on how `float` rounds
(`NX_Wrap`, `NX_WrapRadians`, `NX_LerpRadians` and the hue of `NX_ColorToHSV`
and `NX_ColorToHSL`), the code is embedded over the rationals with every
`float` operation rounded to binary32 by `roundF32`.
-/

namespace Nexium

/-! ## Data model -/

/-- Two float components, `NX_Vec2`. -/
@[ext] structure NX_Vec2 (α : Type) where
  x : α
  y : α
deriving DecidableEq

/-- Three float components, `NX_Vec3`. -/
@[ext] structure NX_Vec3 (α : Type) where
  x : α
  y : α
  z : α
deriving DecidableEq

/-- Four float components `(x, y, z, w)`, `NX_Vec4`. -/
@[ext] structure NX_Vec4 (α : Type) where
  x : α
  y : α
  z : α
  w : α
deriving DecidableEq

/-- Four float components `(x, y, z, w)`, `NX_Quat`. -/
@[ext] structure NX_Quat (α : Type) where
  x : α
  y : α
  z : α
  w : α
deriving DecidableEq

/-- Four float components `(r, g, b, a)`, `NX_Color`. -/
@[ext] structure NX_Color (α : Type) where
  r : α
  g : α
  b : α
  a : α
deriving DecidableEq

/-- Two `int` components, `NX_IVec2`. -/
@[ext] structure NX_IVec2 where
  x : Int
  y : Int
deriving DecidableEq

/-- Three `int` components, `NX_IVec3`. -/
@[ext] structure NX_IVec3 where
  x : Int
  y : Int
  z : Int
deriving DecidableEq

/-- Four `int` components, `NX_IVec4`. -/
@[ext] structure NX_IVec4 where
  x : Int
  y : Int
  z : Int
  w : Int
deriving DecidableEq

/-- Row-major 4x4 matrix `NX_Mat4`; `mij` is row `i`, column `j`. -/
@[ext] structure NX_Mat4 (α : Type) where
  m00 : α
  m01 : α
  m02 : α
  m03 : α
  m10 : α
  m11 : α
  m12 : α
  m13 : α
  m20 : α
  m21 : α
  m22 : α
  m23 : α
  m30 : α
  m31 : α
  m32 : α
  m33 : α
deriving DecidableEq

/-- Translation, rotation and scale, `NX_Transform`. -/
@[ext] structure NX_Transform (α : Type) where
  translation : NX_Vec3 α
  rotation : NX_Quat α
  scale : NX_Vec3 α
deriving DecidableEq

/-- The GL enumerants that `gpu::Buffer` switches on.  Their values come from
the GL headers, which are outside the sources at hand, so they are parameters
of the model. -/
structure GLEnums where
  GL_ARRAY_BUFFER : Nat
  GL_ELEMENT_ARRAY_BUFFER : Nat
  GL_COPY_READ_BUFFER : Nat
  GL_COPY_WRITE_BUFFER : Nat
  GL_PIXEL_PACK_BUFFER : Nat
  GL_PIXEL_UNPACK_BUFFER : Nat
  GL_TRANSFORM_FEEDBACK_BUFFER : Nat
  GL_UNIFORM_BUFFER : Nat
  GL_SHADER_STORAGE_BUFFER : Nat
  GL_STREAM_DRAW : Nat
  GL_STREAM_READ : Nat
  GL_STREAM_COPY : Nat
  GL_STATIC_DRAW : Nat
  GL_STATIC_READ : Nat
  GL_STATIC_COPY : Nat
  GL_DYNAMIC_DRAW : Nat
  GL_DYNAMIC_READ : Nat
  GL_DYNAMIC_COPY : Nat

/-- The member variables of `gpu::Buffer`. -/
structure Buffer where
  mID : Nat
  mTarget : Nat
  mSize : Int
  mUsage : Nat
deriving DecidableEq

/-- The calls a `gpu::Buffer` operation makes to its collaborators. -/
inductive BufferEvent where
  | logError
  | createBuffer
  | glDeleteBuffers
deriving DecidableEq

section Defs

variable {α : Type} [LinearOrderedField α]

/-! ## Scalar helper macros -/

/-- `#define NX_MIN(a, b) ((a) < (b) ? (a) : (b))`. -/
def NX_MIN (a b : α) : α := if a < b then a else b

/-- `#define NX_MAX(a, b) ((a) > (b) ? (a) : (b))`. -/
def NX_MAX (a b : α) : α := if a > b then a else b

/-- `#define NX_MIN3(a, b, c) NX_MIN(a, NX_MIN(b, c))`. -/
def NX_MIN3 (a b c : α) : α := NX_MIN a (NX_MIN b c)

/-- `#define NX_MAX3(a, b, c) NX_MAX(a, NX_MAX(b, c))`. -/
def NX_MAX3 (a b c : α) : α := NX_MAX a (NX_MAX b c)

/-- `#define NX_CLAMP(v, min, max) NX_MIN(NX_MAX((v), (min)), (max))`. -/
def NX_CLAMP (v lo hi : α) : α := NX_MIN (NX_MAX v lo) hi

/-- `#define NX_PI 3.1415926535897931f`, taken at the value of the literal. -/
def NX_PI : α := 3.1415926535897931

/-- The libm `fmaf(x, y, z)`: `x * y + z` with a single rounding, which is
`x * y + z` in exact arithmetic. -/
def fmaf (x y z : α) : α := x * y + z

/-! ## Binary32 arithmetic -/

/-- Round to the nearest integer, ties to the even one. -/
def roundHalfEven (t : ℚ) : Int :=
  let f := ⌊t⌋
  if t - f < 1 / 2 then f
  else if 1 / 2 < t - f then f + 1
  else if f % 2 = 0 then f else f + 1

/-- The binary32 value of a rational `q`: round to nearest, ties to even, on a
24-bit significand, with gradual underflow below `2^-126`.  A C operation
`x op y` on `float` operands is `roundF32 (x op y)` (every operation rounded
to `float`, no fused operations).  Overflow to infinity is not modelled. -/
def roundF32 (q : ℚ) : ℚ :=
  if q = 0 then 0
  else
    let e := max (Int.log 2 |q|) (-126)
    (roundHalfEven (q / 2 ^ (e - 23)) : ℚ) * 2 ^ (e - 23)

/-- The `float` that the literal `3.1415926535897931f` of `NX_PI` denotes. -/
def NX_PI_binary32 : ℚ := roundF32 NX_PI

/-! ## Scalar functions -/

/-- Two's-complement reduction of an integer to the 32-bit `int` range. -/
def wrapI32 (x : Int) : Int := (x + 2147483648) % 4294967296 - 2147483648

/-- `NX_WrapInt`: wrap an `int` to `[min, max)`; `%` is the C remainder, and
every `int` operation is reduced to 32 bits. -/
def NX_WrapInt (value min max : Int) : Int :=
  let range := wrapI32 (max - min)
  let offset := Int.tmod (wrapI32 (value - min)) range
  wrapI32 (wrapI32 (min + offset) + (if offset < 0 then range else 0))

/-- `NX_Wrap`: `range = max - min`, `offset = value - min`, then
`min + offset - range * floorf(offset / range)`, evaluated left to right with
every `float` operation rounded to binary32 (`floorf` is exact).  The
arguments are binary32 values. -/
def NX_Wrap (value min max : ℚ) : ℚ :=
  let range := roundF32 (max - min)
  let offset := roundF32 (value - min)
  roundF32 (roundF32 (min + offset)
    - roundF32 (range * ((⌊roundF32 (offset / range)⌋ : Int) : ℚ)))

/-- `NX_WrapRadians`: `NX_Wrap(radians, -NX_PI, +NX_PI)` in binary32. -/
def NX_WrapRadians (radians : ℚ) : ℚ := NX_Wrap radians (-NX_PI_binary32) NX_PI_binary32

/-- `NX_Lerp`: `a + t * (b - a)`. -/
def NX_Lerp (a b t : α) : α := a + t * (b - a)

/-- `NX_LerpRadians`: `a + NX_WrapRadians(b - a) * t` in binary32. -/
def NX_LerpRadians (a b t : ℚ) : ℚ :=
  roundF32 (a + roundF32 (NX_WrapRadians (roundF32 (b - a)) * t))

/-- `NX_Smoothstep`: clamp `t = (x - edge0) / (edge1 - edge0)` to `[0, 1]` and
evaluate `t * t * t * (t * (t * 6 - 15) + 10)`. -/
def NX_Smoothstep (edge0 edge1 x : α) : α :=
  let t0 := (x - edge0) / (edge1 - edge0)
  let t := if t0 < 0 then 0 else (if t0 > 1 then 1 else t0)
  t * t * t * (t * (t * 6 - 15) + 10)

/-- `NX_MoveToward`: `to` when it is within `maxDelta` of `from`, otherwise
`from` moved by `maxDelta` in the direction of `to` (`fabsf` is `|·|`). -/
def NX_MoveToward (src dst maxDelta : α) : α :=
  let delta := dst - src
  let distance := |delta|
  if distance ≤ maxDelta then dst else src + (delta / distance) * maxDelta

/-! ## Powers of two on 64-bit unsigned integers -/

/-- Modelled from the spec: `NX_Clz64` (declared in `NX_BitUtils.h`, which is
not part of the sources at hand) is the count of leading zero bits of a 64-bit
value; it is 64 for the value 0. -/
def NX_Clz64 (x : Nat) : Nat := if x = 0 then 64 else 63 - Nat.log2 x

/-- `NX_NextPowerOfTwo`: `(x <= 1) ? 1 : 1 << (64 - NX_Clz64(x - 1))` on
`uint64_t`.  (A shift by 64 is undefined in C; here it yields 0.) -/
def NX_NextPowerOfTwo (x : Nat) : Nat :=
  if x ≤ 1 then 1 else (1 <<< (64 - NX_Clz64 ((x - 1) % 2 ^ 64))) % 2 ^ 64

/-- `NX_PrevPowerOfTwo`: `(x == 0) ? 0 : 1 << (63 - NX_Clz64(x))` on `uint64_t`. -/
def NX_PrevPowerOfTwo (x : Nat) : Nat :=
  if x = 0 then 0 else (1 <<< (63 - NX_Clz64 x)) % 2 ^ 64

/-- `NX_NearPowerOfTwo`: the nearer of the previous and next powers of two,
the next one on a tie; the subtractions are `uint64_t` subtractions. -/
def NX_NearPowerOfTwo (x : Nat) : Nat :=
  if x ≤ 1 then 1
  else
    let next := NX_NextPowerOfTwo x
    let prev := NX_PrevPowerOfTwo x
    if (x + 2 ^ 64 - prev) % 2 ^ 64 < (next + 2 ^ 64 - x) % 2 ^ 64 then prev else next

/-! ## Integer helper macros -/

/-- `#define NX_ALIGN_UP(value, alignment)
(((value) + (alignment) - 1) & ~((alignment) - 1))` on `w`-bit operands: sums
and differences are taken modulo `2^w` and `~y` is `2^w - 1 - y`. -/
def NX_ALIGN_UP (w value alignment : Nat) : Nat :=
  ((value + alignment + 2 ^ w - 1) % 2 ^ w) &&& (2 ^ w - 1 - (alignment + 2 ^ w - 1) % 2 ^ w)

/-- `#define NX_ALIGN_DOWN(value, alignment) ((value) & ~((alignment) - 1))` on
`w`-bit operands. -/
def NX_ALIGN_DOWN (w value alignment : Nat) : Nat :=
  (value % 2 ^ w) &&& (2 ^ w - 1 - (alignment + 2 ^ w - 1) % 2 ^ w)

/-- `#define NX_WOULD_OVERFLOW_ADD(a, b, max) ((a) > (max) - (b))`. -/
def NX_WOULD_OVERFLOW_ADD (a b max : Int) : Bool := decide (a > max - b)

/-- C integer division, which has no value when the divisor is zero. -/
def cDiv (a b : Int) : Option Int := if b = 0 then none else some (Int.tdiv a b)

/-- `#define NX_WOULD_OVERFLOW_MUL(a, b, max) ((a) != 0 && (b) > (max) / (a))`:
`&&` evaluates the division only when `a != 0`; the result is `none` if a
division by zero is evaluated. -/
def NX_WOULD_OVERFLOW_MUL (a b max : Int) : Option Bool :=
  if a ≠ 0 then (cDiv max a).map (fun q => decide (b > q)) else some false

/-- `NX_IsPowerOfTwo`: `(x != 0) && ((x & (x - 1)) == 0)` on `uint64_t`. -/
def NX_IsPowerOfTwo (x : Nat) : Bool :=
  decide (x ≠ 0) && decide (x &&& ((x + 2 ^ 64 - 1) % 2 ^ 64) = 0)

/-! ## Easing functions -/

/-- `NX_EaseSineIn`: `sinf(NX_PI / 2 * t)`. -/
def NX_EaseSineIn (sinf : α → α) (t : α) : α := sinf (NX_PI / 2 * t)

/-- `NX_EaseSineOut`: `1 + sinf(NX_PI / 2 * (--t))`. -/
def NX_EaseSineOut (sinf : α → α) (t : α) : α := 1 + sinf (NX_PI / 2 * (t - 1))

/-- `NX_EaseSineInOut`: `0.5f * (1 + sinf(NX_PI * (t - 0.5f)))`. -/
def NX_EaseSineInOut (sinf : α → α) (t : α) : α := 1 / 2 * (1 + sinf (NX_PI * (t - 1 / 2)))

/-- `NX_EaseQuadIn`: `t * t`. -/
def NX_EaseQuadIn (t : α) : α := t * t

/-- `NX_EaseQuadOut`: `t * (2 - t)`. -/
def NX_EaseQuadOut (t : α) : α := t * (2 - t)

/-- `NX_EaseQuadInOut`: `t < 0.5f ? 2 * t * t : t * (4 - 2 * t) - 1`. -/
def NX_EaseQuadInOut (t : α) : α := if t < 1 / 2 then 2 * t * t else t * (4 - 2 * t) - 1

/-- `NX_EaseCubicIn`: `t * t * t`. -/
def NX_EaseCubicIn (t : α) : α := t * t * t

/-- `NX_EaseCubicOut`: `--t; return 1 + t * t * t`. -/
def NX_EaseCubicOut (t : α) : α :=
  let t1 := t - 1
  1 + t1 * t1 * t1

/-- `NX_EaseCubicInOut`:
`t < 0.5f ? 4 * t * t * t : (t - 1) * (2 * t - 2) * (2 * t - 2) + 1`. -/
def NX_EaseCubicInOut (t : α) : α :=
  if t < 1 / 2 then 4 * t * t * t else (t - 1) * (2 * t - 2) * (2 * t - 2) + 1

/-- `NX_EaseQuartIn`: `t *= t; return t * t`. -/
def NX_EaseQuartIn (t : α) : α :=
  let t1 := t * t
  t1 * t1

/-- `NX_EaseQuartOut`: `--t; t = t * t; return 1 - t * t`. -/
def NX_EaseQuartOut (t : α) : α :=
  let t1 := t - 1
  let t2 := t1 * t1
  1 - t2 * t2

/-- `NX_EaseQuartInOut`: `8 t⁴` computed by squaring below `0.5f`, and
`1 - 8 (t - 1)⁴` computed by squaring from `0.5f` on. -/
def NX_EaseQuartInOut (t : α) : α :=
  if t < 1 / 2 then
    let t1 := t * t
    8 * t1 * t1
  else
    let t1 := t - 1
    let t2 := t1 * t1
    1 - 8 * t2 * t2

/-- `NX_EaseQuintIn`: `t2 = t * t; return t * t2 * t2`. -/
def NX_EaseQuintIn (t : α) : α :=
  let t2 := t * t
  t * t2 * t2

/-- `NX_EaseQuintOut`: `--t; t2 = t * t; return 1 + t * t2 * t2`. -/
def NX_EaseQuintOut (t : α) : α :=
  let t1 := t - 1
  let t2 := t1 * t1
  1 + t1 * t2 * t2

/-- `NX_EaseQuintInOut`: `16 * t * t2 * t2` below `0.5f`, and after `--t`
`1 + 16 * t * t2 * t2` from `0.5f` on. -/
def NX_EaseQuintInOut (t : α) : α :=
  if t < 1 / 2 then
    let t2 := t * t
    16 * t * t2 * t2
  else
    let t1 := t - 1
    let t2 := t1 * t1
    1 + 16 * t1 * t2 * t2

/-! ## Vectors and quaternions -/

/-- `NX_Vec3LengthSq`: `v.x * v.x + v.y * v.y + v.z * v.z`. -/
def NX_Vec3LengthSq (v : NX_Vec3 α) : α := v.x * v.x + v.y * v.y + v.z * v.z

/-- `NX_Vec3Length`: `sqrtf(v.x * v.x + v.y * v.y + v.z * v.z)`. -/
def NX_Vec3Length (sqrtf : α → α) (v : NX_Vec3 α) : α :=
  sqrtf (v.x * v.x + v.y * v.y + v.z * v.z)

/-- `NX_Vec3Rotate`: rotate a vector by a quaternion. -/
def NX_Vec3Rotate (v : NX_Vec3 α) (q : NX_Quat α) : NX_Vec3 α :=
  let qv : NX_Vec3 α := ⟨q.x, q.y, q.z⟩
  let tx := 2 * (qv.y * v.z - qv.z * v.y)
  let ty := 2 * (qv.z * v.x - qv.x * v.z)
  let tz := 2 * (qv.x * v.y - qv.y * v.x)
  { x := v.x + q.w * tx + (qv.y * tz - qv.z * ty)
    y := v.y + q.w * ty + (qv.z * tx - qv.x * tz)
    z := v.z + q.w * tz + (qv.x * ty - qv.y * tx) }

/-- `NX_QuatMul`: Hamilton product of two quaternions. -/
def NX_QuatMul (q0 q1 : NX_Quat α) : NX_Quat α :=
  { w := q0.w * q1.w - q0.x * q1.x - q0.y * q1.y - q0.z * q1.z
    x := q0.w * q1.x + q0.x * q1.w + q0.y * q1.z - q0.z * q1.y
    y := q0.w * q1.y - q0.x * q1.z + q0.y * q1.w + q0.z * q1.x
    z := q0.w * q1.z + q0.x * q1.y - q0.y * q1.x + q0.z * q1.w }

/-- `NX_QuatFromAxisAngle`: quaternion from an axis and an angle in radians. -/
def NX_QuatFromAxisAngle (sinf cosf : α → α) (axis : NX_Vec3 α) (radians : α) : NX_Quat α :=
  let half := radians * (1 / 2)
  let s := sinf half
  let c := cosf half
  { x := axis.x * s, y := axis.y * s, z := axis.z * s, w := c }

/-- `NX_Vec2Scale`: multiply both components by `s`. -/
def NX_Vec2Scale (v : NX_Vec2 α) (s : α) : NX_Vec2 α := ⟨v.x * s, v.y * s⟩

/-- `NX_Vec2Length`: `sqrtf(v.x * v.x + v.y * v.y)`. -/
def NX_Vec2Length (sqrtf : α → α) (v : NX_Vec2 α) : α := sqrtf (v.x * v.x + v.y * v.y)

/-- `NX_Vec2Normalize`: `v` scaled by `1 / len` when `len > 0`, else zero. -/
def NX_Vec2Normalize (sqrtf : α → α) (v : NX_Vec2 α) : NX_Vec2 α :=
  let len := NX_Vec2Length sqrtf v
  if len > 0 then NX_Vec2Scale v (1 / len) else ⟨0, 0⟩

/-- `NX_Vec2Lerp`: `fmaf(1 - t, v0, t * v1)` on each component. -/
def NX_Vec2Lerp (v0 v1 : NX_Vec2 α) (t : α) : NX_Vec2 α :=
  let w1 := 1 - t
  let w2 := t
  ⟨fmaf w1 v0.x (w2 * v1.x), fmaf w1 v0.y (w2 * v1.y)⟩

/-- `NX_Vec3Scale`: multiply the three components by `s`. -/
def NX_Vec3Scale (v : NX_Vec3 α) (s : α) : NX_Vec3 α := ⟨v.x * s, v.y * s, v.z * s⟩

/-- `NX_Vec3Normalize`: `v` scaled by `1 / len` when `len > 0`, else zero. -/
def NX_Vec3Normalize (sqrtf : α → α) (v : NX_Vec3 α) : NX_Vec3 α :=
  let len := NX_Vec3Length sqrtf v
  if len > 0 then NX_Vec3Scale v (1 / len) else ⟨0, 0, 0⟩

/-- `NX_Vec3Lerp`: `fmaf(1 - t, v0, t * v1)` on each component. -/
def NX_Vec3Lerp (v0 v1 : NX_Vec3 α) (t : α) : NX_Vec3 α :=
  let w1 := 1 - t
  let w2 := t
  ⟨fmaf w1 v0.x (w2 * v1.x), fmaf w1 v0.y (w2 * v1.y), fmaf w1 v0.z (w2 * v1.z)⟩

/-- `NX_Vec4Scale`: multiply the four components by `s`. -/
def NX_Vec4Scale (v : NX_Vec4 α) (s : α) : NX_Vec4 α := ⟨v.x * s, v.y * s, v.z * s, v.w * s⟩

/-- `NX_Vec4Length`: `sqrtf(x² + y² + z² + w²)`. -/
def NX_Vec4Length (sqrtf : α → α) (v : NX_Vec4 α) : α :=
  sqrtf (v.x * v.x + v.y * v.y + v.z * v.z + v.w * v.w)

/-- `NX_Vec4Normalize`: branch-free normalisation; `mask` is 1 when the squared
length exceeds `1e-8f` and 0 otherwise. -/
def NX_Vec4Normalize (sqrtf : α → α) (v : NX_Vec4 α) : NX_Vec4 α :=
  let lenSq := v.x * v.x + v.y * v.y + v.z * v.z + v.w * v.w
  let mask : α := if lenSq > 1e-8 then 1 else 0
  let invLen := mask * (1 / sqrtf (lenSq + (1 - mask)))
  ⟨v.x * invLen, v.y * invLen, v.z * invLen, v.w * invLen⟩

/-- `NX_Vec4Lerp`: `fmaf(1 - t, v0, t * v1)` on each component. -/
def NX_Vec4Lerp (v0 v1 : NX_Vec4 α) (t : α) : NX_Vec4 α :=
  let w1 := 1 - t
  let w2 := t
  ⟨fmaf w1 v0.x (w2 * v1.x), fmaf w1 v0.y (w2 * v1.y), fmaf w1 v0.z (w2 * v1.z),
   fmaf w1 v0.w (w2 * v1.w)⟩

/-- `#define NX_QUAT_IDENTITY NX_QUAT(0, 0, 0, 1)`. -/
def NX_QUAT_IDENTITY : NX_Quat α := ⟨0, 0, 0, 1⟩

/-- `NX_QuatLength`: `sqrtf(x² + y² + z² + w²)`. -/
def NX_QuatLength (sqrtf : α → α) (q : NX_Quat α) : α :=
  sqrtf (q.x * q.x + q.y * q.y + q.z * q.z + q.w * q.w)

/-- `NX_QuatNormalize`: the identity when the squared length is below `1e-4f`,
otherwise `q` scaled by `1 / sqrtf(lenSq)`. -/
def NX_QuatNormalize (sqrtf : α → α) (q : NX_Quat α) : NX_Quat α :=
  let lenSq := q.x * q.x + q.y * q.y + q.z * q.z + q.w * q.w
  if lenSq < 1e-4 then NX_QUAT_IDENTITY
  else
    let invLen := 1 / sqrtf lenSq
    ⟨q.x * invLen, q.y * invLen, q.z * invLen, q.w * invLen⟩

/-- `NX_Vec3Add`: component-wise sum. -/
def NX_Vec3Add (v0 v1 : NX_Vec3 α) : NX_Vec3 α := ⟨v0.x + v1.x, v0.y + v1.y, v0.z + v1.z⟩

/-- `NX_Vec3Mul`: component-wise product. -/
def NX_Vec3Mul (v0 v1 : NX_Vec3 α) : NX_Vec3 α := ⟨v0.x * v1.x, v0.y * v1.y, v0.z * v1.z⟩

/-- `NX_Vec3RotateEuler`: build a quaternion from the half angles of `yaw`,
`pitch`, `roll` and rotate by it. -/
def NX_Vec3RotateEuler (sinf cosf : α → α) (v : NX_Vec3 α) (yaw pitch roll : α) : NX_Vec3 α :=
  let cy := cosf (yaw * (1 / 2))
  let sy := sinf (yaw * (1 / 2))
  let cp := cosf (pitch * (1 / 2))
  let sp := sinf (pitch * (1 / 2))
  let cr := cosf (roll * (1 / 2))
  let sr := sinf (roll * (1 / 2))
  let q : NX_Quat α :=
    { w := cr * cp * cy + sr * sp * sy
      x := sr * cp * cy - cr * sp * sy
      y := cr * sp * cy + sr * cp * sy
      z := cr * cp * sy - sr * sp * cy }
  NX_Vec3Rotate v q

/-- `NX_Vec3RotateAxisAngle`: normalise the axis, build the axis-angle
quaternion and rotate by it. -/
def NX_Vec3RotateAxisAngle (sqrtf sinf cosf : α → α) (v axis : NX_Vec3 α) (angle : α) :
    NX_Vec3 α :=
  let axis1 := NX_Vec3Normalize sqrtf axis
  let s := sinf (angle * (1 / 2))
  let q : NX_Quat α :=
    { w := cosf (angle * (1 / 2)), x := axis1.x * s, y := axis1.y * s, z := axis1.z * s }
  NX_Vec3Rotate v q

/-- `#define NX_TRANSFORM_IDENTITY`: zero translation, identity rotation, unit
scale. -/
def NX_TRANSFORM_IDENTITY : NX_Transform α := ⟨⟨0, 0, 0⟩, NX_QUAT_IDENTITY, ⟨1, 1, 1⟩⟩

/-- `NX_Vec3Transform`: scale, then rotate, then translate. -/
def NX_Vec3Transform (vec : NX_Vec3 α) (trs : NX_Transform α) : NX_Vec3 α :=
  let vec1 := NX_Vec3Mul vec trs.scale
  let vec2 := NX_Vec3Rotate vec1 trs.rotation
  NX_Vec3Add vec2 trs.translation

/-- `#define NX_MAT4_IDENTITY`. -/
def NX_MAT4_IDENTITY : NX_Mat4 α :=
  ⟨1, 0, 0, 0,
   0, 1, 0, 0,
   0, 0, 1, 0,
   0, 0, 0, 1⟩

/-- `NX_Vec3TransformByMat4`: nested `fmaf` down each column, the bottom row
added last. -/
def NX_Vec3TransformByMat4 (v : NX_Vec3 α) (mat : NX_Mat4 α) : NX_Vec3 α :=
  let vx := v.x
  let vy := v.y
  let vz := v.z
  { x := fmaf mat.m00 vx (fmaf mat.m10 vy (fmaf mat.m20 vz mat.m30))
    y := fmaf mat.m01 vx (fmaf mat.m11 vy (fmaf mat.m21 vz mat.m31))
    z := fmaf mat.m02 vx (fmaf mat.m12 vy (fmaf mat.m22 vz mat.m32)) }

/-- `NX_Vec4TransformByMat4`: nested `fmaf` down each column. -/
def NX_Vec4TransformByMat4 (v : NX_Vec4 α) (mat : NX_Mat4 α) : NX_Vec4 α :=
  { x := fmaf mat.m00 v.x (fmaf mat.m10 v.y (fmaf mat.m20 v.z (mat.m30 * v.w)))
    y := fmaf mat.m01 v.x (fmaf mat.m11 v.y (fmaf mat.m21 v.z (mat.m31 * v.w)))
    z := fmaf mat.m02 v.x (fmaf mat.m12 v.y (fmaf mat.m22 v.z (mat.m32 * v.w)))
    w := fmaf mat.m03 v.x (fmaf mat.m13 v.y (fmaf mat.m23 v.z (mat.m33 * v.w))) }

/-- The C value of a comparison: 1 when it holds, 0 otherwise. -/
def boolToInt (p : Prop) [Decidable p] : Int := if p then 1 else 0

/-- `NX_IVec4GreaterThan`: component-wise `>` on integer vectors. -/
def NX_IVec4GreaterThan (v0 v1 : NX_IVec4) : NX_IVec4 :=
  ⟨boolToInt (v0.x > v1.x), boolToInt (v0.y > v1.y), boolToInt (v0.z > v1.z),
   boolToInt (v0.w > v1.w)⟩

/-- `NX_Vec2GreaterThan`: component-wise `>`, as an integer vector. -/
def NX_Vec2GreaterThan (v0 v1 : NX_Vec2 α) : NX_IVec2 :=
  ⟨boolToInt (v0.x > v1.x), boolToInt (v0.y > v1.y)⟩

/-- `NX_Vec3GreaterThan`: component-wise `>`, as an integer vector. -/
def NX_Vec3GreaterThan (v0 v1 : NX_Vec3 α) : NX_IVec3 :=
  ⟨boolToInt (v0.x > v1.x), boolToInt (v0.y > v1.y), boolToInt (v0.z > v1.z)⟩

/-- `NX_Vec4GreaterThan`: the four assignments of the source, the last one
being `result.w = (v0.x > v1.w)`. -/
def NX_Vec4GreaterThan (v0 v1 : NX_Vec4 α) : NX_IVec4 :=
  { x := boolToInt (v0.x > v1.x)
    y := boolToInt (v0.y > v1.y)
    z := boolToInt (v0.z > v1.z)
    w := boolToInt (v0.x > v1.w) }

/-- `NX_QuatConjugate`: `(-x, -y, -z, w)`. -/
def NX_QuatConjugate (q : NX_Quat α) : NX_Quat α := ⟨-q.x, -q.y, -q.z, q.w⟩

/-- `NX_QuatInverse`: `q` itself when the squared length is below `1e-4f`,
otherwise the conjugate divided by the squared length. -/
def NX_QuatInverse (q : NX_Quat α) : NX_Quat α :=
  let lenSq := q.x * q.x + q.y * q.y + q.z * q.z + q.w * q.w
  if lenSq < 1e-4 then q
  else
    let invLenSq := 1 / lenSq
    ⟨q.x * -invLenSq, q.y * -invLenSq, q.z * -invLenSq, q.w * invLenSq⟩

/-- `NX_IVec2Any`: `(v0.x || v0.y)`. -/
def NX_IVec2Any (v0 : NX_IVec2) : Bool := decide (v0.x ≠ 0) || decide (v0.y ≠ 0)

/-- `NX_IVec2All`: `(v0.x && v0.y)`. -/
def NX_IVec2All (v0 : NX_IVec2) : Bool := decide (v0.x ≠ 0) && decide (v0.y ≠ 0)

/-- `NX_IVec3Any`: `(v0.x || v0.y || v0.z)`. -/
def NX_IVec3Any (v0 : NX_IVec3) : Bool :=
  decide (v0.x ≠ 0) || decide (v0.y ≠ 0) || decide (v0.z ≠ 0)

/-- `NX_IVec3All`: `(v0.x && v0.y && v0.z)`. -/
def NX_IVec3All (v0 : NX_IVec3) : Bool :=
  decide (v0.x ≠ 0) && decide (v0.y ≠ 0) && decide (v0.z ≠ 0)

/-- `NX_IVec4Any`: `(v0.x || v0.y || v0.z || v0.w)`. -/
def NX_IVec4Any (v0 : NX_IVec4) : Bool :=
  decide (v0.x ≠ 0) || decide (v0.y ≠ 0) || decide (v0.z ≠ 0) || decide (v0.w ≠ 0)

/-- `NX_IVec4All`: `(v0.x && v0.y && v0.z && v0.w)`. -/
def NX_IVec4All (v0 : NX_IVec4) : Bool :=
  decide (v0.x ≠ 0) && decide (v0.y ≠ 0) && decide (v0.z ≠ 0) && decide (v0.w ≠ 0)

/-- `NX_Vec2Sub`: component-wise difference. -/
def NX_Vec2Sub (v0 v1 : NX_Vec2 α) : NX_Vec2 α := ⟨v0.x - v1.x, v0.y - v1.y⟩

/-- `NX_Vec2Dot`: `v0.x * v1.x + v0.y * v1.y`. -/
def NX_Vec2Dot (v0 v1 : NX_Vec2 α) : α := v0.x * v1.x + v0.y * v1.y

/-- `NX_Vec2Reflect`: `NX_Vec2Sub(v, NX_Vec2Scale(n, 2.0f * dot))`. -/
def NX_Vec2Reflect (v n : NX_Vec2 α) : NX_Vec2 α :=
  let dot := NX_Vec2Dot v n
  NX_Vec2Sub v (NX_Vec2Scale n (2 * dot))

/-- `NX_Vec3Dot`: `v0.x * v1.x + v0.y * v1.y + v0.z * v1.z`. -/
def NX_Vec3Dot (v0 v1 : NX_Vec3 α) : α := v0.x * v1.x + v0.y * v1.y + v0.z * v1.z

/-- `NX_Vec3Reflect`: `fmaf(-factor, normal, v)` on each component, with
`factor = 2 * dot(v, normal)`. -/
def NX_Vec3Reflect (v normal : NX_Vec3 α) : NX_Vec3 α :=
  let dot := v.x * normal.x + v.y * normal.y + v.z * normal.z
  let factor := 2 * dot
  ⟨fmaf (-factor) normal.x v.x, fmaf (-factor) normal.y v.y, fmaf (-factor) normal.z v.z⟩

/-- `NX_Vec3Project`: `onto * (dot(v, onto) / lengthSq(onto))`. -/
def NX_Vec3Project (v onto : NX_Vec3 α) : NX_Vec3 α :=
  let dot := v.x * onto.x + v.y * onto.y + v.z * onto.z
  let lenSq := onto.x * onto.x + onto.y * onto.y + onto.z * onto.z
  let factor := dot / lenSq
  ⟨onto.x * factor, onto.y * factor, onto.z * factor⟩

/-- `NX_Vec3Reject`: `fmaf(-factor, onto, v)` on each component, with
`factor = dot(v, onto) / lengthSq(onto)`. -/
def NX_Vec3Reject (v onto : NX_Vec3 α) : NX_Vec3 α :=
  let dot := v.x * onto.x + v.y * onto.y + v.z * onto.z
  let lenSq := onto.x * onto.x + onto.y * onto.y + onto.z * onto.z
  let factor := dot / lenSq
  ⟨fmaf (-factor) onto.x v.x, fmaf (-factor) onto.y v.y, fmaf (-factor) onto.z v.z⟩

/-! ## The GPU buffer wrapper -/

/-- `Buffer() = default`: the default member initialisers. -/
def Buffer.default (gl : GLEnums) : Buffer := ⟨0, gl.GL_ARRAY_BUFFER, 0, gl.GL_STATIC_DRAW⟩

/-- `Buffer::IsValidTarget`: the nine `case` labels of the `switch`. -/
def Buffer.IsValidTarget (gl : GLEnums) (target : Nat) : Bool :=
  target == gl.GL_ARRAY_BUFFER || target == gl.GL_ELEMENT_ARRAY_BUFFER
    || target == gl.GL_COPY_READ_BUFFER || target == gl.GL_COPY_WRITE_BUFFER
    || target == gl.GL_PIXEL_PACK_BUFFER || target == gl.GL_PIXEL_UNPACK_BUFFER
    || target == gl.GL_TRANSFORM_FEEDBACK_BUFFER || target == gl.GL_UNIFORM_BUFFER
    || target == gl.GL_SHADER_STORAGE_BUFFER

/-- `Buffer::IsValidUsage`: the nine `case` labels of the `switch`. -/
def Buffer.IsValidUsage (gl : GLEnums) (usage : Nat) : Bool :=
  usage == gl.GL_STREAM_DRAW || usage == gl.GL_STREAM_READ || usage == gl.GL_STREAM_COPY
    || usage == gl.GL_STATIC_DRAW || usage == gl.GL_STATIC_READ || usage == gl.GL_STATIC_COPY
    || usage == gl.GL_DYNAMIC_DRAW || usage == gl.GL_DYNAMIC_READ
    || usage == gl.GL_DYNAMIC_COPY

/-- `Buffer::IsValid`: `mID > 0`. -/
def Buffer.IsValid (b : Buffer) : Bool := decide (b.mID > 0)

/-- The constructor `Buffer::Buffer(target, size, data, usage)`: the member
initialisers, then the three checks in source order, then `createBuffer`.  It
returns the constructed object and the calls made.  `createBuffer` is defined
outside the sources at hand and is a parameter; `SDL_assert` is taken as
compiled out. -/
def Buffer.construct {δ : Type} (gl : GLEnums) (createBuffer : Buffer → δ → Nat → Buffer)
    (target : Nat) (size : Int) (data : δ) (usage : Nat) : Buffer × List BufferEvent :=
  let self : Buffer := ⟨0, target, size, usage⟩
  if !Buffer.IsValidTarget gl target then (self, [BufferEvent.logError])
  else if !Buffer.IsValidUsage gl usage then (self, [BufferEvent.logError])
  else if size ≤ 0 then (self, [BufferEvent.logError])
  else (createBuffer self data usage, [BufferEvent.createBuffer])

/-- The move constructor `Buffer::Buffer(Buffer&& other)`: the new object and
the state `other` is left in (`std::exchange(other.mID, 0)`). -/
def Buffer.moveConstruct (other : Buffer) : Buffer × Buffer :=
  (⟨other.mID, other.mTarget, other.mSize, other.mUsage⟩, { other with mID := 0 })

/-- The move assignment `Buffer::operator=(Buffer&& other)` for `this != &other`:
the new state of `*this`, the state `other` is left in and the calls made. -/
def Buffer.moveAssign (self other : Buffer) : Buffer × Buffer × List BufferEvent :=
  (⟨other.mID, other.mTarget, other.mSize, other.mUsage⟩, { other with mID := 0 },
    if self.mID ≠ 0 then [BufferEvent.glDeleteBuffers] else [])

/-! ## Conversions between floats and integers -/

section Casts

variable [FloorRing α]

/-- The C conversion `(int)x` of a float: truncation toward zero.  (The C
conversion is only defined while the truncated value fits the integer type; the
embedding uses unbounded integers.) -/
def castInt (x : α) : Int := if 0 ≤ x then ⌊x⌋ else ⌈x⌉

/-- The C conversion `(uint8_t)x` of a float: truncation toward zero, kept
modulo 256. -/
def castU8 (x : α) : Nat := (castInt x % 256).toNat

end Casts

/-! ## Colours -/

/-- `NX_Color8`: colour from 8-bit components, each divided by `255.0f`. -/
def NX_Color8 (r g b a : Nat) : NX_Color α :=
  ⟨(r : α) / 255, (g : α) / 255, (b : α) / 255, (a : α) / 255⟩

/-- `NX_ColorFromHex`: colour from a 32-bit `0xRRGGBBAA` value. -/
def NX_ColorFromHex (hex : Nat) : NX_Color α :=
  ⟨(((hex >>> 24) &&& 0xFF : Nat) : α) / 255,
   (((hex >>> 16) &&& 0xFF : Nat) : α) / 255,
   (((hex >>> 8) &&& 0xFF : Nat) : α) / 255,
   ((hex &&& 0xFF : Nat) : α) / 255⟩

/-- `NX_ColorToHex`: clamp every component to `[0, 1]`, scale by 255, truncate
to a byte and pack the four bytes into an `unsigned int`. -/
def NX_ColorToHex [FloorRing α] (color : NX_Color α) : Nat :=
  let r := castU8 (NX_CLAMP color.r 0 1 * 255)
  let g := castU8 (NX_CLAMP color.g 0 1 * 255)
  let b := castU8 (NX_CLAMP color.b 0 1 * 255)
  let a := castU8 (NX_CLAMP color.a 0 1 * 255)
  ((r <<< 24) ||| (g <<< 16) ||| (b <<< 8) ||| a) % 2 ^ 32

/-- `NX_ColorClamp`: clamp all four components to `[0, 1]`. -/
def NX_ColorClamp (color : NX_Color α) : NX_Color α :=
  ⟨NX_CLAMP color.r 0 1, NX_CLAMP color.g 0 1, NX_CLAMP color.b 0 1, NX_CLAMP color.a 0 1⟩

/-- `NX_ColorNormalize`: rescale RGB by `1 / max` when the largest of them
exceeds 1, clamp otherwise; alpha is clamped in both branches. -/
def NX_ColorNormalize (color : NX_Color α) : NX_Color α :=
  let max := NX_MAX3 color.r color.g color.b
  if max > 1 then
    let invMax := 1 / max
    ⟨color.r * invMax, color.g * invMax, color.b * invMax, NX_CLAMP color.a 0 1⟩
  else NX_ColorClamp color

/-- `NX_ColorLerp`: `fmaf(1 - t, a, t * b)` on each of the four components. -/
def NX_ColorLerp (a b : NX_Color α) (t : α) : NX_Color α :=
  let w1 := 1 - t
  let w2 := t
  ⟨fmaf w1 a.r (w2 * b.r), fmaf w1 a.g (w2 * b.g), fmaf w1 a.b (w2 * b.b),
   fmaf w1 a.a (w2 * b.a)⟩

/-- `NX_ColorToHSV`: hue in degrees, saturation and value of an RGB colour. -/
def NX_ColorToHSV (color : NX_Color α) : NX_Vec3 α :=
  let maxVal := NX_MAX3 color.r color.g color.b
  let minVal := NX_MIN3 color.r color.g color.b
  let delta := maxVal - minVal
  if maxVal = 0 ∨ delta = 0 then ⟨0, 0, maxVal⟩
  else
    let s := delta / maxVal
    let h : α :=
      if maxVal = color.r then
        let h0 := 60 * ((color.g - color.b) / delta)
        if h0 < 0 then h0 + 360 else h0
      else if maxVal = color.g then 60 * ((color.b - color.r) / delta) + 120
      else 60 * ((color.r - color.g) / delta) + 240
    ⟨h, s, maxVal⟩

/-- `NX_ColorFromHSV`: RGB colour from hue (degrees), saturation, value and
alpha, by the sector of the hue (`sector % 6` is the C remainder). -/
def NX_ColorFromHSV [FloorRing α] (h s v a : α) : NX_Color α :=
  if s = 0 then ⟨v, v, v, a⟩
  else
    let h_sector := h / 60
    let sector : Int := castInt h_sector
    let f := h_sector - (sector : α)
    let p := v * (1 - s)
    let q := v * (1 - s * f)
    let t := v * (1 - s * (1 - f))
    let k := Int.tmod sector 6
    if k = 0 then ⟨v, t, p, a⟩
    else if k = 1 then ⟨q, v, p, a⟩
    else if k = 2 then ⟨p, v, t, a⟩
    else if k = 3 then ⟨p, q, v, a⟩
    else if k = 4 then ⟨t, p, v, a⟩
    else if k = 5 then ⟨v, p, q, a⟩
    else ⟨v, v, v, a⟩

/-- `NX_ColorToHSL`: hue in degrees, saturation and lightness of an RGB colour. -/
def NX_ColorToHSL (color : NX_Color α) : NX_Vec3 α :=
  let maxVal := NX_MAX3 color.r color.g color.b
  let minVal := NX_MIN3 color.r color.g color.b
  let delta := maxVal - minVal
  let l := (maxVal + minVal) * (1 / 2)
  if delta = 0 then ⟨0, 0, l⟩
  else
    let s := if l > 1 / 2 then delta / (2 - maxVal - minVal) else delta / (maxVal + minVal)
    let h : α :=
      if maxVal = color.r then
        let h0 := 60 * ((color.g - color.b) / delta)
        if h0 < 0 then h0 + 360 else h0
      else if maxVal = color.g then 60 * ((color.b - color.r) / delta) + 120
      else 60 * ((color.r - color.g) / delta) + 240
    ⟨h, s, l⟩

/-- The local macro `HSL_TO_RGB(p, q, diff, t)` of `NX_ColorFromHSL`: the
argument `t` is first brought back by one turn, then the piecewise ramp is
evaluated. -/
def HSL_TO_RGB (p q diff t : α) : α :=
  let u := if t < 0 then t + 1 else if t > 1 then t - 1 else t
  if u < 1 / 6 then p + diff * 6 * u
  else if u < 1 / 2 then q
  else if u < 2 / 3 then p + diff * (2 / 3 - u) * 6
  else p

/-- `NX_ColorFromHSL`: RGB colour from hue (degrees), saturation, lightness
and alpha. -/
def NX_ColorFromHSL (h s l a : α) : NX_Color α :=
  if s = 0 then ⟨l, l, l, a⟩
  else
    let hNorm := h / 360
    let q := if l < 1 / 2 then l * (1 + s) else l + s - l * s
    let p := 2 * l - q
    let diff := q - p
    ⟨HSL_TO_RGB p q diff (hNorm + 1 / 3), HSL_TO_RGB p q diff hNorm,
     HSL_TO_RGB p q diff (hNorm - 1 / 3), a⟩

/-! ## Colour conversions in binary32 -/

/-- `NX_ColorToHSV` with every `float` operation rounded to binary32. -/
def NX_ColorToHSV_binary32 (color : NX_Color ℚ) : NX_Vec3 ℚ :=
  let maxVal := NX_MAX3 color.r color.g color.b
  let minVal := NX_MIN3 color.r color.g color.b
  let delta := roundF32 (maxVal - minVal)
  if maxVal = 0 ∨ delta = 0 then ⟨0, 0, maxVal⟩
  else
    let s := roundF32 (delta / maxVal)
    let h : ℚ :=
      if maxVal = color.r then
        let h0 := roundF32 (60 * roundF32 (roundF32 (color.g - color.b) / delta))
        if h0 < 0 then roundF32 (h0 + 360) else h0
      else if maxVal = color.g then
        roundF32 (roundF32 (60 * roundF32 (roundF32 (color.b - color.r) / delta)) + 120)
      else roundF32 (roundF32 (60 * roundF32 (roundF32 (color.r - color.g) / delta)) + 240)
    ⟨h, s, maxVal⟩

/-- `NX_ColorFromHSV` with every `float` operation rounded to binary32; the
`int` sector is converted back to `float` for the subtraction. -/
def NX_ColorFromHSV_binary32 (h s v a : ℚ) : NX_Color ℚ :=
  if s = 0 then ⟨v, v, v, a⟩
  else
    let h_sector := roundF32 (h / 60)
    let sector : Int := castInt h_sector
    let f := roundF32 (h_sector - roundF32 (sector : ℚ))
    let p := roundF32 (v * roundF32 (1 - s))
    let q := roundF32 (v * roundF32 (1 - roundF32 (s * f)))
    let t := roundF32 (v * roundF32 (1 - roundF32 (s * roundF32 (1 - f))))
    let k := Int.tmod sector 6
    if k = 0 then ⟨v, t, p, a⟩
    else if k = 1 then ⟨q, v, p, a⟩
    else if k = 2 then ⟨p, v, t, a⟩
    else if k = 3 then ⟨p, q, v, a⟩
    else if k = 4 then ⟨t, p, v, a⟩
    else if k = 5 then ⟨v, p, q, a⟩
    else ⟨v, v, v, a⟩

/-- `NX_ColorToHSL` with every `float` operation rounded to binary32. -/
def NX_ColorToHSL_binary32 (color : NX_Color ℚ) : NX_Vec3 ℚ :=
  let maxVal := NX_MAX3 color.r color.g color.b
  let minVal := NX_MIN3 color.r color.g color.b
  let delta := roundF32 (maxVal - minVal)
  let l := roundF32 (roundF32 (maxVal + minVal) * (1 / 2))
  if delta = 0 then ⟨0, 0, l⟩
  else
    let s :=
      if l > 1 / 2 then roundF32 (delta / roundF32 (roundF32 (2 - maxVal) - minVal))
      else roundF32 (delta / roundF32 (maxVal + minVal))
    let h : ℚ :=
      if maxVal = color.r then
        let h0 := roundF32 (60 * roundF32 (roundF32 (color.g - color.b) / delta))
        if h0 < 0 then roundF32 (h0 + 360) else h0
      else if maxVal = color.g then
        roundF32 (roundF32 (60 * roundF32 (roundF32 (color.b - color.r) / delta)) + 120)
      else roundF32 (roundF32 (60 * roundF32 (roundF32 (color.r - color.g) / delta)) + 240)
    ⟨h, s, l⟩

/-! ## Auxiliary notions used to state the colour round trips -/

/-- The hue computation that `NX_ColorToHSV` and `NX_ColorToHSL` both carry out
once the spread `maxVal - minVal` is known to be non-zero (the same statements
in both functions). -/
def hueOf (r g b : α) : α :=
  let maxVal := NX_MAX3 r g b
  let delta := maxVal - NX_MIN3 r g b
  if maxVal = r then
    let h0 := 60 * ((g - b) / delta)
    if h0 < 0 then h0 + 360 else h0
  else if maxVal = g then 60 * ((b - r) / delta) + 120
  else 60 * ((r - g) / delta) + 240

/-- The RGB colour with largest component `M`, smallest component `m`, lying in
hue sector `k` (of six, 60 degrees each) at fraction `f` of that sector: the
table both `NX_ColorFromHSV` and `NX_ColorFromHSL` realise. -/
def sectorColor (k : Nat) (M m f a : α) : NX_Color α :=
  if k = 0 then ⟨M, m + (M - m) * f, m, a⟩
  else if k = 1 then ⟨M - (M - m) * f, M, m, a⟩
  else if k = 2 then ⟨m, M, m + (M - m) * f, a⟩
  else if k = 3 then ⟨m, M - (M - m) * f, M, a⟩
  else if k = 4 then ⟨m + (M - m) * f, m, M, a⟩
  else ⟨M, m, M - (M - m) * f, a⟩

/-- The values of the enumerants in the Khronos GL registry, used to evaluate
the buffer model on a concrete input. -/
def glRegistry : GLEnums :=
  ⟨0x8892, 0x8893, 0x8F36, 0x8F37, 0x88EB, 0x88EC, 0x8C8E, 0x8A11, 0x90D2,
   0x88E0, 0x88E1, 0x88E2, 0x88E4, 0x88E5, 0x88E6, 0x88E8, 0x88E9, 0x88EA⟩

end Defs

/-! ## Auxiliary lemmas -/

section Helpers

variable {α : Type} [LinearOrderedField α]

theorem NX_MAX_eq_max (a b : α) : NX_MAX a b = max a b := by
  unfold NX_MAX
  split_ifs with h
  · exact (max_eq_left h.le).symm
  · exact (max_eq_right (not_lt.mp h)).symm

theorem NX_MIN_eq_min (a b : α) : NX_MIN a b = min a b := by
  unfold NX_MIN
  split_ifs with h
  · exact (min_eq_left h.le).symm
  · exact (min_eq_right (not_lt.mp h)).symm

theorem NX_MAX3_eq_max (a b c : α) : NX_MAX3 a b c = max a (max b c) := by
  simp only [NX_MAX3, NX_MAX_eq_max]

theorem NX_MIN3_eq_min (a b c : α) : NX_MIN3 a b c = min a (min b c) := by
  simp only [NX_MIN3, NX_MIN_eq_min]

theorem NX_CLAMP_eq (v lo hi : α) : NX_CLAMP v lo hi = min (max v lo) hi := by
  simp only [NX_CLAMP, NX_MIN_eq_min, NX_MAX_eq_max]

theorem NX_CLAMP_of_mem (v : α) (h0 : 0 ≤ v) (h1 : v ≤ 1) : NX_CLAMP v 0 1 = v := by
  rw [NX_CLAMP_eq, max_eq_left h0, min_eq_left h1]

theorem castInt_natCast [FloorRing α] (n : Nat) : castInt (n : α) = n := by
  unfold castInt
  rw [if_pos (Nat.cast_nonneg n)]
  exact Int.floor_natCast n

theorem castU8_byte [FloorRing α] (n : Nat) (hn : n < 256) :
    castU8 (NX_CLAMP ((n : α) / 255) 0 1 * 255) = n := by
  have h0 : (0 : α) ≤ (n : α) / 255 := by positivity
  have h1 : (n : α) / 255 ≤ 1 := by
    rw [div_le_one (by norm_num)]
    have : (n : α) ≤ ((255 : Nat) : α) := Nat.cast_le.mpr (by omega)
    simpa using this
  rw [NX_CLAMP_of_mem _ h0 h1, div_mul_cancel₀ _ (by norm_num : (255 : α) ≠ 0)]
  unfold castU8
  rw [castInt_natCast]
  omega

theorem pack_bytes (r g b a : Nat) (hg : g < 256) (hb : b < 256) (ha : a < 256) :
    (r <<< 24) ||| (g <<< 16) ||| (b <<< 8) ||| a = r * 2 ^ 24 + g * 2 ^ 16 + b * 2 ^ 8 + a := by
  simp only [Nat.shiftLeft_eq]
  have h1 : r * 2 ^ 24 ||| g * 2 ^ 16 = r * 2 ^ 24 + g * 2 ^ 16 := by
    have := @Nat.mul_add_lt_is_or 24 (g * 2 ^ 16) (by omega) r
    rw [Nat.mul_comm (2 ^ 24) r] at this
    exact this.symm
  have h2 : (r * 2 ^ 24 + g * 2 ^ 16) ||| b * 2 ^ 8 = r * 2 ^ 24 + g * 2 ^ 16 + b * 2 ^ 8 := by
    have := @Nat.mul_add_lt_is_or 16 (b * 2 ^ 8) (by omega) (r * 2 ^ 8 + g)
    have e : 2 ^ 16 * (r * 2 ^ 8 + g) = r * 2 ^ 24 + g * 2 ^ 16 := by ring
    rw [e] at this
    exact this.symm
  have h3 : (r * 2 ^ 24 + g * 2 ^ 16 + b * 2 ^ 8) ||| a
      = r * 2 ^ 24 + g * 2 ^ 16 + b * 2 ^ 8 + a := by
    have := @Nat.mul_add_lt_is_or 8 a (by omega) (r * 2 ^ 16 + g * 2 ^ 8 + b)
    have e : 2 ^ 8 * (r * 2 ^ 16 + g * 2 ^ 8 + b) = r * 2 ^ 24 + g * 2 ^ 16 + b * 2 ^ 8 := by
      ring
    rw [e] at this
    exact this.symm
  rw [h1, h2, h3]

theorem castU8_natCast [FloorRing α] (n : Nat) (hn : n < 256) : castU8 (n : α) = n := by
  unfold castU8
  rw [castInt_natCast]
  omega

theorem mask_eq (x : Nat) : x &&& 0xFF = x % 256 :=
  Nat.and_pow_two_sub_one_eq_mod _ 8

theorem ratio_bounds (u w d : α) (hd : 0 < d) (h1 : u - w ≤ d) (h2 : w - u ≤ d) :
    -1 ≤ (u - w) / d ∧ (u - w) / d ≤ 1 := by
  constructor
  · rw [le_div_iff₀ hd]; linarith
  · rw [div_le_iff₀ hd]; linarith

theorem max3_min3_facts (r g b : α) :
    (NX_MIN3 r g b ≤ r ∧ NX_MIN3 r g b ≤ g ∧ NX_MIN3 r g b ≤ b)
      ∧ (r ≤ NX_MAX3 r g b ∧ g ≤ NX_MAX3 r g b ∧ b ≤ NX_MAX3 r g b) := by
  rw [NX_MIN3_eq_min, NX_MAX3_eq_max]
  refine ⟨⟨min_le_left _ _, ?_, ?_⟩, ⟨le_max_left _ _, ?_, ?_⟩⟩
  · exact le_trans (min_le_right _ _) (min_le_left _ _)
  · exact le_trans (min_le_right _ _) (min_le_right _ _)
  · exact le_trans (le_max_left _ _) (le_max_right _ _)
  · exact le_trans (le_max_right _ _) (le_max_right _ _)

/-- The hue expression shared by `NX_ColorToHSV` and `NX_ColorToHSL` lies in
`[0, 360)` whenever the spread `max - min` is not zero. -/
theorem hue_bounds (r g b : α) (hd : NX_MAX3 r g b - NX_MIN3 r g b ≠ 0) :
    0 ≤ hueOf r g b ∧ hueOf r g b < 360 := by
  obtain ⟨⟨m1, m2, m3⟩, ⟨M1, M2, M3⟩⟩ := max3_min3_facts r g b
  have hpos : 0 < NX_MAX3 r g b - NX_MIN3 r g b :=
    lt_of_le_of_ne (by linarith) (Ne.symm hd)
  obtain ⟨a1, a2⟩ := ratio_bounds g b _ hpos (by linarith) (by linarith)
  obtain ⟨b1, b2⟩ := ratio_bounds b r _ hpos (by linarith) (by linarith)
  obtain ⟨c1, c2⟩ := ratio_bounds r g _ hpos (by linarith) (by linarith)
  simp only [hueOf]
  split_ifs with h1 h2 h3
  · constructor <;> linarith
  · constructor <;> linarith
  · constructor <;> linarith
  · constructor <;> linarith

theorem NX_ColorToHSV_eq (c : NX_Color α) :
    NX_ColorToHSV c
      = if NX_MAX3 c.r c.g c.b = 0 ∨ NX_MAX3 c.r c.g c.b - NX_MIN3 c.r c.g c.b = 0
        then ⟨0, 0, NX_MAX3 c.r c.g c.b⟩
        else ⟨hueOf c.r c.g c.b,
          (NX_MAX3 c.r c.g c.b - NX_MIN3 c.r c.g c.b) / NX_MAX3 c.r c.g c.b,
          NX_MAX3 c.r c.g c.b⟩ := rfl

theorem NX_ColorToHSL_eq (c : NX_Color α) :
    NX_ColorToHSL c
      = if NX_MAX3 c.r c.g c.b - NX_MIN3 c.r c.g c.b = 0
        then ⟨0, 0, (NX_MAX3 c.r c.g c.b + NX_MIN3 c.r c.g c.b) * (1 / 2)⟩
        else ⟨hueOf c.r c.g c.b,
          (if (NX_MAX3 c.r c.g c.b + NX_MIN3 c.r c.g c.b) * (1 / 2) > 1 / 2
            then (NX_MAX3 c.r c.g c.b - NX_MIN3 c.r c.g c.b)
              / (2 - NX_MAX3 c.r c.g c.b - NX_MIN3 c.r c.g c.b)
            else (NX_MAX3 c.r c.g c.b - NX_MIN3 c.r c.g c.b)
              / (NX_MAX3 c.r c.g c.b + NX_MIN3 c.r c.g c.b)),
          (NX_MAX3 c.r c.g c.b + NX_MIN3 c.r c.g c.b) * (1 / 2)⟩ := rfl

/-- Red largest, blue smallest. -/
theorem hue_caseA (r g b : α) (h1 : b ≤ g) (h2 : g ≤ r) (h3 : b < r) :
    NX_MAX3 r g b = r ∧ NX_MIN3 r g b = b ∧ hueOf r g b = 60 * ((g - b) / (r - b)) := by
  have hM : NX_MAX3 r g b = r := by
    rw [NX_MAX3_eq_max, max_eq_left h1, max_eq_left h2]
  have hm : NX_MIN3 r g b = b := by
    rw [NX_MIN3_eq_min, min_eq_right h1, min_eq_right h3.le]
  refine ⟨hM, hm, ?_⟩
  have h0 : ¬ 60 * ((g - b) / (r - b)) < 0 :=
    not_lt.mpr (mul_nonneg (by norm_num) (div_nonneg (sub_nonneg.mpr h1) (sub_pos.mpr h3).le))
  simp only [hueOf, hM, hm, if_true, if_neg h0]

/-- Red largest, green smallest and strictly below blue. -/
theorem hue_caseB (r g b : α) (h1 : g < b) (h2 : b ≤ r) :
    NX_MAX3 r g b = r ∧ NX_MIN3 r g b = g
      ∧ hueOf r g b = 60 * ((g - b) / (r - g)) + 360 := by
  have hM : NX_MAX3 r g b = r := by
    rw [NX_MAX3_eq_max, max_eq_right h1.le, max_eq_left h2]
  have hm : NX_MIN3 r g b = g := by
    rw [NX_MIN3_eq_min, min_eq_left h1.le, min_eq_right (h1.le.trans h2)]
  refine ⟨hM, hm, ?_⟩
  have h0 : 60 * ((g - b) / (r - g)) < 0 :=
    mul_neg_of_pos_of_neg (by norm_num)
      (div_neg_of_neg_of_pos (sub_neg.mpr h1) (sub_pos.mpr (lt_of_lt_of_le h1 h2)))
  simp only [hueOf, hM, hm, if_true, if_pos h0]

/-- Green largest and strictly above red, blue smallest. -/
theorem hue_caseC (r g b : α) (h1 : b ≤ r) (h2 : r < g) :
    NX_MAX3 r g b = g ∧ NX_MIN3 r g b = b
      ∧ hueOf r g b = 60 * ((b - r) / (g - b)) + 120 := by
  have hbg : b ≤ g := h1.trans h2.le
  have hM : NX_MAX3 r g b = g := by
    rw [NX_MAX3_eq_max, max_eq_left hbg, max_eq_right h2.le]
  have hm : NX_MIN3 r g b = b := by
    rw [NX_MIN3_eq_min, min_eq_right hbg, min_eq_right h1]
  refine ⟨hM, hm, ?_⟩
  simp only [hueOf, hM, hm, if_neg h2.ne', if_true]

/-- Green largest and strictly above red, red smallest. -/
theorem hue_caseD (r g b : α) (h1 : r ≤ b) (h2 : b ≤ g) (h3 : r < g) :
    NX_MAX3 r g b = g ∧ NX_MIN3 r g b = r
      ∧ hueOf r g b = 60 * ((b - r) / (g - r)) + 120 := by
  have hM : NX_MAX3 r g b = g := by
    rw [NX_MAX3_eq_max, max_eq_left h2, max_eq_right h3.le]
  have hm : NX_MIN3 r g b = r := by
    rw [NX_MIN3_eq_min, min_eq_right h2, min_eq_left h1]
  refine ⟨hM, hm, ?_⟩
  simp only [hueOf, hM, hm, if_neg h3.ne', if_true]

/-- Blue strictly largest, red smallest. -/
theorem hue_caseE (r g b : α) (h1 : r ≤ g) (h2 : g < b) :
    NX_MAX3 r g b = b ∧ NX_MIN3 r g b = r
      ∧ hueOf r g b = 60 * ((r - g) / (b - r)) + 240 := by
  have hrb : r < b := lt_of_le_of_lt h1 h2
  have hM : NX_MAX3 r g b = b := by
    rw [NX_MAX3_eq_max, max_eq_right h2.le, max_eq_right hrb.le]
  have hm : NX_MIN3 r g b = r := by
    rw [NX_MIN3_eq_min, min_eq_left h2.le, min_eq_left h1]
  refine ⟨hM, hm, ?_⟩
  simp only [hueOf, hM, hm, if_neg hrb.ne', if_neg h2.ne']

/-- Blue strictly largest, green smallest. -/
theorem hue_caseF (r g b : α) (h1 : g ≤ r) (h2 : r < b) :
    NX_MAX3 r g b = b ∧ NX_MIN3 r g b = g
      ∧ hueOf r g b = 60 * ((r - g) / (b - g)) + 240 := by
  have hgb : g < b := lt_of_le_of_lt h1 h2
  have hM : NX_MAX3 r g b = b := by
    rw [NX_MAX3_eq_max, max_eq_right hgb.le, max_eq_right h2.le]
  have hm : NX_MIN3 r g b = g := by
    rw [NX_MIN3_eq_min, min_eq_left hgb.le, min_eq_right h1]
  refine ⟨hM, hm, ?_⟩
  simp only [hueOf, hM, hm, if_neg h2.ne', if_neg hgb.ne']

theorem spread_eq_zero_of_eq (r g b : α) (h1 : r = g) (h2 : g = b) :
    NX_MAX3 r g b - NX_MIN3 r g b = 0 := by
  subst h1 h2
  simp [NX_MAX3_eq_max, NX_MIN3_eq_min]

/-- Every colour with a non-zero spread is the table colour of some sector
`k < 6` at some fraction `0 ≤ f < 1`, and its hue is `60 * (k + f)`. -/
theorem color_sector_decomp (r g b a : α) (hd : NX_MAX3 r g b - NX_MIN3 r g b ≠ 0) :
    ∃ (k : Nat) (f : α), k < 6 ∧ 0 ≤ f ∧ f < 1 ∧ hueOf r g b = 60 * ((k : α) + f)
      ∧ sectorColor k (NX_MAX3 r g b) (NX_MIN3 r g b) f a = ⟨r, g, b, a⟩ := by
  by_cases hgr : g ≤ r
  · by_cases hbr : b ≤ r
    · by_cases hbg : b ≤ g
      · rcases eq_or_lt_of_le hbr with e | hlt
        · exact absurd (spread_eq_zero_of_eq r g b (le_antisymm (by rw [← e]; exact hbg) hgr)
            (le_antisymm (by rw [e]; exact hgr) hbg)) hd
        · obtain ⟨hM, hm, hh⟩ := hue_caseA r g b hbg hgr hlt
          have hpos : 0 < r - b := sub_pos.mpr hlt
          rcases eq_or_lt_of_le hgr with e | hlt2
          · refine ⟨1, 0, by norm_num, le_rfl, zero_lt_one, ?_, ?_⟩
            · rw [hh, e, div_self hpos.ne']; norm_num
            · rw [hM, hm]; simp [sectorColor, e]
          · refine ⟨0, (g - b) / (r - b), by norm_num, div_nonneg (sub_nonneg.mpr hbg) hpos.le,
              (div_lt_one hpos).mpr (by linarith), ?_, ?_⟩
            · rw [hh]; norm_num
            · rw [hM, hm]; simp [sectorColor]; field_simp
      · push_neg at hbg
        obtain ⟨hM, hm, hh⟩ := hue_caseB r g b hbg hbr
        have hpos : 0 < r - g := sub_pos.mpr (lt_of_lt_of_le hbg hbr)
        refine ⟨5, (r - b) / (r - g), by norm_num, div_nonneg (sub_nonneg.mpr hbr) hpos.le,
          (div_lt_one hpos).mpr (by linarith), ?_, ?_⟩
        · rw [hh]; field_simp; ring
        · rw [hM, hm]; simp [sectorColor]; field_simp
    · push_neg at hbr
      obtain ⟨hM, hm, hh⟩ := hue_caseF r g b hgr hbr
      have hpos : 0 < b - g := sub_pos.mpr (lt_of_le_of_lt hgr hbr)
      refine ⟨4, (r - g) / (b - g), by norm_num, div_nonneg (sub_nonneg.mpr hgr) hpos.le,
        (div_lt_one hpos).mpr (by linarith), ?_, ?_⟩
      · rw [hh]; field_simp; ring
      · rw [hM, hm]; simp [sectorColor]; field_simp
  · push_neg at hgr
    by_cases hbg : b ≤ g
    · by_cases hbr : b ≤ r
      · obtain ⟨hM, hm, hh⟩ := hue_caseC r g b hbr hgr
        have hpos : 0 < g - b := sub_pos.mpr (lt_of_le_of_lt hbr hgr)
        rcases eq_or_lt_of_le hbr with e | hlt
        · refine ⟨2, 0, by norm_num, le_rfl, zero_lt_one, ?_, ?_⟩
          · rw [hh, e]; norm_num
          · rw [hM, hm]; simp [sectorColor, e]
        · refine ⟨1, (g - r) / (g - b), by norm_num, div_nonneg (sub_nonneg.mpr hgr.le) hpos.le,
            (div_lt_one hpos).mpr (by linarith), ?_, ?_⟩
          · rw [hh]; field_simp; ring
          · rw [hM, hm]; simp [sectorColor]; field_simp
      · push_neg at hbr
        obtain ⟨hM, hm, hh⟩ := hue_caseD r g b hbr.le hbg hgr
        have hpos : 0 < g - r := sub_pos.mpr hgr
        rcases eq_or_lt_of_le hbg with e | hlt
        · refine ⟨3, 0, by norm_num, le_rfl, zero_lt_one, ?_, ?_⟩
          · rw [hh, e, div_self hpos.ne']; norm_num
          · rw [hM, hm]; simp [sectorColor, e]
        · refine ⟨2, (b - r) / (g - r), by norm_num, div_nonneg (sub_nonneg.mpr hbr.le) hpos.le,
            (div_lt_one hpos).mpr (by linarith), ?_, ?_⟩
          · rw [hh]; field_simp; ring
          · rw [hM, hm]; simp [sectorColor]; field_simp
    · push_neg at hbg
      obtain ⟨hM, hm, hh⟩ := hue_caseE r g b hgr.le hbg
      have hpos : 0 < b - r := sub_pos.mpr (lt_trans hgr hbg)
      refine ⟨3, (b - g) / (b - r), by norm_num, div_nonneg (sub_nonneg.mpr hbg.le) hpos.le,
        (div_lt_one hpos).mpr (by linarith), ?_, ?_⟩
      · rw [hh]; field_simp; ring
      · rw [hM, hm]; simp [sectorColor]; field_simp

theorem castInt_nat_add [FloorRing α] (k : Nat) (f : α) (hf0 : 0 ≤ f) (hf1 : f < 1) :
    castInt ((k : α) + f) = k := by
  unfold castInt
  rw [if_pos (add_nonneg (Nat.cast_nonneg k) hf0), Int.floor_eq_iff]
  constructor
  · simp only [Int.cast_natCast]; linarith
  · simp only [Int.cast_natCast]; linarith

/-- `NX_ColorFromHSV` at hue `60 * (k + f)` is the table colour of sector `k`
at fraction `f`, with largest component `v` and smallest `v * (1 - s)`. -/
theorem NX_ColorFromHSV_sector [FloorRing α] (h s v a f : α) (k : Nat) (hs : s ≠ 0)
    (hk : k < 6) (hf0 : 0 ≤ f) (hf1 : f < 1) (hh : h = 60 * ((k : α) + f)) :
    NX_ColorFromHSV h s v a = sectorColor k v (v * (1 - s)) f a := by
  have hsec : h / 60 = (k : α) + f := by rw [hh]; field_simp
  have hc : castInt (h / 60) = (k : Int) := by rw [hsec]; exact castInt_nat_add k f hf0 hf1
  have hf : h / 60 - ((k : Int) : α) = f := by rw [hsec]; simp
  have hmod : Int.tmod (k : Int) 6 = (k : Int) := by interval_cases k <;> rfl
  simp only [NX_ColorFromHSV, if_neg hs, hc, hf, hmod]
  interval_cases k
  · simp [sectorColor]; ring
  · simp [sectorColor]; ring
  · simp [sectorColor]; ring
  · simp [sectorColor]; ring
  · simp [sectorColor]; ring
  · simp [sectorColor]; ring

/-- The table colour of sector `k` at fraction `f` has largest component `M`,
smallest component `m` and hue `60 * (k + f)`. -/
theorem sectorColor_stats (k : Nat) (M m f a : α) (hk : k < 6) (hm : m < M)
    (hf0 : 0 ≤ f) (hf1 : f < 1) :
    NX_MAX3 (sectorColor k M m f a).r (sectorColor k M m f a).g (sectorColor k M m f a).b = M
      ∧ NX_MIN3 (sectorColor k M m f a).r (sectorColor k M m f a).g (sectorColor k M m f a).b
          = m
      ∧ hueOf (sectorColor k M m f a).r (sectorColor k M m f a).g (sectorColor k M m f a).b
          = 60 * ((k : α) + f) := by
  have hd : 0 < M - m := sub_pos.mpr hm
  have h1 : 0 ≤ (M - m) * f := mul_nonneg hd.le hf0
  have h2 : (M - m) * f < M - m := by
    have := mul_lt_mul_of_pos_left hf1 hd
    rwa [mul_one] at this
  interval_cases k
  · obtain ⟨hM, hmin, hh⟩ := hue_caseA M (m + (M - m) * f) m (by linarith) (by linarith) hm
    refine ⟨by simpa [sectorColor] using hM, by simpa [sectorColor] using hmin, ?_⟩
    simp only [sectorColor, if_true]
    rw [hh]; field_simp
  · rcases eq_or_lt_of_le hf0 with e | hpos
    · subst e
      obtain ⟨hM, hmin, hh⟩ := hue_caseA M M m hm.le le_rfl hm
      refine ⟨by simpa [sectorColor] using hM, by simpa [sectorColor] using hmin, ?_⟩
      simp [sectorColor]
      rw [hh]; field_simp
    · have h3 : 0 < (M - m) * f := mul_pos hd hpos
      obtain ⟨hM, hmin, hh⟩ := hue_caseC (M - (M - m) * f) M m (by linarith) (by linarith)
      refine ⟨by simpa [sectorColor] using hM, by simpa [sectorColor] using hmin, ?_⟩
      simp [sectorColor]
      rw [hh]; field_simp; ring
  · obtain ⟨hM, hmin, hh⟩ := hue_caseD m M (m + (M - m) * f) (by linarith) (by linarith) hm
    refine ⟨by simpa [sectorColor] using hM, by simpa [sectorColor] using hmin, ?_⟩
    simp [sectorColor]
    rw [hh]; field_simp; ring
  · rcases eq_or_lt_of_le hf0 with e | hpos
    · subst e
      obtain ⟨hM, hmin, hh⟩ := hue_caseD m M M hm.le le_rfl hm
      refine ⟨by simpa [sectorColor] using hM, by simpa [sectorColor] using hmin, ?_⟩
      simp [sectorColor]
      rw [hh]; field_simp; ring
    · have h3 : 0 < (M - m) * f := mul_pos hd hpos
      obtain ⟨hM, hmin, hh⟩ := hue_caseE m (M - (M - m) * f) M (by linarith) (by linarith)
      refine ⟨by simpa [sectorColor] using hM, by simpa [sectorColor] using hmin, ?_⟩
      simp [sectorColor]
      rw [hh]; field_simp; ring
  · obtain ⟨hM, hmin, hh⟩ := hue_caseF (m + (M - m) * f) m M (by linarith) (by linarith)
    refine ⟨by simpa [sectorColor] using hM, by simpa [sectorColor] using hmin, ?_⟩
    simp [sectorColor]
    rw [hh]; field_simp; ring
  · obtain ⟨hM, hmin, hh⟩ := hue_caseB M m (M - (M - m) * f) (by linarith) (by linarith)
    refine ⟨by simpa [sectorColor] using hM, by simpa [sectorColor] using hmin, ?_⟩
    simp [sectorColor]
    rw [hh]; field_simp; ring

/-- A hue in `[0, 360)` is `60 * (k + f)` for a sector `k < 6` and a fraction
`0 ≤ f < 1`. -/
theorem hue_sector_split [FloorRing α] (h : α) (h0 : 0 ≤ h) (h1 : h < 360) :
    ∃ (k : Nat) (f : α), k < 6 ∧ 0 ≤ f ∧ f < 1 ∧ h = 60 * ((k : α) + f) := by
  have hn0 : 0 ≤ ⌊h / 60⌋ := Int.floor_nonneg.mpr (div_nonneg h0 (by norm_num))
  have hn6 : ⌊h / 60⌋ < 6 := by
    rw [Int.floor_lt]
    rw [div_lt_iff₀ (by norm_num)]
    norm_num
    linarith
  obtain ⟨k, hk⟩ := Int.eq_ofNat_of_zero_le hn0
  have hcast : ((⌊h / 60⌋ : Int) : α) = (k : α) := by rw [hk]; simp
  refine ⟨k, Int.fract (h / 60), by omega, Int.fract_nonneg _, Int.fract_lt_one _, ?_⟩
  rw [← hcast, Int.floor_add_fract]
  field_simp

theorem HSL_TO_RGB_eq (p q d t u : α)
    (hu : (if t < 0 then t + 1 else if t > 1 then t - 1 else t) = u) :
    HSL_TO_RGB p q d t
      = if u < 1 / 6 then p + d * 6 * u
        else if u < 1 / 2 then q
        else if u < 2 / 3 then p + d * (2 / 3 - u) * 6
        else p := by
  simp only [HSL_TO_RGB, hu]

theorem HSL_TO_RGB_rise (p q d u : α) (h0 : 0 ≤ u) (h1 : u < 1 / 6) :
    HSL_TO_RGB p q d u = p + d * 6 * u := by
  rw [HSL_TO_RGB_eq p q d u u (by rw [if_neg (not_lt.mpr h0), if_neg (by linarith)]),
    if_pos h1]

theorem HSL_TO_RGB_top (p q d u : α) (h0 : 1 / 6 ≤ u) (h1 : u < 1 / 2) :
    HSL_TO_RGB p q d u = q := by
  rw [HSL_TO_RGB_eq p q d u u (by rw [if_neg (by linarith), if_neg (by linarith)]),
    if_neg (not_lt.mpr h0), if_pos h1]

theorem HSL_TO_RGB_fall (p q d u : α) (h0 : 1 / 2 ≤ u) (h1 : u < 2 / 3) :
    HSL_TO_RGB p q d u = p + d * (2 / 3 - u) * 6 := by
  rw [HSL_TO_RGB_eq p q d u u (by rw [if_neg (by linarith), if_neg (by linarith)]),
    if_neg (show ¬ u < 1 / 6 by linarith), if_neg (not_lt.mpr h0), if_pos h1]

theorem HSL_TO_RGB_bottom (p q d u : α) (h0 : 2 / 3 ≤ u) (h1 : u ≤ 1) :
    HSL_TO_RGB p q d u = p := by
  rw [HSL_TO_RGB_eq p q d u u (by rw [if_neg (by linarith), if_neg (by linarith)]),
    if_neg (show ¬ u < 1 / 6 by linarith), if_neg (show ¬ u < 1 / 2 by linarith),
    if_neg (not_lt.mpr h0)]

theorem HSL_TO_RGB_bottom_neg (p q d t : α) (h0 : t < 0) (h1 : 2 / 3 ≤ t + 1) :
    HSL_TO_RGB p q d t = p := by
  rw [HSL_TO_RGB_eq p q d t (t + 1) (by rw [if_pos h0]),
    if_neg (show ¬ t + 1 < 1 / 6 by linarith), if_neg (show ¬ t + 1 < 1 / 2 by linarith),
    if_neg (not_lt.mpr h1)]

theorem HSL_TO_RGB_rise_over (p q d t : α) (h0 : 1 < t) (h1 : t - 1 < 1 / 6) :
    HSL_TO_RGB p q d t = p + d * 6 * (t - 1) := by
  rw [HSL_TO_RGB_eq p q d t (t - 1) (by rw [if_neg (by linarith), if_pos h0]), if_pos h1]

theorem HSL_TO_RGB_top_over (p q d t : α) (h0 : 1 / 6 ≤ t - 1) (h1 : t - 1 < 1 / 2) :
    HSL_TO_RGB p q d t = q := by
  rw [HSL_TO_RGB_eq p q d t (t - 1)
      (by rw [if_neg (by linarith), if_pos (show t > 1 by linarith)]),
    if_neg (not_lt.mpr h0), if_pos h1]

theorem HSL_TO_RGB_red (M m f a : α) (k : Nat) (hk : k < 6) (hf0 : 0 ≤ f) (hf1 : f < 1) :
    HSL_TO_RGB m M (M - m) (((k : α) + f) / 6 + 1 / 3) = (sectorColor k M m f a).r := by
  interval_cases k
  · rw [HSL_TO_RGB_top _ _ _ _ (by norm_num; linarith) (by norm_num; linarith)]
    simp [sectorColor]
  · rw [HSL_TO_RGB_fall _ _ _ _ (by norm_num; linarith) (by norm_num; linarith)]
    simp [sectorColor]; ring
  · rw [HSL_TO_RGB_bottom _ _ _ _ (by norm_num; linarith) (by norm_num; linarith)]
    simp [sectorColor]
  · rw [HSL_TO_RGB_bottom _ _ _ _ (by norm_num; linarith) (by norm_num; linarith)]
    simp [sectorColor]
  · rcases eq_or_lt_of_le hf0 with e | hpos
    · subst e
      rw [HSL_TO_RGB_bottom _ _ _ _ (by norm_num) (by norm_num)]
      simp [sectorColor]
    · rw [HSL_TO_RGB_rise_over _ _ _ _ (by norm_num; linarith) (by norm_num; linarith)]
      simp [sectorColor]; ring
  · rw [HSL_TO_RGB_top_over _ _ _ _ (by norm_num; linarith) (by norm_num; linarith)]
    simp [sectorColor]

theorem HSL_TO_RGB_green (M m f a : α) (k : Nat) (hk : k < 6) (hf0 : 0 ≤ f) (hf1 : f < 1) :
    HSL_TO_RGB m M (M - m) (((k : α) + f) / 6) = (sectorColor k M m f a).g := by
  interval_cases k
  · rw [HSL_TO_RGB_rise _ _ _ _ (by norm_num; linarith) (by norm_num; linarith)]
    simp [sectorColor]; ring
  · rw [HSL_TO_RGB_top _ _ _ _ (by norm_num; linarith) (by norm_num; linarith)]
    simp [sectorColor]
  · rw [HSL_TO_RGB_top _ _ _ _ (by norm_num; linarith) (by norm_num; linarith)]
    simp [sectorColor]
  · rw [HSL_TO_RGB_fall _ _ _ _ (by norm_num; linarith) (by norm_num; linarith)]
    simp [sectorColor]; ring
  · rw [HSL_TO_RGB_bottom _ _ _ _ (by norm_num; linarith) (by norm_num; linarith)]
    simp [sectorColor]
  · rw [HSL_TO_RGB_bottom _ _ _ _ (by norm_num; linarith) (by norm_num; linarith)]
    simp [sectorColor]

theorem HSL_TO_RGB_blue (M m f a : α) (k : Nat) (hk : k < 6) (hf0 : 0 ≤ f) (hf1 : f < 1) :
    HSL_TO_RGB m M (M - m) (((k : α) + f) / 6 - 1 / 3) = (sectorColor k M m f a).b := by
  interval_cases k
  · rw [HSL_TO_RGB_bottom_neg _ _ _ _ (by norm_num; linarith) (by norm_num; linarith)]
    simp [sectorColor]
  · rw [HSL_TO_RGB_bottom_neg _ _ _ _ (by norm_num; linarith) (by norm_num; linarith)]
    simp [sectorColor]
  · rw [HSL_TO_RGB_rise _ _ _ _ (by norm_num; linarith) (by norm_num; linarith)]
    simp [sectorColor]; ring
  · rw [HSL_TO_RGB_top _ _ _ _ (by norm_num; linarith) (by norm_num; linarith)]
    simp [sectorColor]
  · rw [HSL_TO_RGB_top _ _ _ _ (by norm_num; linarith) (by norm_num; linarith)]
    simp [sectorColor]
  · rw [HSL_TO_RGB_fall _ _ _ _ (by norm_num; linarith) (by norm_num; linarith)]
    simp [sectorColor]; ring

/-- `NX_ColorFromHSL` at hue `60 * (k + f)` is the table colour of sector `k`
at fraction `f`, once its intermediate `q` is known to be `M` and `p` to be `m`. -/
theorem NX_ColorFromHSL_sector (h s l a f M m : α) (k : Nat) (hs : s ≠ 0)
    (hk : k < 6) (hf0 : 0 ≤ f) (hf1 : f < 1) (hh : h = 60 * ((k : α) + f))
    (hq : (if l < 1 / 2 then l * (1 + s) else l + s - l * s) = M) (hp : 2 * l - M = m) :
    NX_ColorFromHSL h s l a = sectorColor k M m f a := by
  have hn : h / 360 = ((k : α) + f) / 6 := by rw [hh]; field_simp; ring
  simp only [NX_ColorFromHSL, if_neg hs, hq, hp, hn]
  rw [HSL_TO_RGB_red M m f a k hk hf0 hf1, HSL_TO_RGB_green M m f a k hk hf0 hf1,
    HSL_TO_RGB_blue M m f a k hk hf0 hf1]
  interval_cases k <;> simp [sectorColor]

theorem NX_PI_pos : (0 : α) < NX_PI := by
  unfold NX_PI
  norm_num

theorem wrapI32_of_mem (x : Int) (h0 : -2147483648 ≤ x) (h1 : x < 2147483648) :
    wrapI32 x = x := by
  unfold wrapI32
  omega

/-- Bounds on the C remainder by a positive divisor: it stays within one
divisor of zero, has the sign of the dividend and is no farther from zero. -/
theorem tmod_bounds (a b : Int) (hb : 0 < b) :
    -b < Int.tmod a b ∧ Int.tmod a b < b
      ∧ (0 ≤ a → 0 ≤ Int.tmod a b) ∧ (a < 0 → a ≤ Int.tmod a b ∧ Int.tmod a b ≤ 0) := by
  have hlt := Int.tmod_lt_of_pos a hb
  have hdef := Int.tmod_def a b
  rcases le_or_lt 0 a with ha | ha
  · have h0 := Int.tmod_nonneg b ha
    exact ⟨by omega, hlt, fun _ => h0, fun h => by omega⟩
  · have hna : 0 ≤ -a := by omega
    have h0 := Int.tmod_nonneg b hna
    have h1 := Int.tmod_lt_of_pos (-a) hb
    have e : Int.tmod (-a) b = -Int.tmod a b := by
      rw [Int.tmod_def, Int.neg_tdiv, hdef]
      ring
    have hq : 0 ≤ b * (-a).tdiv b := Int.mul_nonneg hb.le (Int.tdiv_nonneg hna hb.le)
    have hle : Int.tmod (-a) b ≤ -a := by
      rw [Int.tmod_def]
      omega
    exact ⟨by omega, hlt, fun h => by omega, fun _ => ⟨by omega, by omega⟩⟩

/-- Dividing the components of a sum of squares by its square root gives a sum
of squares equal to 1. -/
theorem sumsq_div_sqrt (L : ℝ) (hL : 0 < L) (s : ℝ) (hs : s = L) :
    s * ((1 / Real.sqrt L) * (1 / Real.sqrt L)) = 1 := by
  have h2 : Real.sqrt L * Real.sqrt L = L := Real.mul_self_sqrt hL.le
  rw [hs, div_mul_div_comm, one_mul, h2, mul_one_div_cancel hL.ne']

theorem vec2_normalize_of_pos (v : NX_Vec2 ℝ) (h : 0 < v.x * v.x + v.y * v.y) :
    NX_Vec2Normalize Real.sqrt v = NX_Vec2Scale v (1 / Real.sqrt (v.x * v.x + v.y * v.y))
      ∧ NX_Vec2Length Real.sqrt (NX_Vec2Normalize Real.sqrt v) = 1 := by
  have hpos : 0 < Real.sqrt (v.x * v.x + v.y * v.y) := Real.sqrt_pos.mpr h
  have e : NX_Vec2Normalize Real.sqrt v
      = NX_Vec2Scale v (1 / Real.sqrt (v.x * v.x + v.y * v.y)) := by
    simp only [NX_Vec2Normalize, NX_Vec2Length, gt_iff_lt, if_pos hpos]
  refine ⟨e, ?_⟩
  rw [e]
  simp only [NX_Vec2Length, NX_Vec2Scale]
  have hrad := sumsq_div_sqrt _ h (v.x * v.x + v.y * v.y) rfl
  refine (congrArg Real.sqrt ?_).trans Real.sqrt_one
  linear_combination hrad

theorem vec2_normalize_of_zero (v : NX_Vec2 ℝ) (h : v.x * v.x + v.y * v.y = 0) :
    NX_Vec2Normalize Real.sqrt v = ⟨0, 0⟩ := by
  simp [NX_Vec2Normalize, NX_Vec2Length, h]

theorem vec3_normalize_of_pos (v : NX_Vec3 ℝ) (h : 0 < v.x * v.x + v.y * v.y + v.z * v.z) :
    NX_Vec3Normalize Real.sqrt v
        = NX_Vec3Scale v (1 / Real.sqrt (v.x * v.x + v.y * v.y + v.z * v.z))
      ∧ NX_Vec3Length Real.sqrt (NX_Vec3Normalize Real.sqrt v) = 1 := by
  have hpos : 0 < Real.sqrt (v.x * v.x + v.y * v.y + v.z * v.z) := Real.sqrt_pos.mpr h
  have e : NX_Vec3Normalize Real.sqrt v
      = NX_Vec3Scale v (1 / Real.sqrt (v.x * v.x + v.y * v.y + v.z * v.z)) := by
    simp only [NX_Vec3Normalize, NX_Vec3Length, gt_iff_lt, if_pos hpos]
  refine ⟨e, ?_⟩
  rw [e]
  simp only [NX_Vec3Length, NX_Vec3Scale]
  have hrad := sumsq_div_sqrt _ h (v.x * v.x + v.y * v.y + v.z * v.z) rfl
  refine (congrArg Real.sqrt ?_).trans Real.sqrt_one
  linear_combination hrad

theorem vec3_normalize_of_zero (v : NX_Vec3 ℝ) (h : v.x * v.x + v.y * v.y + v.z * v.z = 0) :
    NX_Vec3Normalize Real.sqrt v = ⟨0, 0, 0⟩ := by
  simp [NX_Vec3Normalize, NX_Vec3Length, h]

theorem vec4_normalize_of_gt (v : NX_Vec4 ℝ)
    (h : v.x * v.x + v.y * v.y + v.z * v.z + v.w * v.w > 1e-8) :
    NX_Vec4Normalize Real.sqrt v
        = NX_Vec4Scale v (1 / Real.sqrt (v.x * v.x + v.y * v.y + v.z * v.z + v.w * v.w))
      ∧ NX_Vec4Length Real.sqrt (NX_Vec4Normalize Real.sqrt v) = 1 := by
  have hL : 0 < v.x * v.x + v.y * v.y + v.z * v.z + v.w * v.w :=
    lt_trans (by norm_num) h
  have e : NX_Vec4Normalize Real.sqrt v
      = NX_Vec4Scale v (1 / Real.sqrt (v.x * v.x + v.y * v.y + v.z * v.z + v.w * v.w)) := by
    simp only [NX_Vec4Normalize, if_pos h, NX_Vec4Scale, sub_self, add_zero, one_mul]
  refine ⟨e, ?_⟩
  rw [e]
  simp only [NX_Vec4Length, NX_Vec4Scale]
  have hrad := sumsq_div_sqrt _ hL (v.x * v.x + v.y * v.y + v.z * v.z + v.w * v.w) rfl
  refine (congrArg Real.sqrt ?_).trans Real.sqrt_one
  linear_combination hrad

theorem vec4_normalize_of_le (v : NX_Vec4 ℝ)
    (h : v.x * v.x + v.y * v.y + v.z * v.z + v.w * v.w ≤ 1e-8) :
    NX_Vec4Normalize Real.sqrt v = ⟨0, 0, 0, 0⟩ := by
  simp only [NX_Vec4Normalize, if_neg (not_lt.mpr h), zero_mul, mul_zero]

theorem sumsq2_nonneg (v : NX_Vec2 ℝ) : 0 ≤ v.x * v.x + v.y * v.y := by
  nlinarith [mul_self_nonneg v.x, mul_self_nonneg v.y]

theorem sumsq3_nonneg (v : NX_Vec3 ℝ) : 0 ≤ v.x * v.x + v.y * v.y + v.z * v.z := by
  nlinarith [mul_self_nonneg v.x, mul_self_nonneg v.y, mul_self_nonneg v.z]

theorem vec3_normalize_unit_axis (a : NX_Vec3 ℝ) (h : a.x * a.x + a.y * a.y + a.z * a.z = 1) :
    NX_Vec3Normalize Real.sqrt a = a := by
  simp [NX_Vec3Normalize, NX_Vec3Length, NX_Vec3Scale, h]

theorem NX_PrevPowerOfTwo_eq (x : Nat) (h1 : 1 ≤ x) (h2 : x < 2 ^ 64) :
    NX_PrevPowerOfTwo x = 2 ^ Nat.log2 x := by
  have hx : x ≠ 0 := by omega
  have hl : Nat.log2 x < 64 := (Nat.log2_lt hx).mpr h2
  have hle : 2 ^ Nat.log2 x ≤ x := Nat.log2_self_le hx
  simp only [NX_PrevPowerOfTwo, NX_Clz64, if_neg hx]
  rw [show 63 - (63 - Nat.log2 x) = Nat.log2 x by omega, Nat.one_shiftLeft,
    Nat.mod_eq_of_lt (lt_of_le_of_lt hle h2)]

theorem NX_NextPowerOfTwo_eq (x : Nat) (h1 : 2 ≤ x) (h2 : x ≤ 2 ^ 63) :
    NX_NextPowerOfTwo x = 2 ^ (Nat.log2 (x - 1) + 1) ∧ Nat.log2 (x - 1) + 1 ≤ 63 := by
  have hx : x - 1 ≠ 0 := by omega
  have hlt : x - 1 < 2 ^ 63 := by omega
  have hl : Nat.log2 (x - 1) < 63 := (Nat.log2_lt hx).mpr hlt
  have hmod : (x - 1) % 2 ^ 64 = x - 1 := Nat.mod_eq_of_lt (by omega)
  have hpow : 2 ^ (Nat.log2 (x - 1) + 1) < 2 ^ 64 :=
    Nat.pow_lt_pow_right (by norm_num) (by omega)
  refine ⟨?_, by omega⟩
  simp only [NX_NextPowerOfTwo, NX_Clz64, if_neg (show ¬ x ≤ 1 by omega), hmod, if_neg hx]
  rw [show 64 - (63 - Nat.log2 (x - 1)) = Nat.log2 (x - 1) + 1 by omega, Nat.one_shiftLeft,
    Nat.mod_eq_of_lt hpow]

/-- For `2 ≤ x ≤ 2^63` the next power of two is at least `x` and below every
power of two that is at least `x`. -/
theorem next_bounds (x : Nat) (h1 : 2 ≤ x) (h2 : x ≤ 2 ^ 63) :
    x ≤ NX_NextPowerOfTwo x ∧ ∀ j : Nat, x ≤ 2 ^ j → NX_NextPowerOfTwo x ≤ 2 ^ j := by
  obtain ⟨e, _⟩ := NX_NextPowerOfTwo_eq x h1 h2
  have hx : x - 1 ≠ 0 := by omega
  rw [e]
  constructor
  · have := @Nat.lt_log2_self (x - 1)
    omega
  · intro j hj
    have hlow : 2 ^ Nat.log2 (x - 1) ≤ x - 1 := Nat.log2_self_le hx
    have hlt : 2 ^ Nat.log2 (x - 1) < 2 ^ j := by omega
    have hexp : Nat.log2 (x - 1) < j := (Nat.pow_lt_pow_iff_right (by norm_num)).mp hlt
    exact Nat.pow_le_pow_right (by norm_num) hexp

/-- For `1 ≤ x < 2^64` the previous power of two is at most `x`, more than half
of `x`, and above every power of two that is at most `x`. -/
theorem prev_bounds (x : Nat) (h1 : 1 ≤ x) (h2 : x < 2 ^ 64) :
    NX_PrevPowerOfTwo x ≤ x ∧ x < 2 * NX_PrevPowerOfTwo x
      ∧ ∀ j : Nat, 2 ^ j ≤ x → 2 ^ j ≤ NX_PrevPowerOfTwo x := by
  have hx : x ≠ 0 := by omega
  rw [NX_PrevPowerOfTwo_eq x h1 h2]
  refine ⟨Nat.log2_self_le hx, ?_, ?_⟩
  · have := @Nat.lt_log2_self x
    rw [Nat.pow_succ] at this
    omega
  · intro j hj
    exact Nat.pow_le_pow_right (by norm_num) ((Nat.le_log2 hx).mpr hj)

theorem testBit_of_pow_le (n k : Nat) (h1 : 2 ^ k ≤ n) (h2 : n < 2 ^ (k + 1)) :
    n.testBit k = true := by
  rw [Nat.testBit_to_div_mod]
  have hd : n / 2 ^ k = 1 := by
    apply Nat.div_eq_of_lt_le
    · simpa using h1
    · rw [pow_succ] at h2
      omega
  simp [hd]

theorem and_pred_eq_zero_iff (x : Nat) (hx : 0 < x) :
    x &&& (x - 1) = 0 ↔ ∃ k, x = 2 ^ k := by
  constructor
  · intro h
    refine ⟨Nat.log2 x, ?_⟩
    have hx0 : x ≠ 0 := by omega
    have hle : 2 ^ Nat.log2 x ≤ x := Nat.log2_self_le hx0
    have hlt : x < 2 ^ (Nat.log2 x + 1) := Nat.lt_log2_self
    by_contra hne
    have hp : 0 < 2 ^ Nat.log2 x := Nat.pos_pow_of_pos _ (by norm_num)
    have b1 := testBit_of_pow_le x (Nat.log2 x) hle hlt
    have b2 := testBit_of_pow_le (x - 1) (Nat.log2 x) (by omega) (by omega)
    have b3 : (x &&& (x - 1)).testBit (Nat.log2 x) = true := by
      rw [Nat.testBit_and, b1, b2]; rfl
    rw [h] at b3
    simp at b3
  · rintro ⟨k, rfl⟩
    rw [Nat.and_pow_two_sub_one_eq_mod, Nat.mod_self]

theorem and_mask_eq (w k x : Nat) (hk : k ≤ w) (hx : x < 2 ^ w) :
    x &&& (2 ^ w - 2 ^ k) = x / 2 ^ k * 2 ^ k := by
  have hm : 2 ^ w - 2 ^ k = (2 ^ (w - k) - 1) <<< k := by
    rw [Nat.shiftLeft_eq, Nat.sub_mul, one_mul, ← pow_add, Nat.sub_add_cancel hk]
  have hr : x / 2 ^ k * 2 ^ k = (x >>> k) <<< k := by
    rw [Nat.shiftLeft_eq, Nat.shiftRight_eq_div_pow]
  rw [hm, hr]
  apply Nat.eq_of_testBit_eq
  intro i
  rw [Nat.testBit_and, Nat.testBit_shiftLeft, Nat.testBit_shiftLeft, Nat.testBit_shiftRight,
    Nat.testBit_two_pow_sub_one]
  by_cases hik : k ≤ i
  · have e : k + (i - k) = i := by omega
    rw [e]
    by_cases hiw : i < w
    · have : i - k < w - k := by omega
      simp [hik, this]
    · have hxi : x < 2 ^ i := lt_of_lt_of_le hx (Nat.pow_le_pow_right (by norm_num) (by omega))
      simp [Nat.testBit_lt_two_pow hxi]
  · simp [hik]

theorem align_mask_eq (w k : Nat) (hk : k < w) :
    2 ^ w - 1 - (2 ^ k + 2 ^ w - 1) % 2 ^ w = 2 ^ w - 2 ^ k := by
  have hp : 0 < 2 ^ k := Nat.pos_pow_of_pos _ (by norm_num)
  have hlt : 2 ^ k < 2 ^ w := Nat.pow_lt_pow_right (by norm_num) hk
  have e : 2 ^ k + 2 ^ w - 1 = (2 ^ k - 1) + 2 ^ w := by omega
  rw [e, Nat.add_mod_right, Nat.mod_eq_of_lt (by omega)]
  omega

theorem NX_ALIGN_DOWN_eq (w k value : Nat) (hk : k < w) (hv : value < 2 ^ w) :
    NX_ALIGN_DOWN w value (2 ^ k) = value / 2 ^ k * 2 ^ k := by
  simp only [NX_ALIGN_DOWN]
  rw [align_mask_eq w k hk, Nat.mod_eq_of_lt hv, and_mask_eq w k value hk.le hv]

theorem NX_ALIGN_UP_eq (w k value : Nat) (hk : k < w) (hv : value + 2 ^ k - 1 < 2 ^ w) :
    NX_ALIGN_UP w value (2 ^ k) = (value + 2 ^ k - 1) / 2 ^ k * 2 ^ k := by
  have hp : 0 < 2 ^ k := Nat.pos_pow_of_pos _ (by norm_num)
  simp only [NX_ALIGN_UP]
  have e : value + 2 ^ k + 2 ^ w - 1 = (value + 2 ^ k - 1) + 2 ^ w := by omega
  rw [align_mask_eq w k hk, e, Nat.add_mod_right, Nat.mod_eq_of_lt hv,
    and_mask_eq w k _ hk.le hv]

theorem vec3_sumsq_pos (v : NX_Vec3 α) (h : v ≠ ⟨0, 0, 0⟩) :
    0 < v.x * v.x + v.y * v.y + v.z * v.z := by
  have h0 : 0 ≤ v.x * v.x + v.y * v.y + v.z * v.z := by
    nlinarith [mul_self_nonneg v.x, mul_self_nonneg v.y, mul_self_nonneg v.z]
  rcases eq_or_lt_of_le h0 with e | hlt
  · exfalso
    apply h
    have hx : v.x * v.x = 0 := by
      nlinarith [mul_self_nonneg v.x, mul_self_nonneg v.y, mul_self_nonneg v.z]
    have hy : v.y * v.y = 0 := by
      nlinarith [mul_self_nonneg v.x, mul_self_nonneg v.y, mul_self_nonneg v.z]
    have hz : v.z * v.z = 0 := by
      nlinarith [mul_self_nonneg v.x, mul_self_nonneg v.y, mul_self_nonneg v.z]
    ext
    · exact mul_self_eq_zero.mp hx
    · exact mul_self_eq_zero.mp hy
    · exact mul_self_eq_zero.mp hz
  · exact hlt

/-- When the three checks pass, the constructor calls `createBuffer` on the
initialised members and nothing else. -/
theorem Buffer.construct_valid {δ : Type} (gl : GLEnums)
    (createBuffer : Buffer → δ → Nat → Buffer) (target : Nat) (size : Int) (data : δ)
    (usage : Nat) (h1 : Buffer.IsValidTarget gl target = true)
    (h2 : Buffer.IsValidUsage gl usage = true) (h3 : 0 < size) :
    Buffer.construct gl createBuffer target size data usage
      = (createBuffer ⟨0, target, size, usage⟩ data usage, [BufferEvent.createBuffer]) := by
  simp [Buffer.construct, h1, h2, not_le.mpr h3]

/-- A rational within one half of the integer `m` rounds to `m`. -/
theorem roundHalfEven_eq (t : ℚ) (m : Int) (h1 : (m : ℚ) - 1 / 2 < t) (h2 : t < m + 1 / 2) :
    roundHalfEven t = m := by
  simp only [roundHalfEven]
  rcases le_or_lt (m : ℚ) t with h | h
  · have hf : ⌊t⌋ = m := by
      rw [Int.floor_eq_iff]
      exact ⟨h, by linarith⟩
    rw [hf, if_pos (by linarith)]
  · have hf : ⌊t⌋ = m - 1 := by
      rw [Int.floor_eq_iff]
      push_cast
      exact ⟨by linarith, by linarith⟩
    rw [hf]
    push_cast
    rw [if_neg (by linarith), if_pos (by linarith)]
    ring

/-- Evaluation of `roundF32`: if `2^e ≤ |q| < 2^(e+1)` with `e ≥ -126` and `q`
is within half a unit in the last place of `m * 2^(e-23)`, that is its
binary32 value. -/
theorem roundF32_eq (q r : ℚ) (e m : Int) (he : -126 ≤ e) (h1 : (2 : ℚ) ^ e ≤ |q|)
    (h2 : |q| < (2 : ℚ) ^ (e + 1)) (hm1 : (m : ℚ) - 1 / 2 < q / 2 ^ (e - 23))
    (hm2 : q / 2 ^ (e - 23) < m + 1 / 2) (hr : r = m * 2 ^ (e - 23)) : roundF32 q = r := by
  have hpos : 0 < |q| := lt_of_lt_of_le (zpow_pos (by norm_num) e) h1
  have hq : q ≠ 0 := abs_pos.mp hpos
  have hlog : Int.log 2 |q| = e := by
    apply le_antisymm
    · have := (Int.lt_zpow_iff_log_lt (R := ℚ) (b := 2) (by norm_num) hpos).mp
        (by exact_mod_cast h2)
      omega
    · exact (Int.zpow_le_iff_le_log (R := ℚ) (b := 2) (by norm_num) hpos).mp
        (by exact_mod_cast h1)
  simp only [roundF32, if_neg hq, hlog, max_eq_left he]
  rw [roundHalfEven_eq _ m hm1 hm2, hr]

/-- Step-by-step evaluation of `NX_Wrap`: the seven intermediate values. -/
theorem NX_Wrap_eval (value lo hi range offset quot a b r : ℚ) (k : Int)
    (h1 : roundF32 (hi - lo) = range) (h2 : roundF32 (value - lo) = offset)
    (h3 : roundF32 (offset / range) = quot) (h4 : ⌊quot⌋ = k)
    (h5 : roundF32 (lo + offset) = a) (h6 : roundF32 (range * (k : ℚ)) = b)
    (h7 : roundF32 (a - b) = r) : NX_Wrap value lo hi = r := by
  simp only [NX_Wrap, h1, h2, h3, h4, h5, h6, h7]

/-- The `float` value of `NX_PI` is `13176795 * 2^-22 = 3.14159274...`. -/
theorem NX_PI_binary32_eq : NX_PI_binary32 = 13176795 / 2 ^ 22 :=
  roundF32_eq _ _ 1 13176795 (by norm_num) (by norm_num [NX_PI, abs_of_pos])
    (by norm_num [NX_PI, abs_of_pos]) (by norm_num [NX_PI]) (by norm_num [NX_PI]) (by norm_num)

/-- In binary32 a colour built with saturation `0` is the grey `(v, v, v)`, and
it converts back to `(0, 0, v)`. -/
theorem hsv_binary32_grey (h v a : ℚ) :
    NX_ColorToHSV_binary32 (NX_ColorFromHSV_binary32 h 0 v a) = ⟨0, 0, v⟩ := by
  simp [NX_ColorFromHSV_binary32, NX_ColorToHSV_binary32, NX_MAX3, NX_MAX, NX_MIN3, NX_MIN,
    roundF32]

theorem roundF32_zero : roundF32 0 = 0 := by simp [roundF32]

/-- In binary32 a colour built with value `0` is black, and it converts back
to `(0, 0, 0)`. -/
theorem hsv_binary32_black (h s a : ℚ) :
    NX_ColorToHSV_binary32 (NX_ColorFromHSV_binary32 h s 0 a) = ⟨0, 0, 0⟩ := by
  have hz : ∀ c : NX_Color ℚ, c.r = 0 → c.g = 0 → c.b = 0 →
      NX_ColorToHSV_binary32 c = ⟨0, 0, 0⟩ := by
    intro c h1 h2 h3
    simp [NX_ColorToHSV_binary32, h1, h2, h3, NX_MAX3, NX_MAX]
  apply hz <;> simp only [NX_ColorFromHSV_binary32, zero_mul, roundF32_zero] <;> split_ifs <;> rfl

/-- Binary32 evaluation of `NX_ColorFromHSV(10, 2^-10, 1, 1)`. -/
theorem NX_ColorFromHSV_binary32_example :
    NX_ColorFromHSV_binary32 10 (1 / 2 ^ 10) 1 1
      = ⟨1, 16763563 / 2 ^ 24, 1023 / 1024, 1⟩ := by
  have e1 : roundF32 ((10 : ℚ) / 60) = 11184811 / 2 ^ 26 :=
    roundF32_eq _ _ (-3) (11184811) (by norm_num) (by norm_num [abs_of_pos])
      (by norm_num [abs_of_pos]) (by norm_num) (by norm_num) (by norm_num)
  have e2 : castInt (11184811 / 2 ^ 26 : ℚ) = 0 := by
    rw [castInt, if_pos (by norm_num), Int.floor_eq_iff]; norm_num
  have e3 : roundF32 ((11184811 / 2 ^ 26 : ℚ) - 0) = 11184811 / 2 ^ 26 :=
    roundF32_eq _ _ (-3) (11184811) (by norm_num) (by norm_num [abs_of_pos])
      (by norm_num [abs_of_pos]) (by norm_num) (by norm_num) (by norm_num)
  have e4 : roundF32 ((1 : ℚ) - 1 / 2 ^ 10) = 1023 / 1024 :=
    roundF32_eq _ _ (-1) (16760832) (by norm_num) (by norm_num [abs_of_pos])
      (by norm_num [abs_of_pos]) (by norm_num) (by norm_num) (by norm_num)
  have e5 : roundF32 ((1 : ℚ) * (1023 / 1024)) = 1023 / 1024 :=
    roundF32_eq _ _ (-1) (16760832) (by norm_num) (by norm_num [abs_of_pos])
      (by norm_num [abs_of_pos]) (by norm_num) (by norm_num) (by norm_num)
  have e6 : roundF32 ((1 / 2 ^ 10 : ℚ) * (11184811 / 2 ^ 26)) = 11184811 / 2 ^ 36 :=
    roundF32_eq _ _ (-13) (11184811) (by norm_num) (by norm_num [abs_of_pos])
      (by norm_num [abs_of_pos]) (by norm_num) (by norm_num) (by norm_num)
  have e7 : roundF32 ((1 : ℚ) - 11184811 / 2 ^ 36) = 16774485 / 2 ^ 24 :=
    roundF32_eq _ _ (-1) (16774485) (by norm_num) (by norm_num [abs_of_pos])
      (by norm_num [abs_of_pos]) (by norm_num) (by norm_num) (by norm_num)
  have e8 : roundF32 ((1 : ℚ) * (16774485 / 2 ^ 24)) = 16774485 / 2 ^ 24 :=
    roundF32_eq _ _ (-1) (16774485) (by norm_num) (by norm_num [abs_of_pos])
      (by norm_num [abs_of_pos]) (by norm_num) (by norm_num) (by norm_num)
  have e9 : roundF32 ((1 : ℚ) - 11184811 / 2 ^ 26) = 13981013 / 2 ^ 24 :=
    roundF32_eq _ _ (-1) (13981013) (by norm_num) (by norm_num [abs_of_pos])
      (by norm_num [abs_of_pos]) (by norm_num) (by norm_num) (by norm_num)
  have e10 : roundF32 ((1 / 2 ^ 10 : ℚ) * (13981013 / 2 ^ 24)) = 13981013 / 2 ^ 34 :=
    roundF32_eq _ _ (-11) (13981013) (by norm_num) (by norm_num [abs_of_pos])
      (by norm_num [abs_of_pos]) (by norm_num) (by norm_num) (by norm_num)
  have e11 : roundF32 ((1 : ℚ) - 13981013 / 2 ^ 34) = 16763563 / 2 ^ 24 :=
    roundF32_eq _ _ (-1) (16763563) (by norm_num) (by norm_num [abs_of_pos])
      (by norm_num [abs_of_pos]) (by norm_num) (by norm_num) (by norm_num)
  have e12 : roundF32 ((1 : ℚ) * (16763563 / 2 ^ 24)) = 16763563 / 2 ^ 24 :=
    roundF32_eq _ _ (-1) (16763563) (by norm_num) (by norm_num [abs_of_pos])
      (by norm_num [abs_of_pos]) (by norm_num) (by norm_num) (by norm_num)
  have e0 : roundF32 (((0 : Int) : ℚ)) = 0 := by simp [roundF32]
  have hs : ¬ ((1 / 2 ^ 10 : ℚ) = 0) := by norm_num
  simp only [NX_ColorFromHSV_binary32, if_neg hs, e1, e2, e0, e3, e4, e5, e6, e7, e8, e9,
    e10, e11, e12]
  norm_num [Int.tmod]

/-- Binary32 evaluation of the hue of the colour above: `40965 / 4096`. -/
theorem NX_ColorToHSV_binary32_example :
    (NX_ColorToHSV_binary32 ⟨1, 16763563 / 2 ^ 24, 1023 / 1024, 1⟩).x = 40965 / 4096 := by
  have hmax : NX_MAX3 (1 : ℚ) (16763563 / 2 ^ 24) (1023 / 1024) = 1 := by
    norm_num [NX_MAX3, NX_MAX]
  have hmin : NX_MIN3 (1 : ℚ) (16763563 / 2 ^ 24) (1023 / 1024) = 1023 / 1024 := by
    norm_num [NX_MIN3, NX_MIN]
  have e1 : roundF32 ((1 : ℚ) - 1023 / 1024) = 1 / 1024 :=
    roundF32_eq _ _ (-10) (8388608) (by norm_num) (by norm_num [abs_of_pos])
      (by norm_num [abs_of_pos]) (by norm_num) (by norm_num) (by norm_num)
  have e2 : roundF32 ((1 / 1024 : ℚ) / 1) = 1 / 1024 :=
    roundF32_eq _ _ (-10) (8388608) (by norm_num) (by norm_num [abs_of_pos])
      (by norm_num [abs_of_pos]) (by norm_num) (by norm_num) (by norm_num)
  have e3 : roundF32 ((16763563 / 2 ^ 24 : ℚ) - 1023 / 1024) = 2731 / 2 ^ 24 :=
    roundF32_eq _ _ (-13) (11186176) (by norm_num) (by norm_num [abs_of_pos])
      (by norm_num [abs_of_pos]) (by norm_num) (by norm_num) (by norm_num)
  have e4 : roundF32 ((2731 / 2 ^ 24 : ℚ) / (1 / 1024)) = 2731 / 2 ^ 14 :=
    roundF32_eq _ _ (-3) (11186176) (by norm_num) (by norm_num [abs_of_pos])
      (by norm_num [abs_of_pos]) (by norm_num) (by norm_num) (by norm_num)
  have e5 : roundF32 ((60 : ℚ) * (2731 / 2 ^ 14)) = 40965 / 4096 :=
    roundF32_eq _ _ (3) (10487040) (by norm_num) (by norm_num [abs_of_pos])
      (by norm_num [abs_of_pos]) (by norm_num) (by norm_num) (by norm_num)
  simp only [NX_ColorToHSV_binary32, hmax, hmin, e1, e2, e3, e4, e5]
  rw [if_neg (by norm_num : ¬ ((1 : ℚ) = 0 ∨ (1 / 1024 : ℚ) = 0))]
  simp only [if_true]
  rw [if_neg (by norm_num : ¬ ((40965 / 4096 : ℚ) < 0))]

end Helpers

/-! ## Rotation by quaternions (C1 to C3) -/

section Rotation

variable {α : Type} [LinearOrderedField α]

/-- C1: rotating a vector by a unit quaternion preserves its squared length,
and hence its length `sqrtf (x² + y² + z²)` whatever square-root function
`sqrtf` is used. -/
theorem vec3Rotate_preserves_length (sqrtf : α → α) (v : NX_Vec3 α) (q : NX_Quat α)
    (hq : q.x * q.x + q.y * q.y + q.z * q.z + q.w * q.w = 1) :
    NX_Vec3Length sqrtf (NX_Vec3Rotate v q) = NX_Vec3Length sqrtf v
      ∧ NX_Vec3LengthSq (NX_Vec3Rotate v q) = NX_Vec3LengthSq v := by
  have key : NX_Vec3LengthSq (NX_Vec3Rotate v q) = NX_Vec3LengthSq v := by
    simp only [NX_Vec3LengthSq, NX_Vec3Rotate]
    linear_combination
      ((2 * (q.y * v.z - q.z * v.y)) ^ 2 + (2 * (q.z * v.x - q.x * v.z)) ^ 2
        + (2 * (q.x * v.y - q.y * v.x)) ^ 2) * hq
  refine ⟨?_, key⟩
  unfold NX_Vec3Length
  exact congrArg sqrtf key

/-- C1 witness: the unit quaternion `(3/5, 4/5, 0, 0)` applied to `(1, 2, 3)`,
with the real square root. -/
theorem vec3Rotate_preserves_length_witness :
    NX_Vec3Length Real.sqrt (NX_Vec3Rotate ⟨1, 2, 3⟩ ⟨3/5, 4/5, 0, 0⟩)
        = NX_Vec3Length Real.sqrt ⟨1, 2, 3⟩
      ∧ NX_Vec3LengthSq (NX_Vec3Rotate (⟨1, 2, 3⟩ : NX_Vec3 ℝ) ⟨3/5, 4/5, 0, 0⟩)
        = NX_Vec3LengthSq (⟨1, 2, 3⟩ : NX_Vec3 ℝ) :=
  vec3Rotate_preserves_length Real.sqrt ⟨1, 2, 3⟩ ⟨3/5, 4/5, 0, 0⟩ (by norm_num)

/-- C2: for unit quaternions, rotating by the product `q1 * q2` is rotating by
`q2` first and by `q1` afterwards. -/
theorem vec3Rotate_quatMul (v : NX_Vec3 α) (q1 q2 : NX_Quat α)
    (h1 : q1.x * q1.x + q1.y * q1.y + q1.z * q1.z + q1.w * q1.w = 1)
    (h2 : q2.x * q2.x + q2.y * q2.y + q2.z * q2.z + q2.w * q2.w = 1) :
    NX_Vec3Rotate v (NX_QuatMul q1 q2) = NX_Vec3Rotate (NX_Vec3Rotate v q2) q1 := by
  obtain ⟨a, b, c⟩ := v
  obtain ⟨x1, y1, z1, w1⟩ := q1
  obtain ⟨x2, y2, z2, w2⟩ := q2
  simp only at h1 h2
  ext
  · simp only [NX_Vec3Rotate, NX_QuatMul]
    linear_combination
      (w2 * (2 * (y2 * c - z2 * b))
        + (y2 * (2 * (x2 * b - y2 * a)) - z2 * (2 * (z2 * a - x2 * c)))) * h1
      + (w1 * (2 * (y1 * c - z1 * b))
        + (y1 * (2 * (x1 * b - y1 * a)) - z1 * (2 * (z1 * a - x1 * c)))) * h2
  · simp only [NX_Vec3Rotate, NX_QuatMul]
    linear_combination
      (w2 * (2 * (z2 * a - x2 * c))
        + (z2 * (2 * (y2 * c - z2 * b)) - x2 * (2 * (x2 * b - y2 * a)))) * h1
      + (w1 * (2 * (z1 * a - x1 * c))
        + (z1 * (2 * (y1 * c - z1 * b)) - x1 * (2 * (x1 * b - y1 * a)))) * h2
  · simp only [NX_Vec3Rotate, NX_QuatMul]
    linear_combination
      (w2 * (2 * (x2 * b - y2 * a))
        + (x2 * (2 * (z2 * a - x2 * c)) - y2 * (2 * (y2 * c - z2 * b)))) * h1
      + (w1 * (2 * (x1 * b - y1 * a))
        + (x1 * (2 * (z1 * a - x1 * c)) - y1 * (2 * (y1 * c - z1 * b)))) * h2

/-- C2 witness: the unit quaternions `(3/5, 4/5, 0, 0)` and `(0, 0, 5/13, 12/13)`
applied to `(1, 2, 3)`. -/
theorem vec3Rotate_quatMul_witness :
    NX_Vec3Rotate (⟨1, 2, 3⟩ : NX_Vec3 ℚ) (NX_QuatMul ⟨3/5, 4/5, 0, 0⟩ ⟨0, 0, 5/13, 12/13⟩)
      = NX_Vec3Rotate (NX_Vec3Rotate ⟨1, 2, 3⟩ ⟨0, 0, 5/13, 12/13⟩) ⟨3/5, 4/5, 0, 0⟩ :=
  vec3Rotate_quatMul ⟨1, 2, 3⟩ ⟨3/5, 4/5, 0, 0⟩ ⟨0, 0, 5/13, 12/13⟩ (by norm_num) (by norm_num)

/-- C3: with the real sine and cosine, the quarter turn about `+Y` built by
`NX_QuatFromAxisAngle` sends `+X` to `-Z`. -/
theorem vec3Rotate_quarter_turn_about_y :
    NX_Vec3Rotate (⟨1, 0, 0⟩ : NX_Vec3 ℝ)
        (NX_QuatFromAxisAngle Real.sin Real.cos ⟨0, 1, 0⟩ (Real.pi / 2))
      = ⟨0, 0, -1⟩ := by
  have hhalf : Real.pi / 2 * (1 / 2) = Real.pi / 4 := by ring
  have hsq : Real.sqrt 2 * Real.sqrt 2 = 2 := Real.mul_self_sqrt (by norm_num)
  simp only [NX_Vec3Rotate, NX_QuatFromAxisAngle, hhalf, Real.sin_pi_div_four,
    Real.cos_pi_div_four]
  ext
  · simp only; linear_combination (-1 / 2 : ℝ) * hsq
  · simp only; ring
  · simp only; linear_combination (-1 / 2 : ℝ) * hsq

end Rotation

/-! ## Colours (C4 to C10) -/

section Colour

variable {α : Type} [LinearOrderedField α]

/-- C4: packing the colour unpacked from a 32-bit value gives the value back. -/
theorem colorToHex_colorFromHex [FloorRing α] (x : Nat) (hx : x < 2 ^ 32) :
    NX_ColorToHex (NX_ColorFromHex x : NX_Color α) = x := by
  simp only [NX_ColorToHex, NX_ColorFromHex, mask_eq, Nat.shiftRight_eq_div_pow]
  rw [castU8_byte _ (Nat.mod_lt _ (by norm_num)), castU8_byte _ (Nat.mod_lt _ (by norm_num)),
    castU8_byte _ (Nat.mod_lt _ (by norm_num)), castU8_byte _ (Nat.mod_lt _ (by norm_num)),
    pack_bytes _ _ _ _ (Nat.mod_lt _ (by norm_num)) (Nat.mod_lt _ (by norm_num))
      (Nat.mod_lt _ (by norm_num))]
  omega

/-- C4 witness: the value `0x12345678`. -/
theorem colorToHex_colorFromHex_witness :
    NX_ColorToHex (NX_ColorFromHex 0x12345678 : NX_Color ℚ) = 0x12345678 :=
  colorToHex_colorFromHex 0x12345678 (by norm_num)

/-- C5: `NX_ColorFromHex` reads the bytes in `0xRRGGBBAA` order, agrees with
`NX_Color8` on them, and opaque red is `0xFF0000FF` in both directions. -/
theorem colorFromHex_byte_order (x : Nat) :
    (NX_ColorFromHex x : NX_Color α)
        = ⟨((x / 2 ^ 24 % 256 : Nat) : α) / 255, ((x / 2 ^ 16 % 256 : Nat) : α) / 255,
           ((x / 2 ^ 8 % 256 : Nat) : α) / 255, ((x % 256 : Nat) : α) / 255⟩
      ∧ (NX_ColorFromHex x : NX_Color α)
        = NX_Color8 ((x >>> 24) &&& 0xFF) ((x >>> 16) &&& 0xFF) ((x >>> 8) &&& 0xFF) (x &&& 0xFF)
      ∧ (NX_ColorFromHex 0xFF0000FF : NX_Color α) = ⟨1, 0, 0, 1⟩
      ∧ ∀ [FloorRing α], NX_ColorToHex (⟨1, 0, 0, 1⟩ : NX_Color α) = 0xFF0000FF := by
  refine ⟨?_, rfl, ?_, ?_⟩
  · simp only [NX_ColorFromHex, mask_eq, Nat.shiftRight_eq_div_pow]
  · simp only [NX_ColorFromHex, mask_eq, Nat.shiftRight_eq_div_pow]
    norm_num
  · intro _
    have h1 : NX_CLAMP (1 : α) 0 1 * 255 = ((255 : Nat) : α) := by
      rw [NX_CLAMP_of_mem _ zero_le_one le_rfl]; norm_num
    have h0 : NX_CLAMP (0 : α) 0 1 * 255 = ((0 : Nat) : α) := by
      rw [NX_CLAMP_of_mem _ le_rfl zero_le_one]; norm_num
    simp only [NX_ColorToHex, h1, h0]
    rw [castU8_natCast _ (by norm_num), castU8_natCast _ (by norm_num)]
    rfl

/-- C6: for a colour with `r`, `g`, `b` in `[0, 1]`, converting to HSV and back
gives the colour again, exactly. -/
theorem colorFromHSV_colorToHSV [FloorRing α] (c : NX_Color α)
    (hr : 0 ≤ c.r ∧ c.r ≤ 1) (hg : 0 ≤ c.g ∧ c.g ≤ 1) (hb : 0 ≤ c.b ∧ c.b ≤ 1) :
    NX_ColorFromHSV (NX_ColorToHSV c).x (NX_ColorToHSV c).y (NX_ColorToHSV c).z c.a = c := by
  obtain ⟨r, g, b, a⟩ := c
  simp only at hr hg hb ⊢
  obtain ⟨⟨m1, m2, m3⟩, ⟨M1, M2, M3⟩⟩ := max3_min3_facts r g b
  rw [NX_ColorToHSV_eq]
  by_cases h : NX_MAX3 r g b = 0 ∨ NX_MAX3 r g b - NX_MIN3 r g b = 0
  · rw [if_pos h]
    simp only [NX_ColorFromHSV, if_true]
    have er : NX_MAX3 r g b = r := by
      rcases h with h | h
      · linarith [hr.1]
      · linarith
    have eg : NX_MAX3 r g b = g := by
      rcases h with h | h
      · linarith [hg.1]
      · linarith
    have eb : NX_MAX3 r g b = b := by
      rcases h with h | h
      · linarith [hb.1]
      · linarith
    ext
    · exact er
    · exact eg
    · exact eb
    · rfl
  · rw [if_neg h]
    push_neg at h
    obtain ⟨hM0, hd⟩ := h
    obtain ⟨k, f, hk, hf0, hf1, hh, hsc⟩ := color_sector_decomp r g b a hd
    have hs : (NX_MAX3 r g b - NX_MIN3 r g b) / NX_MAX3 r g b ≠ 0 := div_ne_zero hd hM0
    simp only
    rw [NX_ColorFromHSV_sector _ _ _ _ f k hs hk hf0 hf1 hh]
    have hp : NX_MAX3 r g b * (1 - (NX_MAX3 r g b - NX_MIN3 r g b) / NX_MAX3 r g b)
        = NX_MIN3 r g b := by
      field_simp
    rw [hp]
    exact hsc

/-- C6 witness: the colour `(1/3, 1/5, 6/7, 1/2)`. -/
theorem colorFromHSV_colorToHSV_witness :
    NX_ColorFromHSV (NX_ColorToHSV (⟨1/3, 1/5, 6/7, 1/2⟩ : NX_Color ℚ)).x
        (NX_ColorToHSV (⟨1/3, 1/5, 6/7, 1/2⟩ : NX_Color ℚ)).y
        (NX_ColorToHSV (⟨1/3, 1/5, 6/7, 1/2⟩ : NX_Color ℚ)).z (1/2)
      = (⟨1/3, 1/5, 6/7, 1/2⟩ : NX_Color ℚ) :=
  colorFromHSV_colorToHSV ⟨1/3, 1/5, 6/7, 1/2⟩ (by norm_num) (by norm_num) (by norm_num)

/-- C7 (as stated, refuted): the grey `h = 180, s = 0, v = 1/2` comes back from
the round trip with hue `0`, which is farther than `1e-4` from `180`, in exact
arithmetic and in binary32 alike; and in binary32 `h = 10, s = 2^-10, v = 1`
comes back with hue `40965 / 4096 = 10.00122...`, which is farther than `1e-4`
from `10`. -/
theorem colorToHSV_colorFromHSV_counterexample :
    ((0 : ℚ) ≤ 180 ∧ (180 : ℚ) < 360 ∧ (0 : ℚ) ≤ 0 ∧ (0 : ℚ) ≤ 1 ∧ (0 : ℚ) ≤ 1 / 2
        ∧ (1 / 2 : ℚ) ≤ 1)
      ∧ NX_ColorToHSV (NX_ColorFromHSV (180 : ℚ) 0 (1 / 2) 1) = ⟨0, 0, 1 / 2⟩
      ∧ ¬ |(NX_ColorToHSV (NX_ColorFromHSV (180 : ℚ) 0 (1 / 2) 1)).x - 180| ≤ 1 / 10000
      ∧ NX_ColorToHSV_binary32 (NX_ColorFromHSV_binary32 180 0 (1 / 2) 1) = ⟨0, 0, 1 / 2⟩
      ∧ ((0 : ℚ) ≤ 10 ∧ (10 : ℚ) < 360 ∧ (0 : ℚ) ≤ 1 / 2 ^ 10 ∧ (1 / 2 ^ 10 : ℚ) ≤ 1
        ∧ (0 : ℚ) ≤ 1 ∧ (1 : ℚ) ≤ 1)
      ∧ (NX_ColorToHSV_binary32 (NX_ColorFromHSV_binary32 10 (1 / 2 ^ 10) 1 1)).x
          = 40965 / 4096
      ∧ ¬ |(NX_ColorToHSV_binary32 (NX_ColorFromHSV_binary32 10 (1 / 2 ^ 10) 1 1)).x - 10|
          ≤ 1 / 10000 := by
  have e : NX_ColorToHSV (NX_ColorFromHSV (180 : ℚ) 0 (1 / 2) 1) = ⟨0, 0, 1 / 2⟩ := by
    simp [NX_ColorFromHSV, NX_ColorToHSV_eq, NX_MAX3_eq_max, NX_MIN3_eq_min]
  have e2 : (NX_ColorToHSV_binary32 (NX_ColorFromHSV_binary32 10 (1 / 2 ^ 10) 1 1)).x
      = 40965 / 4096 := by
    rw [NX_ColorFromHSV_binary32_example, NX_ColorToHSV_binary32_example]
  refine ⟨by norm_num, e, ?_, hsv_binary32_grey 180 (1 / 2) 1, by norm_num, e2, ?_⟩
  · rw [e]
    norm_num
  · rw [e2]
    norm_num [abs_of_pos]

/-- C7 (amended): in exact arithmetic, for `h` in `[0, 360)` and `s`, `v` in
`[0, 1]`, the round trip through `NX_ColorFromHSV` and `NX_ColorToHSV` gives
`(h, s, v)` back exactly when `s` and `v` are both non-zero, and `(0, 0, v)`
when `s = 0` or `v = 0`; in binary32 the round trip is `(0, 0, v)` as well
when `s = 0` or `v = 0`. -/
theorem colorToHSV_colorFromHSV [FloorRing α] (h s v a : α)
    (hh : 0 ≤ h ∧ h < 360) (hs : 0 ≤ s ∧ s ≤ 1) (hv : 0 ≤ v ∧ v ≤ 1) :
    NX_ColorToHSV (NX_ColorFromHSV h s v a)
        = (if s = 0 ∨ v = 0 then ⟨0, 0, v⟩ else ⟨h, s, v⟩)
      ∧ (∀ h0 v0 a0 : ℚ,
          NX_ColorToHSV_binary32 (NX_ColorFromHSV_binary32 h0 0 v0 a0) = ⟨0, 0, v0⟩)
      ∧ ∀ h0 s0 a0 : ℚ,
          NX_ColorToHSV_binary32 (NX_ColorFromHSV_binary32 h0 s0 0 a0) = ⟨0, 0, 0⟩ := by
  refine ⟨?_, hsv_binary32_grey, hsv_binary32_black⟩
  by_cases hs0 : s = 0
  · rw [if_pos (Or.inl hs0)]
    simp [NX_ColorFromHSV, hs0, NX_ColorToHSV_eq, NX_MAX3_eq_max, NX_MIN3_eq_min]
  · obtain ⟨k, f, hk, hf0, hf1, hsplit⟩ := hue_sector_split h hh.1 hh.2
    rw [NX_ColorFromHSV_sector h s v a f k hs0 hk hf0 hf1 hsplit]
    by_cases hv0 : v = 0
    · rw [if_pos (Or.inr hv0), hv0]
      have e : sectorColor k (0 : α) (0 * (1 - s)) f a = ⟨0, 0, 0, a⟩ := by
        interval_cases k <;> simp [sectorColor]
      rw [e]
      simp [NX_ColorToHSV_eq, NX_MAX3_eq_max, NX_MIN3_eq_min]
    · rw [if_neg (by push_neg; exact ⟨hs0, hv0⟩)]
      have hspos : 0 < s := lt_of_le_of_ne hs.1 (Ne.symm hs0)
      have hvpos : 0 < v := lt_of_le_of_ne hv.1 (Ne.symm hv0)
      have hm : v * (1 - s) < v := by nlinarith
      obtain ⟨hM, hmin, hhue⟩ := sectorColor_stats k v (v * (1 - s)) f a hk hm hf0 hf1
      have hd : v - v * (1 - s) ≠ 0 := (sub_pos.mpr hm).ne'
      rw [NX_ColorToHSV_eq, hM, hmin, hhue, if_neg (by push_neg; exact ⟨hv0, hd⟩), ← hsplit]
      congr 1
      field_simp
      ring

/-- C7 witness: `h = 200, s = 1/3, v = 1/2`. -/
theorem colorToHSV_colorFromHSV_witness :
    NX_ColorToHSV (NX_ColorFromHSV (200 : ℚ) (1 / 3) (1 / 2) 1)
        = (if (1 / 3 : ℚ) = 0 ∨ (1 / 2 : ℚ) = 0 then ⟨0, 0, 1 / 2⟩
            else ⟨200, 1 / 3, 1 / 2⟩)
      ∧ (∀ h0 v0 a0 : ℚ,
          NX_ColorToHSV_binary32 (NX_ColorFromHSV_binary32 h0 0 v0 a0) = ⟨0, 0, v0⟩)
      ∧ ∀ h0 s0 a0 : ℚ,
          NX_ColorToHSV_binary32 (NX_ColorFromHSV_binary32 h0 s0 0 a0) = ⟨0, 0, 0⟩ :=
  colorToHSV_colorFromHSV 200 (1 / 3) (1 / 2) 1 (by norm_num) (by norm_num) (by norm_num)

/-- C8: for a colour with `r`, `g`, `b` in `[0, 1]`, converting to HSL and back
gives the colour again, exactly. -/
theorem colorFromHSL_colorToHSL (c : NX_Color α)
    (hr : 0 ≤ c.r ∧ c.r ≤ 1) (hg : 0 ≤ c.g ∧ c.g ≤ 1) (hb : 0 ≤ c.b ∧ c.b ≤ 1) :
    NX_ColorFromHSL (NX_ColorToHSL c).x (NX_ColorToHSL c).y (NX_ColorToHSL c).z c.a = c := by
  obtain ⟨r, g, b, a⟩ := c
  simp only at hr hg hb ⊢
  obtain ⟨⟨m1, m2, m3⟩, ⟨M1, M2, M3⟩⟩ := max3_min3_facts r g b
  rw [NX_ColorToHSL_eq]
  by_cases h : NX_MAX3 r g b - NX_MIN3 r g b = 0
  · rw [if_pos h]
    simp only [NX_ColorFromHSL, if_true]
    ext
    · simp only; linarith
    · simp only; linarith
    · simp only; linarith
    · rfl
  · rw [if_neg h]
    obtain ⟨k, f, hk, hf0, hf1, hh, hsc⟩ := color_sector_decomp r g b a h
    have hd : 0 < NX_MAX3 r g b - NX_MIN3 r g b := lt_of_le_of_ne (by linarith) (Ne.symm h)
    have hmin0 : 0 ≤ NX_MIN3 r g b := by
      rw [NX_MIN3_eq_min]; exact le_min hr.1 (le_min hg.1 hb.1)
    have hmax1 : NX_MAX3 r g b ≤ 1 := by
      rw [NX_MAX3_eq_max]; exact max_le hr.2 (max_le hg.2 hb.2)
    have hsum : 0 < NX_MAX3 r g b + NX_MIN3 r g b := by linarith
    have hsum2 : 0 < 2 - NX_MAX3 r g b - NX_MIN3 r g b := by linarith
    simp only
    refine (NX_ColorFromHSL_sector _ _ _ a f _ _ k ?_ hk hf0 hf1 hh ?_ ?_).trans hsc
    · split_ifs
      · exact div_ne_zero h hsum2.ne'
      · exact div_ne_zero h hsum.ne'
    · by_cases hl : (NX_MAX3 r g b + NX_MIN3 r g b) * (1 / 2) > 1 / 2
      · rw [if_pos hl, if_neg (by linarith)]
        field_simp
        ring
      · rw [if_neg hl]
        split_ifs
        · field_simp
          ring
        · have e : NX_MAX3 r g b + NX_MIN3 r g b = 1 := by linarith
          rw [e]
          simp only [div_one]
          linarith
    · ring

/-- C8 witness: the colour `(1/3, 1/5, 6/7, 1/2)`. -/
theorem colorFromHSL_colorToHSL_witness :
    NX_ColorFromHSL (NX_ColorToHSL (⟨1/3, 1/5, 6/7, 1/2⟩ : NX_Color ℚ)).x
        (NX_ColorToHSL (⟨1/3, 1/5, 6/7, 1/2⟩ : NX_Color ℚ)).y
        (NX_ColorToHSL (⟨1/3, 1/5, 6/7, 1/2⟩ : NX_Color ℚ)).z (1/2)
      = (⟨1/3, 1/5, 6/7, 1/2⟩ : NX_Color ℚ) :=
  colorFromHSL_colorToHSL ⟨1/3, 1/5, 6/7, 1/2⟩ (by norm_num) (by norm_num) (by norm_num)

/-- C9 (code evaluated at the failing input): in binary32 the colour
`(1, 0, 2^-27)` has the hue `-60 * 2^-27` before the correction `h += 360.0f`,
and that sum rounds to `360` exactly, so `NX_ColorToHSV` and `NX_ColorToHSL`
both return the hue `360`, outside `[0, 360)`. -/
theorem hue_rounds_to_360 :
    ((NX_ColorToHSV_binary32 ⟨1, 0, 1 / 2 ^ 27, 1⟩).x = 360
        ∧ ¬ (NX_ColorToHSV_binary32 ⟨1, 0, 1 / 2 ^ 27, 1⟩).x < 360)
      ∧ ((NX_ColorToHSL_binary32 ⟨1, 0, 1 / 2 ^ 27, 1⟩).x = 360
        ∧ ¬ (NX_ColorToHSL_binary32 ⟨1, 0, 1 / 2 ^ 27, 1⟩).x < 360) := by
  have hmax : NX_MAX3 (1 : ℚ) 0 (1 / 2 ^ 27) = 1 := by norm_num [NX_MAX3, NX_MAX]
  have hmin : NX_MIN3 (1 : ℚ) 0 (1 / 2 ^ 27) = 0 := by norm_num [NX_MIN3, NX_MIN]
  have e1 : roundF32 ((1 : ℚ) - 0) = 1 :=
    roundF32_eq _ _ (0) (8388608) (by norm_num) (by norm_num [abs_of_pos])
      (by norm_num [abs_of_pos]) (by norm_num) (by norm_num) (by norm_num)
  have e2 : roundF32 ((1 : ℚ) / 1) = 1 :=
    roundF32_eq _ _ (0) (8388608) (by norm_num) (by norm_num [abs_of_pos])
      (by norm_num [abs_of_pos]) (by norm_num) (by norm_num) (by norm_num)
  have e3 : roundF32 ((0 : ℚ) - 1 / 2 ^ 27) = -(1 / 2 ^ 27) :=
    roundF32_eq _ _ (-27) (-8388608) (by norm_num) (by norm_num [abs_of_pos])
      (by norm_num [abs_of_pos]) (by norm_num) (by norm_num) (by norm_num)
  have e4 : roundF32 (-(1 / 2 ^ 27) / 1 : ℚ) = -(1 / 2 ^ 27) :=
    roundF32_eq _ _ (-27) (-8388608) (by norm_num) (by norm_num [abs_of_pos])
      (by norm_num [abs_of_pos]) (by norm_num) (by norm_num) (by norm_num)
  have e5 : roundF32 ((60 : ℚ) * -(1 / 2 ^ 27)) = -(15 / 2 ^ 25) :=
    roundF32_eq _ _ (-22) (-15728640) (by norm_num) (by norm_num [abs_of_pos])
      (by norm_num [abs_of_pos]) (by norm_num) (by norm_num) (by norm_num)
  have e6 : roundF32 (-(15 / 2 ^ 25) + 360 : ℚ) = 360 :=
    roundF32_eq _ _ (8) (11796480) (by norm_num) (by norm_num [abs_of_pos])
      (by norm_num [abs_of_pos]) (by norm_num) (by norm_num) (by norm_num)
  have e7 : roundF32 ((1 : ℚ) + 0) = 1 :=
    roundF32_eq _ _ (0) (8388608) (by norm_num) (by norm_num [abs_of_pos])
      (by norm_num [abs_of_pos]) (by norm_num) (by norm_num) (by norm_num)
  have e8 : roundF32 ((1 : ℚ) * (1 / 2)) = 1 / 2 :=
    roundF32_eq _ _ (-1) (8388608) (by norm_num) (by norm_num [abs_of_pos])
      (by norm_num [abs_of_pos]) (by norm_num) (by norm_num) (by norm_num)
  have hsv : (NX_ColorToHSV_binary32 ⟨1, 0, 1 / 2 ^ 27, 1⟩).x = 360 := by
    simp only [NX_ColorToHSV_binary32, hmax, hmin, e1, e2, e3, e4, e5, e6]
    norm_num
  have hsl : (NX_ColorToHSL_binary32 ⟨1, 0, 1 / 2 ^ 27, 1⟩).x = 360 := by
    simp only [NX_ColorToHSL_binary32, hmax, hmin, e1, e2, e3, e4, e5, e6, e7, e8]
    norm_num
  rw [hsv, hsl]
  norm_num

/-- C10: `NX_ColorNormalize` clamps alpha; when the largest RGB component
exceeds 1 it multiplies the three of them by the same factor `1 / max`, which
makes the largest exactly 1; otherwise it is `NX_ColorClamp`. -/
theorem colorNormalize_spec (c : NX_Color α) :
    (NX_ColorNormalize c).a = min (max c.a 0) 1
      ∧ (NX_MAX3 c.r c.g c.b > 1 →
          (NX_ColorNormalize c).r = c.r * (1 / NX_MAX3 c.r c.g c.b)
          ∧ (NX_ColorNormalize c).g = c.g * (1 / NX_MAX3 c.r c.g c.b)
          ∧ (NX_ColorNormalize c).b = c.b * (1 / NX_MAX3 c.r c.g c.b)
          ∧ NX_MAX3 (NX_ColorNormalize c).r (NX_ColorNormalize c).g (NX_ColorNormalize c).b = 1)
      ∧ (NX_MAX3 c.r c.g c.b ≤ 1 → NX_ColorNormalize c = NX_ColorClamp c) := by
  refine ⟨?_, ?_, ?_⟩
  · simp only [NX_ColorNormalize]
    split_ifs <;> simp only [NX_ColorClamp, NX_CLAMP_eq]
  · intro h
    have hpos : (0 : α) < NX_MAX3 c.r c.g c.b := lt_trans zero_lt_one h
    have hinv : (0 : α) ≤ 1 / NX_MAX3 c.r c.g c.b := (one_div_pos.mpr hpos).le
    simp only [NX_ColorNormalize, if_pos h, true_and]
    rw [NX_MAX3_eq_max, ← max_mul_of_nonneg _ _ hinv, ← max_mul_of_nonneg _ _ hinv,
      ← NX_MAX3_eq_max, mul_one_div_cancel hpos.ne']
  · intro h
    simp only [NX_ColorNormalize, if_neg (not_lt.mpr h)]

end Colour

/-! ## Scalar utilities (C11 to C16) -/

section Scalar

variable {α : Type} [LinearOrderedField α]

/-- C11 (code evaluated at the failing input): in binary32
`NX_Wrap(370, 0, 360) = 10`, but `NX_Wrap(-2^-30, 0, 360) = 360`: the floor is
`-1`, and `-2^-30 + 360` rounds to `360`, which is `max` itself and so outside
`[min, max)`. -/
theorem wrap_returns_max :
    NX_Wrap 370 0 360 = 10
      ∧ NX_Wrap (-(1 / 2 ^ 30)) 0 360 = 360
      ∧ ¬ NX_Wrap (-(1 / 2 ^ 30)) 0 360 < 360 := by
  have h1 : NX_Wrap 370 0 360 = 10 := by
    refine NX_Wrap_eval 370 0 360 360 370 (8621625 / 2 ^ 23) 370 360 10 1 ?_ ?_ ?_ ?_ ?_ ?_ ?_
    · exact roundF32_eq _ _ (8) (11796480) (by norm_num) (by norm_num [abs_of_pos])
        (by norm_num [abs_of_pos]) (by norm_num) (by norm_num) (by norm_num)
    · exact roundF32_eq _ _ (8) (12124160) (by norm_num) (by norm_num [abs_of_pos])
        (by norm_num [abs_of_pos]) (by norm_num) (by norm_num) (by norm_num)
    · exact roundF32_eq _ _ (0) (8621625) (by norm_num) (by norm_num [abs_of_pos])
        (by norm_num [abs_of_pos]) (by norm_num) (by norm_num) (by norm_num)
    · rw [Int.floor_eq_iff]; norm_num
    · exact roundF32_eq _ _ (8) (12124160) (by norm_num) (by norm_num [abs_of_pos])
        (by norm_num [abs_of_pos]) (by norm_num) (by norm_num) (by norm_num)
    · exact roundF32_eq _ _ (8) (11796480) (by norm_num) (by norm_num [abs_of_pos])
        (by norm_num [abs_of_pos]) (by norm_num) (by norm_num) (by norm_num)
    · exact roundF32_eq _ _ (3) (10485760) (by norm_num) (by norm_num [abs_of_pos])
        (by norm_num [abs_of_pos]) (by norm_num) (by norm_num) (by norm_num)
  have h2 : NX_Wrap (-(1 / 2 ^ 30)) 0 360 = 360 := by
    refine NX_Wrap_eval (-(1 / 2 ^ 30)) 0 360 360 (-(1 / 2 ^ 30)) (-(11930465 / 2 ^ 62))
      (-(1 / 2 ^ 30)) (-360) 360 (-1) ?_ ?_ ?_ ?_ ?_ ?_ ?_
    · exact roundF32_eq _ _ (8) (11796480) (by norm_num) (by norm_num [abs_of_pos])
        (by norm_num [abs_of_pos]) (by norm_num) (by norm_num) (by norm_num)
    · exact roundF32_eq _ _ (-30) (-8388608) (by norm_num) (by norm_num [abs_of_pos])
        (by norm_num [abs_of_pos]) (by norm_num) (by norm_num) (by norm_num)
    · exact roundF32_eq _ _ (-39) (-11930465) (by norm_num) (by norm_num [abs_of_pos])
        (by norm_num [abs_of_pos]) (by norm_num) (by norm_num) (by norm_num)
    · rw [Int.floor_eq_iff]; norm_num
    · exact roundF32_eq _ _ (-30) (-8388608) (by norm_num) (by norm_num [abs_of_pos])
        (by norm_num [abs_of_pos]) (by norm_num) (by norm_num) (by norm_num)
    · exact roundF32_eq _ _ (8) (-11796480) (by norm_num) (by norm_num [abs_of_pos])
        (by norm_num [abs_of_pos]) (by norm_num) (by norm_num) (by norm_num)
    · exact roundF32_eq _ _ (8) (11796480) (by norm_num) (by norm_num [abs_of_pos])
        (by norm_num [abs_of_pos]) (by norm_num) (by norm_num) (by norm_num)
  refine ⟨h1, h2, ?_⟩
  rw [h2]
  norm_num

/-- C12: for 32-bit `value`, `min < max` whose differences `max - min` and
`value - min` fit 32 bits, `NX_WrapInt` lands in `[min, max)` and differs from
`value` by a multiple of `max - min`, also for `value < min`. -/
theorem wrapInt_spec (value lo hi : Int) (h : lo < hi)
    (hv : -2147483648 ≤ value ∧ value < 2147483648)
    (hlo : -2147483648 ≤ lo ∧ lo < 2147483648)
    (hhi : -2147483648 ≤ hi ∧ hi < 2147483648)
    (hrange : hi - lo < 2147483648)
    (hoff : -2147483648 ≤ value - lo ∧ value - lo < 2147483648) :
    (lo ≤ NX_WrapInt value lo hi ∧ NX_WrapInt value lo hi < hi)
      ∧ (hi - lo) ∣ (NX_WrapInt value lo hi - value) := by
  have hr : 0 < hi - lo := by omega
  obtain ⟨b1, b2, b3, b4⟩ := tmod_bounds (value - lo) (hi - lo) hr
  have hdiv : (hi - lo) ∣ (Int.tmod (value - lo) (hi - lo) - (value - lo)) :=
    ⟨-(Int.tdiv (value - lo) (hi - lo)), by
      have := Int.tmod_add_tdiv (value - lo) (hi - lo)
      rw [mul_neg]
      omega⟩
  simp only [NX_WrapInt]
  rw [wrapI32_of_mem (hi - lo) (by omega) hrange, wrapI32_of_mem (value - lo) hoff.1 hoff.2]
  by_cases hneg : Int.tmod (value - lo) (hi - lo) < 0
  · have hvneg : value - lo < 0 := by
      by_contra hc
      have := b3 (by omega)
      omega
    obtain ⟨c1, c2⟩ := b4 hvneg
    rw [if_pos hneg, wrapI32_of_mem (lo + Int.tmod (value - lo) (hi - lo)) (by omega) (by omega),
      wrapI32_of_mem _ (by omega) (by omega)]
    refine ⟨⟨by omega, by omega⟩, ?_⟩
    have e : lo + Int.tmod (value - lo) (hi - lo) + (hi - lo) - value
        = (Int.tmod (value - lo) (hi - lo) - (value - lo)) + (hi - lo) := by ring
    rw [e]
    exact dvd_add hdiv (dvd_refl _)
  · rw [if_neg hneg, wrapI32_of_mem (lo + Int.tmod (value - lo) (hi - lo)) (by omega) (by omega),
      add_zero, wrapI32_of_mem _ (by omega) (by omega)]
    refine ⟨⟨by omega, by omega⟩, ?_⟩
    have e : lo + Int.tmod (value - lo) (hi - lo) - value
        = Int.tmod (value - lo) (hi - lo) - (value - lo) := by ring
    rw [e]
    exact hdiv

/-- C12 witness: wrapping `-7` to `[-3, 2)` gives `-2`. -/
theorem wrapInt_spec_witness :
    ((-3 : Int) ≤ NX_WrapInt (-7) (-3) 2 ∧ NX_WrapInt (-7) (-3) 2 < 2)
      ∧ ((2 : Int) - (-3)) ∣ (NX_WrapInt (-7) (-3) 2 - (-7)) :=
  wrapInt_spec (-7) (-3) 2 (by decide) (by decide) (by decide) (by decide) (by decide)
    (by decide)

/-- C13: for `edge0 < edge1`, `NX_Smoothstep` is `6t⁵ - 15t⁴ + 10t³` at the
ratio `t` clamped to `[0, 1]`; it is 0 up to `edge0`, 1 from `edge1` on, stays
in `[0, 1]`, and `NX_Smoothstep(0, 1, 1/2) = 1/2`. -/
theorem smoothstep_spec (edge0 edge1 x : α) (h : edge0 < edge1) :
    NX_Smoothstep edge0 edge1 x
        = 6 * (max 0 (min 1 ((x - edge0) / (edge1 - edge0)))) ^ 5
          - 15 * (max 0 (min 1 ((x - edge0) / (edge1 - edge0)))) ^ 4
          + 10 * (max 0 (min 1 ((x - edge0) / (edge1 - edge0)))) ^ 3
      ∧ (x ≤ edge0 → NX_Smoothstep edge0 edge1 x = 0)
      ∧ (edge1 ≤ x → NX_Smoothstep edge0 edge1 x = 1)
      ∧ (0 ≤ NX_Smoothstep edge0 edge1 x ∧ NX_Smoothstep edge0 edge1 x ≤ 1)
      ∧ NX_Smoothstep (0 : α) 1 (1 / 2) = 1 / 2 := by
  have hr : 0 < edge1 - edge0 := sub_pos.mpr h
  have hclamp : (if (x - edge0) / (edge1 - edge0) < 0 then (0 : α)
        else (if (x - edge0) / (edge1 - edge0) > 1 then 1 else (x - edge0) / (edge1 - edge0)))
      = max 0 (min 1 ((x - edge0) / (edge1 - edge0))) := by
    split_ifs with h1 h2
    · rw [max_eq_left]; exact le_trans (min_le_right _ _) h1.le
    · rw [min_eq_left h2.le, max_eq_right zero_le_one]
    · rw [min_eq_right (not_lt.mp h2), max_eq_right (not_lt.mp h1)]
  have e : NX_Smoothstep edge0 edge1 x
        = 6 * (max 0 (min 1 ((x - edge0) / (edge1 - edge0)))) ^ 5
          - 15 * (max 0 (min 1 ((x - edge0) / (edge1 - edge0)))) ^ 4
          + 10 * (max 0 (min 1 ((x - edge0) / (edge1 - edge0)))) ^ 3 := by
    simp only [NX_Smoothstep, hclamp]
    ring
  have t0 : (0 : α) ≤ max 0 (min 1 ((x - edge0) / (edge1 - edge0))) := le_max_left _ _
  have t1 : max 0 (min 1 ((x - edge0) / (edge1 - edge0))) ≤ (1 : α) :=
    max_le zero_le_one (min_le_left _ _)
  refine ⟨e, ?_, ?_, ?_, ?_⟩
  · intro hx
    have hneg : (x - edge0) / (edge1 - edge0) ≤ 0 :=
      div_nonpos_of_nonpos_of_nonneg (sub_nonpos.mpr hx) hr.le
    rw [e, max_eq_left (le_trans (min_le_right _ _) hneg)]
    norm_num
  · intro hx
    have hge : 1 ≤ (x - edge0) / (edge1 - edge0) := by
      rw [le_div_iff₀ hr]; linarith
    rw [e, min_eq_left hge, max_eq_right zero_le_one]
    norm_num
  · rw [e]
    generalize max 0 (min 1 ((x - edge0) / (edge1 - edge0))) = t at t0 t1
    constructor
    · have h3 : 0 ≤ t ^ 3 := pow_nonneg t0 3
      have hq : 0 ≤ 6 * t ^ 2 - 15 * t + 10 := by nlinarith [sq_nonneg (4 * t - 5)]
      nlinarith [mul_nonneg h3 hq]
    · have h3 : 0 ≤ (1 - t) ^ 3 := pow_nonneg (sub_nonneg.mpr t1) 3
      have hq : 0 ≤ 6 * t ^ 2 + 3 * t + 1 := by nlinarith [sq_nonneg t]
      nlinarith [mul_nonneg h3 hq]
  · simp only [NX_Smoothstep]
    norm_num

/-- C13 witness: edges `2` and `4`, evaluated at `3`. -/
theorem smoothstep_spec_witness :
    NX_Smoothstep (2 : ℚ) 4 3
        = 6 * (max 0 (min 1 (((3 : ℚ) - 2) / (4 - 2)))) ^ 5
          - 15 * (max 0 (min 1 (((3 : ℚ) - 2) / (4 - 2)))) ^ 4
          + 10 * (max 0 (min 1 (((3 : ℚ) - 2) / (4 - 2)))) ^ 3
      ∧ ((3 : ℚ) ≤ 2 → NX_Smoothstep (2 : ℚ) 4 3 = 0)
      ∧ ((4 : ℚ) ≤ 3 → NX_Smoothstep (2 : ℚ) 4 3 = 1)
      ∧ (0 ≤ NX_Smoothstep (2 : ℚ) 4 3 ∧ NX_Smoothstep (2 : ℚ) 4 3 ≤ 1)
      ∧ NX_Smoothstep (0 : ℚ) 1 (1 / 2) = 1 / 2 :=
  smoothstep_spec 2 4 3 (by norm_num)

/-- C14 (as stated, refuted): with `maxDelta = 0` the step from `0` toward `1`
stays at `0`, which is not strictly between `0` and `1`. -/
theorem moveToward_counterexample :
    (0 : ℚ) ≤ 0 ∧ ¬ |(1 : ℚ) - 0| ≤ 0 ∧ NX_MoveToward (0 : ℚ) 1 0 = 0
      ∧ ¬ (min (0 : ℚ) 1 < NX_MoveToward (0 : ℚ) 1 0
            ∧ NX_MoveToward (0 : ℚ) 1 0 < max (0 : ℚ) 1) := by
  have e : NX_MoveToward (0 : ℚ) 1 0 = 0 := by
    simp [NX_MoveToward]
  refine ⟨le_rfl, by norm_num, e, ?_⟩
  rw [e]
  norm_num

/-- C14 (amended): for `maxDelta ≥ 0`, `NX_MoveToward` returns `to` when it is
within `maxDelta`; otherwise the result is at distance exactly `maxDelta` from
`from`, lies between `from` and `to` without reaching `to`, and is strictly
between them when `maxDelta > 0`. -/
theorem moveToward_spec (src dst maxDelta : α) (hm : 0 ≤ maxDelta) :
    (|dst - src| ≤ maxDelta → NX_MoveToward src dst maxDelta = dst)
      ∧ (maxDelta < |dst - src| →
          |NX_MoveToward src dst maxDelta - src| = maxDelta
          ∧ min src dst ≤ NX_MoveToward src dst maxDelta
          ∧ NX_MoveToward src dst maxDelta ≤ max src dst
          ∧ NX_MoveToward src dst maxDelta ≠ dst
          ∧ (0 < maxDelta →
              min src dst < NX_MoveToward src dst maxDelta
              ∧ NX_MoveToward src dst maxDelta < max src dst)) := by
  constructor
  · intro h
    simp only [NX_MoveToward, if_pos h]
  · intro h
    have hpos : 0 < |dst - src| := lt_of_le_of_lt hm h
    simp only [NX_MoveToward, if_neg (not_le.mpr h)]
    rcases le_or_lt 0 (dst - src) with hd | hd
    · have habs : |dst - src| = dst - src := abs_of_nonneg hd
      rw [habs] at h hpos ⊢
      have e : src + (dst - src) / (dst - src) * maxDelta = src + maxDelta := by
        rw [div_self hpos.ne', one_mul]
      have hle : src ≤ dst := by linarith
      rw [e, min_eq_left hle, max_eq_right hle]
      refine ⟨by rw [add_sub_cancel_left, abs_of_nonneg hm], by linarith, by linarith,
        by intro hc; linarith, fun h0 => ⟨by linarith, by linarith⟩⟩
    · have habs : |dst - src| = -(dst - src) := abs_of_neg hd
      rw [habs] at h hpos ⊢
      have e : src + (dst - src) / -(dst - src) * maxDelta = src - maxDelta := by
        rw [div_neg, div_self hd.ne]
        ring
      have hle : dst ≤ src := by linarith
      rw [e, min_eq_right hle, max_eq_left hle]
      refine ⟨by rw [sub_sub_cancel_left, abs_neg, abs_of_nonneg hm], by linarith,
        by linarith, by intro hc; linarith, fun h0 => ⟨by linarith, by linarith⟩⟩

/-- C14 witness: from `0` toward `10` with `maxDelta = 3`. -/
theorem moveToward_spec_witness :
    (|(10 : ℚ) - 0| ≤ 3 → NX_MoveToward (0 : ℚ) 10 3 = 10)
      ∧ ((3 : ℚ) < |(10 : ℚ) - 0| →
          |NX_MoveToward (0 : ℚ) 10 3 - 0| = 3
          ∧ min (0 : ℚ) 10 ≤ NX_MoveToward (0 : ℚ) 10 3
          ∧ NX_MoveToward (0 : ℚ) 10 3 ≤ max (0 : ℚ) 10
          ∧ NX_MoveToward (0 : ℚ) 10 3 ≠ 10
          ∧ ((0 : ℚ) < 3 →
              min (0 : ℚ) 10 < NX_MoveToward (0 : ℚ) 10 3
              ∧ NX_MoveToward (0 : ℚ) 10 3 < max (0 : ℚ) 10)) :=
  moveToward_spec 0 10 3 (by norm_num)

/-- C15 (code evaluated at the failing input): in binary32, for the `float`
`x = 2470649 * 2^-18 = 9.424778` (just above `3 * NX_PI`), `NX_WrapRadians(x)`
is `-3294199 * 2^-20 = -3.14159298`, which is below `-NX_PI` (both as the
`float` constant and as the decimal literal), and
`NX_LerpRadians(0, x, 1)` returns that value. -/
theorem wrapRadians_below_minus_pi :
    NX_WrapRadians (2470649 / 2 ^ 18) = -(3294199 / 2 ^ 20)
      ∧ NX_WrapRadians (2470649 / 2 ^ 18) < -NX_PI_binary32
      ∧ NX_WrapRadians (2470649 / 2 ^ 18) < -(NX_PI : ℚ)
      ∧ NX_LerpRadians 0 (2470649 / 2 ^ 18) 1 = -(3294199 / 2 ^ 20) := by
  have hw : NX_WrapRadians (2470649 / 2 ^ 18) = -(3294199 / 2 ^ 20) := by
    rw [NX_WrapRadians, NX_PI_binary32_eq]
    refine NX_Wrap_eval _ _ _ (13176795 / 2 ^ 21) (13176795 / 2 ^ 20) 2 (9882596 / 2 ^ 20)
      (13176795 / 2 ^ 20) _ 2 ?_ ?_ ?_ ?_ ?_ ?_ ?_
    · exact roundF32_eq _ _ (2) (13176795) (by norm_num) (by norm_num [abs_of_pos])
        (by norm_num [abs_of_pos]) (by norm_num) (by norm_num) (by norm_num)
    · exact roundF32_eq _ _ (3) (13176795) (by norm_num) (by norm_num [abs_of_pos])
        (by norm_num [abs_of_pos]) (by norm_num) (by norm_num) (by norm_num)
    · exact roundF32_eq _ _ (1) (8388608) (by norm_num) (by norm_num [abs_of_pos])
        (by norm_num [abs_of_pos]) (by norm_num) (by norm_num) (by norm_num)
    · rw [Int.floor_eq_iff]; norm_num
    · exact roundF32_eq _ _ (3) (9882596) (by norm_num) (by norm_num [abs_of_pos])
        (by norm_num [abs_of_pos]) (by norm_num) (by norm_num) (by norm_num)
    · exact roundF32_eq _ _ (3) (13176795) (by norm_num) (by norm_num [abs_of_pos])
        (by norm_num [abs_of_pos]) (by norm_num) (by norm_num) (by norm_num)
    · exact roundF32_eq _ _ (1) (-13176796) (by norm_num) (by norm_num [abs_of_pos])
        (by norm_num [abs_of_pos]) (by norm_num) (by norm_num) (by norm_num)
  refine ⟨hw, ?_, ?_, ?_⟩
  · rw [hw, NX_PI_binary32_eq]; norm_num
  · rw [hw, NX_PI]; norm_num
  · have e1 : roundF32 ((2470649 / 2 ^ 18 : ℚ) - 0) = 2470649 / 2 ^ 18 :=
      roundF32_eq _ _ (3) (9882596) (by norm_num) (by norm_num [abs_of_pos])
        (by norm_num [abs_of_pos]) (by norm_num) (by norm_num) (by norm_num)
    have e2 : roundF32 (-(3294199 / 2 ^ 20) * 1 : ℚ) = -(3294199 / 2 ^ 20) :=
      roundF32_eq _ _ (1) (-13176796) (by norm_num) (by norm_num [abs_of_pos])
        (by norm_num [abs_of_pos]) (by norm_num) (by norm_num) (by norm_num)
    have e3 : roundF32 ((0 : ℚ) + -(3294199 / 2 ^ 20)) = -(3294199 / 2 ^ 20) :=
      roundF32_eq _ _ (1) (-13176796) (by norm_num) (by norm_num [abs_of_pos])
        (by norm_num [abs_of_pos]) (by norm_num) (by norm_num) (by norm_num)
    rw [NX_LerpRadians, e1, hw, e2, e3]

/-- C16: `NX_Lerp(a, b, t) = a + t * (b - a)` without clamping, so it gives `a`
at 0, `b` at 1, 5 half-way from 0 to 10 and extrapolates outside `[0, 1]`; the
components of the vector and colour interpolations are `NX_Lerp` of the
corresponding components. -/
theorem lerp_spec (a b t : α) (u0 u1 : NX_Vec2 α) (v0 v1 : NX_Vec3 α) (w0 w1 : NX_Vec4 α)
    (c0 c1 : NX_Color α) :
    NX_Lerp a b t = a + t * (b - a)
      ∧ NX_Lerp a b 0 = a ∧ NX_Lerp a b 1 = b
      ∧ NX_Lerp (0 : α) 10 (1 / 2) = 5
      ∧ NX_Lerp (0 : α) 10 2 = 20 ∧ NX_Lerp (0 : α) 10 (-1) = -10
      ∧ NX_Vec2Lerp u0 u1 t = ⟨NX_Lerp u0.x u1.x t, NX_Lerp u0.y u1.y t⟩
      ∧ NX_Vec3Lerp v0 v1 t = ⟨NX_Lerp v0.x v1.x t, NX_Lerp v0.y v1.y t, NX_Lerp v0.z v1.z t⟩
      ∧ NX_Vec4Lerp w0 w1 t
          = ⟨NX_Lerp w0.x w1.x t, NX_Lerp w0.y w1.y t, NX_Lerp w0.z w1.z t,
             NX_Lerp w0.w w1.w t⟩
      ∧ NX_ColorLerp c0 c1 t
          = ⟨NX_Lerp c0.r c1.r t, NX_Lerp c0.g c1.g t, NX_Lerp c0.b c1.b t,
             NX_Lerp c0.a c1.a t⟩ := by
  have key : ∀ p q : α, fmaf (1 - t) p (t * q) = NX_Lerp p q t := by
    intro p q
    simp only [fmaf, NX_Lerp]
    ring
  refine ⟨rfl, ?_, ?_, ?_, ?_, ?_, ?_, ?_, ?_, ?_⟩
  · simp [NX_Lerp]
  · simp [NX_Lerp]
  · simp only [NX_Lerp]; norm_num
  · simp only [NX_Lerp]; norm_num
  · simp only [NX_Lerp]; norm_num
  · simp only [NX_Vec2Lerp, key]
  · simp only [NX_Vec3Lerp, key]
  · simp only [NX_Vec4Lerp, key]
  · simp only [NX_ColorLerp, key]

end Scalar

/-! ## Normalisation (C17 to C20) -/

section Normalize

/-- C17: over the reals, `NX_Vec2Normalize` and `NX_Vec3Normalize` return the
zero vector exactly when the length of `v` is zero; otherwise they return `v`
scaled by `1 / length(v)`, and that vector has length 1. -/
theorem vecNormalize_spec (u : NX_Vec2 ℝ) (v : NX_Vec3 ℝ) :
    ((NX_Vec2Normalize Real.sqrt u = ⟨0, 0⟩ ↔ NX_Vec2Length Real.sqrt u = 0)
        ∧ (NX_Vec2Length Real.sqrt u ≠ 0 →
            NX_Vec2Normalize Real.sqrt u = NX_Vec2Scale u (1 / NX_Vec2Length Real.sqrt u)
            ∧ NX_Vec2Length Real.sqrt (NX_Vec2Normalize Real.sqrt u) = 1))
      ∧ ((NX_Vec3Normalize Real.sqrt v = ⟨0, 0, 0⟩ ↔ NX_Vec3Length Real.sqrt v = 0)
        ∧ (NX_Vec3Length Real.sqrt v ≠ 0 →
            NX_Vec3Normalize Real.sqrt v = NX_Vec3Scale v (1 / NX_Vec3Length Real.sqrt v)
            ∧ NX_Vec3Length Real.sqrt (NX_Vec3Normalize Real.sqrt v) = 1)) := by
  constructor
  · have h0 := sumsq2_nonneg u
    have hlen : NX_Vec2Length Real.sqrt u = 0 ↔ u.x * u.x + u.y * u.y = 0 := by
      unfold NX_Vec2Length
      exact Real.sqrt_eq_zero h0
    constructor
    · constructor
      · intro hz
        by_contra hne
        have hpos : 0 < u.x * u.x + u.y * u.y :=
          lt_of_le_of_ne h0 (fun e => hne (hlen.mpr e.symm))
        obtain ⟨_, h1⟩ := vec2_normalize_of_pos u hpos
        rw [hz] at h1
        simp [NX_Vec2Length] at h1
      · intro hz
        exact vec2_normalize_of_zero u (hlen.mp hz)
    · intro hne
      have hpos : 0 < u.x * u.x + u.y * u.y :=
        lt_of_le_of_ne h0 (fun e => hne (hlen.mpr e.symm))
      exact vec2_normalize_of_pos u hpos
  · have h0 := sumsq3_nonneg v
    have hlen : NX_Vec3Length Real.sqrt v = 0 ↔ v.x * v.x + v.y * v.y + v.z * v.z = 0 := by
      unfold NX_Vec3Length
      exact Real.sqrt_eq_zero h0
    constructor
    · constructor
      · intro hz
        by_contra hne
        have hpos : 0 < v.x * v.x + v.y * v.y + v.z * v.z :=
          lt_of_le_of_ne h0 (fun e => hne (hlen.mpr e.symm))
        obtain ⟨_, h1⟩ := vec3_normalize_of_pos v hpos
        rw [hz] at h1
        simp [NX_Vec3Length] at h1
      · intro hz
        exact vec3_normalize_of_zero v (hlen.mp hz)
    · intro hne
      have hpos : 0 < v.x * v.x + v.y * v.y + v.z * v.z :=
        lt_of_le_of_ne h0 (fun e => hne (hlen.mpr e.symm))
      exact vec3_normalize_of_pos v hpos

/-- C18: over the reals, `NX_Vec4Normalize` returns the zero vector when the
squared length `L` is at most `1e-8` (the mask expression is then 0), and `v`
scaled by `1 / sqrt L` when `L > 1e-8` (the mask expression is then
`1 / sqrt L`); in that case the result has length 1. -/
theorem vec4Normalize_spec (v : NX_Vec4 ℝ) :
    (v.x * v.x + v.y * v.y + v.z * v.z + v.w * v.w ≤ 1e-8 →
        NX_Vec4Normalize Real.sqrt v = ⟨0, 0, 0, 0⟩
        ∧ (if v.x * v.x + v.y * v.y + v.z * v.z + v.w * v.w > 1e-8 then (1 : ℝ) else 0)
            * (1 / Real.sqrt (v.x * v.x + v.y * v.y + v.z * v.z + v.w * v.w
                + (1 - (if v.x * v.x + v.y * v.y + v.z * v.z + v.w * v.w > 1e-8
                          then (1 : ℝ) else 0)))) = 0)
      ∧ (v.x * v.x + v.y * v.y + v.z * v.z + v.w * v.w > 1e-8 →
        NX_Vec4Normalize Real.sqrt v
            = NX_Vec4Scale v (1 / Real.sqrt (v.x * v.x + v.y * v.y + v.z * v.z + v.w * v.w))
        ∧ (if v.x * v.x + v.y * v.y + v.z * v.z + v.w * v.w > 1e-8 then (1 : ℝ) else 0)
            * (1 / Real.sqrt (v.x * v.x + v.y * v.y + v.z * v.z + v.w * v.w
                + (1 - (if v.x * v.x + v.y * v.y + v.z * v.z + v.w * v.w > 1e-8
                          then (1 : ℝ) else 0))))
            = 1 / Real.sqrt (v.x * v.x + v.y * v.y + v.z * v.z + v.w * v.w)
        ∧ NX_Vec4Length Real.sqrt (NX_Vec4Normalize Real.sqrt v) = 1) := by
  constructor
  · intro h
    refine ⟨vec4_normalize_of_le v h, ?_⟩
    rw [if_neg (not_lt.mpr h), zero_mul]
  · intro h
    obtain ⟨h1, h2⟩ := vec4_normalize_of_gt v h
    refine ⟨h1, ?_, h2⟩
    rw [if_pos h, sub_self, add_zero, one_mul]

/-- C19: over the reals, normalising twice is normalising once, for
`NX_Vec3Normalize`, `NX_Vec2Normalize` and `NX_Vec4Normalize`. -/
theorem vecNormalize_idempotent (u : NX_Vec2 ℝ) (v : NX_Vec3 ℝ) (w : NX_Vec4 ℝ) :
    NX_Vec3Normalize Real.sqrt (NX_Vec3Normalize Real.sqrt v) = NX_Vec3Normalize Real.sqrt v
      ∧ NX_Vec2Normalize Real.sqrt (NX_Vec2Normalize Real.sqrt u)
          = NX_Vec2Normalize Real.sqrt u
      ∧ NX_Vec4Normalize Real.sqrt (NX_Vec4Normalize Real.sqrt w)
          = NX_Vec4Normalize Real.sqrt w := by
  refine ⟨?_, ?_, ?_⟩
  · rcases eq_or_lt_of_le (sumsq3_nonneg v) with h | h
    · rw [vec3_normalize_of_zero v h.symm]
      exact vec3_normalize_of_zero _ (by norm_num)
    · obtain ⟨_, h1⟩ := vec3_normalize_of_pos v h
      have h2 : Real.sqrt ((NX_Vec3Normalize Real.sqrt v).x * (NX_Vec3Normalize Real.sqrt v).x
          + (NX_Vec3Normalize Real.sqrt v).y * (NX_Vec3Normalize Real.sqrt v).y
          + (NX_Vec3Normalize Real.sqrt v).z * (NX_Vec3Normalize Real.sqrt v).z) = 1 := h1
      generalize NX_Vec3Normalize Real.sqrt v = n at h2
      simp [NX_Vec3Normalize, NX_Vec3Length, NX_Vec3Scale, h2]
  · rcases eq_or_lt_of_le (sumsq2_nonneg u) with h | h
    · rw [vec2_normalize_of_zero u h.symm]
      exact vec2_normalize_of_zero _ (by norm_num)
    · obtain ⟨_, h1⟩ := vec2_normalize_of_pos u h
      have h2 : Real.sqrt ((NX_Vec2Normalize Real.sqrt u).x * (NX_Vec2Normalize Real.sqrt u).x
          + (NX_Vec2Normalize Real.sqrt u).y * (NX_Vec2Normalize Real.sqrt u).y) = 1 := h1
      generalize NX_Vec2Normalize Real.sqrt u = n at h2
      simp [NX_Vec2Normalize, NX_Vec2Length, NX_Vec2Scale, h2]
  · rcases le_or_lt (w.x * w.x + w.y * w.y + w.z * w.z + w.w * w.w) 1e-8 with h | h
    · rw [vec4_normalize_of_le w h]
      exact vec4_normalize_of_le _ (by norm_num)
    · obtain ⟨_, h1⟩ := vec4_normalize_of_gt w h
      have h2 : Real.sqrt ((NX_Vec4Normalize Real.sqrt w).x * (NX_Vec4Normalize Real.sqrt w).x
          + (NX_Vec4Normalize Real.sqrt w).y * (NX_Vec4Normalize Real.sqrt w).y
          + (NX_Vec4Normalize Real.sqrt w).z * (NX_Vec4Normalize Real.sqrt w).z
          + (NX_Vec4Normalize Real.sqrt w).w * (NX_Vec4Normalize Real.sqrt w).w) = 1 := h1
      generalize NX_Vec4Normalize Real.sqrt w = n at h2
      have h3 : n.x * n.x + n.y * n.y + n.z * n.z + n.w * n.w = 1 := by
        have h4 := Real.sqrt_eq_one.mp h2
        exact h4
      simp [NX_Vec4Normalize, h3]
      norm_num

/-- C20: over the reals, `NX_QuatNormalize` returns `NX_QUAT_IDENTITY` when the
squared length `L` is below `1e-4` and `q` scaled by `1 / sqrt L` otherwise; in
both cases the result has `NX_QuatLength` 1 and squared length 1. -/
theorem quatNormalize_spec (q : NX_Quat ℝ) :
    (q.x * q.x + q.y * q.y + q.z * q.z + q.w * q.w < 1e-4 →
        NX_QuatNormalize Real.sqrt q = NX_QUAT_IDENTITY)
      ∧ (¬ q.x * q.x + q.y * q.y + q.z * q.z + q.w * q.w < 1e-4 →
        NX_QuatNormalize Real.sqrt q
          = ⟨q.x * (1 / Real.sqrt (q.x * q.x + q.y * q.y + q.z * q.z + q.w * q.w)),
             q.y * (1 / Real.sqrt (q.x * q.x + q.y * q.y + q.z * q.z + q.w * q.w)),
             q.z * (1 / Real.sqrt (q.x * q.x + q.y * q.y + q.z * q.z + q.w * q.w)),
             q.w * (1 / Real.sqrt (q.x * q.x + q.y * q.y + q.z * q.z + q.w * q.w))⟩)
      ∧ NX_QuatLength Real.sqrt (NX_QuatNormalize Real.sqrt q) = 1
      ∧ (NX_QuatNormalize Real.sqrt q).x * (NX_QuatNormalize Real.sqrt q).x
          + (NX_QuatNormalize Real.sqrt q).y * (NX_QuatNormalize Real.sqrt q).y
          + (NX_QuatNormalize Real.sqrt q).z * (NX_QuatNormalize Real.sqrt q).z
          + (NX_QuatNormalize Real.sqrt q).w * (NX_QuatNormalize Real.sqrt q).w = 1 := by
  have hunit : (NX_QuatNormalize Real.sqrt q).x * (NX_QuatNormalize Real.sqrt q).x
          + (NX_QuatNormalize Real.sqrt q).y * (NX_QuatNormalize Real.sqrt q).y
          + (NX_QuatNormalize Real.sqrt q).z * (NX_QuatNormalize Real.sqrt q).z
          + (NX_QuatNormalize Real.sqrt q).w * (NX_QuatNormalize Real.sqrt q).w = 1 := by
    by_cases h : q.x * q.x + q.y * q.y + q.z * q.z + q.w * q.w < 1e-4
    · simp only [NX_QuatNormalize, if_pos h, NX_QUAT_IDENTITY]
      norm_num
    · have hL : 0 < q.x * q.x + q.y * q.y + q.z * q.z + q.w * q.w :=
        lt_of_lt_of_le (by norm_num) (not_lt.mp h)
      have hrad := sumsq_div_sqrt _ hL (q.x * q.x + q.y * q.y + q.z * q.z + q.w * q.w) rfl
      simp only [NX_QuatNormalize, if_neg h]
      linear_combination hrad
  refine ⟨?_, ?_, ?_, hunit⟩
  · intro h
    simp only [NX_QuatNormalize, if_pos h]
  · intro h
    simp only [NX_QuatNormalize, if_neg h]
  · unfold NX_QuatLength
    rw [hunit, Real.sqrt_one]

end Normalize

/-! ## Quaternion inverse, transforms, comparisons and easings (C21 to C27) -/

section Algebra

variable {α : Type} [LinearOrderedField α]

/-- C21: for a quaternion of squared length at least `1e-4`, `NX_QuatInverse`
is a two-sided inverse for `NX_QuatMul`, and it is the conjugate when the
squared length is 1. -/
theorem quatInverse_spec (q : NX_Quat α)
    (h : 1e-4 ≤ q.x * q.x + q.y * q.y + q.z * q.z + q.w * q.w) :
    NX_QuatMul q (NX_QuatInverse q) = NX_QUAT_IDENTITY
      ∧ NX_QuatMul (NX_QuatInverse q) q = NX_QUAT_IDENTITY
      ∧ (q.x * q.x + q.y * q.y + q.z * q.z + q.w * q.w = 1 →
          NX_QuatInverse q = NX_QuatConjugate q) := by
  have hpos : (0 : α) < q.x * q.x + q.y * q.y + q.z * q.z + q.w * q.w :=
    lt_of_lt_of_le (by norm_num) h
  have hinv : NX_QuatInverse q
      = ⟨q.x * -(1 / (q.x * q.x + q.y * q.y + q.z * q.z + q.w * q.w)),
         q.y * -(1 / (q.x * q.x + q.y * q.y + q.z * q.z + q.w * q.w)),
         q.z * -(1 / (q.x * q.x + q.y * q.y + q.z * q.z + q.w * q.w)),
         q.w * (1 / (q.x * q.x + q.y * q.y + q.z * q.z + q.w * q.w))⟩ := by
    simp only [NX_QuatInverse, if_neg (not_lt.mpr h)]
  refine ⟨?_, ?_, ?_⟩
  · rw [hinv]
    ext <;> simp only [NX_QuatMul, NX_QUAT_IDENTITY] <;> field_simp <;> ring
  · rw [hinv]
    ext <;> simp only [NX_QuatMul, NX_QUAT_IDENTITY] <;> field_simp <;> ring
  · intro h1
    rw [hinv, h1]
    simp [NX_QuatConjugate]

/-- C21 witness: the quaternion `(1, 2, 3, 4)`, of squared length 30. -/
theorem quatInverse_spec_witness :
    NX_QuatMul (⟨1, 2, 3, 4⟩ : NX_Quat ℚ) (NX_QuatInverse ⟨1, 2, 3, 4⟩) = NX_QUAT_IDENTITY
      ∧ NX_QuatMul (NX_QuatInverse (⟨1, 2, 3, 4⟩ : NX_Quat ℚ)) ⟨1, 2, 3, 4⟩ = NX_QUAT_IDENTITY
      ∧ ((1 : ℚ) * 1 + 2 * 2 + 3 * 3 + 4 * 4 = 1 →
          NX_QuatInverse (⟨1, 2, 3, 4⟩ : NX_Quat ℚ) = NX_QuatConjugate ⟨1, 2, 3, 4⟩) :=
  quatInverse_spec ⟨1, 2, 3, 4⟩ (by norm_num)

/-- C22: `NX_Vec3TransformByMat4(v, M)` is the first three components of
`NX_Vec4TransformByMat4((v.x, v.y, v.z, 1), M)`, which is the row-vector
product `r_j = Σ_i v_i * M[i][j]`; the origin goes to the bottom row
`(m30, m31, m32)` and the identity matrix leaves `v` unchanged. -/
theorem vec3TransformByMat4_spec (v : NX_Vec3 α) (w : NX_Vec4 α) (M : NX_Mat4 α) :
    NX_Vec3TransformByMat4 v M
        = ⟨(NX_Vec4TransformByMat4 ⟨v.x, v.y, v.z, 1⟩ M).x,
           (NX_Vec4TransformByMat4 ⟨v.x, v.y, v.z, 1⟩ M).y,
           (NX_Vec4TransformByMat4 ⟨v.x, v.y, v.z, 1⟩ M).z⟩
      ∧ NX_Vec4TransformByMat4 w M
        = ⟨w.x * M.m00 + w.y * M.m10 + w.z * M.m20 + w.w * M.m30,
           w.x * M.m01 + w.y * M.m11 + w.z * M.m21 + w.w * M.m31,
           w.x * M.m02 + w.y * M.m12 + w.z * M.m22 + w.w * M.m32,
           w.x * M.m03 + w.y * M.m13 + w.z * M.m23 + w.w * M.m33⟩
      ∧ NX_Vec3TransformByMat4 ⟨0, 0, 0⟩ M = ⟨M.m30, M.m31, M.m32⟩
      ∧ NX_Vec3TransformByMat4 v NX_MAT4_IDENTITY = v := by
  refine ⟨?_, ?_, ?_, ?_⟩
  · simp only [NX_Vec3TransformByMat4, NX_Vec4TransformByMat4, fmaf, mul_one]
  · ext <;> simp only [NX_Vec4TransformByMat4, fmaf] <;> ring
  · simp [NX_Vec3TransformByMat4, fmaf]
  · ext <;> simp [NX_Vec3TransformByMat4, NX_MAT4_IDENTITY, fmaf]

/-- C23: `NX_Vec3Transform` scales, then rotates, then translates, and the
identity transform leaves every vector unchanged. -/
theorem vec3Transform_spec (v : NX_Vec3 α) (trs : NX_Transform α) :
    NX_Vec3Transform v trs
        = NX_Vec3Add (NX_Vec3Rotate (NX_Vec3Mul v trs.scale) trs.rotation) trs.translation
      ∧ NX_Vec3Transform v NX_TRANSFORM_IDENTITY = v := by
  refine ⟨rfl, ?_⟩
  ext <;>
    simp [NX_Vec3Transform, NX_TRANSFORM_IDENTITY, NX_QUAT_IDENTITY, NX_Vec3Add, NX_Vec3Mul,
      NX_Vec3Rotate]

/-- C24 (code evaluated): with the real sine and cosine, the `yaw` argument of
`NX_Vec3RotateEuler` turns about `Z`, `pitch` about `Y` and `roll` about `X`;
in particular yaw `π` sends `(0, 1, 0)` to `(0, -1, 0)`, whereas the rotation
by `π` about `(0, 1, 0)` leaves it fixed. -/
theorem vec3RotateEuler_axes :
    (∀ (v : NX_Vec3 ℝ) (t : ℝ),
        NX_Vec3RotateEuler Real.sin Real.cos v t 0 0
          = NX_Vec3RotateAxisAngle Real.sqrt Real.sin Real.cos v ⟨0, 0, 1⟩ t
        ∧ NX_Vec3RotateEuler Real.sin Real.cos v 0 t 0
          = NX_Vec3RotateAxisAngle Real.sqrt Real.sin Real.cos v ⟨0, 1, 0⟩ t
        ∧ NX_Vec3RotateEuler Real.sin Real.cos v 0 0 t
          = NX_Vec3RotateAxisAngle Real.sqrt Real.sin Real.cos v ⟨1, 0, 0⟩ t)
      ∧ NX_Vec3RotateEuler Real.sin Real.cos ⟨0, 1, 0⟩ Real.pi 0 0 = ⟨0, -1, 0⟩
      ∧ NX_Vec3RotateAxisAngle Real.sqrt Real.sin Real.cos ⟨0, 1, 0⟩ ⟨0, 1, 0⟩ Real.pi
          = ⟨0, 1, 0⟩ := by
  have hz : NX_Vec3Normalize Real.sqrt (⟨0, 0, 1⟩ : NX_Vec3 ℝ) = ⟨0, 0, 1⟩ :=
    vec3_normalize_unit_axis _ (by norm_num)
  have hy : NX_Vec3Normalize Real.sqrt (⟨0, 1, 0⟩ : NX_Vec3 ℝ) = ⟨0, 1, 0⟩ :=
    vec3_normalize_unit_axis _ (by norm_num)
  have hx : NX_Vec3Normalize Real.sqrt (⟨1, 0, 0⟩ : NX_Vec3 ℝ) = ⟨1, 0, 0⟩ :=
    vec3_normalize_unit_axis _ (by norm_num)
  have hhalf : Real.pi * (1 / 2) = Real.pi / 2 := by ring
  refine ⟨fun v t => ⟨?_, ?_, ?_⟩, ?_, ?_⟩
  · simp only [NX_Vec3RotateEuler, NX_Vec3RotateAxisAngle, hz, zero_mul, Real.sin_zero,
      Real.cos_zero]
    congr 1
    ext <;> simp
  · simp only [NX_Vec3RotateEuler, NX_Vec3RotateAxisAngle, hy, zero_mul, Real.sin_zero,
      Real.cos_zero]
    congr 1
    ext <;> simp
  · simp only [NX_Vec3RotateEuler, NX_Vec3RotateAxisAngle, hx, zero_mul, Real.sin_zero,
      Real.cos_zero]
    congr 1
    ext <;> simp
  · simp only [NX_Vec3RotateEuler, hhalf, zero_mul, Real.sin_zero, Real.cos_zero,
      Real.sin_pi_div_two, Real.cos_pi_div_two, NX_Vec3Rotate]
    ext <;> norm_num
  · simp only [NX_Vec3RotateAxisAngle, hy, hhalf, Real.sin_pi_div_two, Real.cos_pi_div_two,
      NX_Vec3Rotate]
    ext <;> norm_num

/-- C25 (code evaluated at the failing input): for `v0 = (0, 0, 0, 1)` and
`v1 = (0, 0, 0, 0)` the `w` comparison `v0.w > v1.w` holds, yet
`NX_Vec4GreaterThan` reports 0 in `w` since it compares `v0.x` with `v1.w`;
`NX_IVec4GreaterThan` reports 1 on the same components. -/
theorem vec4GreaterThan_w_uses_x :
    (NX_Vec4GreaterThan (⟨0, 0, 0, 1⟩ : NX_Vec4 ℚ) ⟨0, 0, 0, 0⟩).w = 0
      ∧ boolToInt ((⟨0, 0, 0, 1⟩ : NX_Vec4 ℚ).w > (⟨0, 0, 0, 0⟩ : NX_Vec4 ℚ).w) = 1
      ∧ (NX_IVec4GreaterThan ⟨0, 0, 0, 1⟩ ⟨0, 0, 0, 0⟩).w = 1
      ∧ ∀ v0 v1 : NX_Vec4 α, (NX_Vec4GreaterThan v0 v1).w = boolToInt (v0.x > v1.w) := by
  refine ⟨?_, ?_, ?_, fun _ _ => rfl⟩
  · simp [NX_Vec4GreaterThan, boolToInt]
  · simp [boolToInt]
  · simp [NX_IVec4GreaterThan, boolToInt]

/-- C26: the Quad, Cubic, Quart and Quint easings are the reference curves of
degree 2 to 5: `t^n` (in), `1 - (1 - t)^n` (out), and `2^(n-1) * t^n` below
one half, `1 - (-2t + 2)^n / 2` from one half on (in-out); this holds for every
`t`, in particular on `[0, 1]`. -/
theorem easePolynomial_spec (t : α) :
    (NX_EaseQuadIn t = t ^ 2 ∧ NX_EaseQuadOut t = 1 - (1 - t) ^ 2
        ∧ NX_EaseQuadInOut t
            = if t < 1 / 2 then 2 ^ 1 * t ^ 2 else 1 - (-2 * t + 2) ^ 2 / 2)
      ∧ (NX_EaseCubicIn t = t ^ 3 ∧ NX_EaseCubicOut t = 1 - (1 - t) ^ 3
        ∧ NX_EaseCubicInOut t
            = if t < 1 / 2 then 2 ^ 2 * t ^ 3 else 1 - (-2 * t + 2) ^ 3 / 2)
      ∧ (NX_EaseQuartIn t = t ^ 4 ∧ NX_EaseQuartOut t = 1 - (1 - t) ^ 4
        ∧ NX_EaseQuartInOut t
            = if t < 1 / 2 then 2 ^ 3 * t ^ 4 else 1 - (-2 * t + 2) ^ 4 / 2)
      ∧ (NX_EaseQuintIn t = t ^ 5 ∧ NX_EaseQuintOut t = 1 - (1 - t) ^ 5
        ∧ NX_EaseQuintInOut t
            = if t < 1 / 2 then 2 ^ 4 * t ^ 5 else 1 - (-2 * t + 2) ^ 5 / 2) := by
  refine ⟨⟨?_, ?_, ?_⟩, ⟨?_, ?_, ?_⟩, ⟨?_, ?_, ?_⟩, ⟨?_, ?_, ?_⟩⟩
  · simp only [NX_EaseQuadIn]; ring
  · simp only [NX_EaseQuadOut]; ring
  · simp only [NX_EaseQuadInOut]; split_ifs <;> ring
  · simp only [NX_EaseCubicIn]; ring
  · simp only [NX_EaseCubicOut]; ring
  · simp only [NX_EaseCubicInOut]; split_ifs <;> ring
  · simp only [NX_EaseQuartIn]; ring
  · simp only [NX_EaseQuartOut]; ring
  · simp only [NX_EaseQuartInOut]; split_ifs <;> ring
  · simp only [NX_EaseQuintIn]; ring
  · simp only [NX_EaseQuintOut]; ring
  · simp only [NX_EaseQuintInOut]; split_ifs <;> ring

/-- C27 (code evaluated at the failing input `t = 1/2`): `NX_EaseSineIn` is
`sin(NX_PI * t / 2)`, the formula of easeOutSine; at `t = 1/2` it is above
`1/2` while easeInSine `1 - cos(π t / 2)` is below `1/2`, and
`NX_EaseSineOut` is below `1/2` while easeOutSine `sin(π t / 2)` is above. -/
theorem easeSine_in_out_swapped :
    (∀ t : ℝ, NX_EaseSineIn Real.sin t = Real.sin (NX_PI * t / 2))
      ∧ (1 / 2 < NX_EaseSineIn Real.sin (1 / 2)
          ∧ 1 - Real.cos (Real.pi * (1 / 2) / 2) < 1 / 2)
      ∧ (NX_EaseSineOut Real.sin (1 / 2) < 1 / 2
          ∧ 1 / 2 < Real.sin (Real.pi * (1 / 2) / 2)) := by
  have hpi3 := Real.pi_gt_three
  have hpi4 := Real.pi_le_four
  have hNP : (NX_PI : ℝ) = 3.1415926535897931 := rfl
  have hquarter : Real.pi * (1 / 2) / 2 = Real.pi / 4 := by ring
  have hsqrt : 1 < Real.sqrt 2 := by
    rw [show (1 : ℝ) = Real.sqrt 1 from Real.sqrt_one.symm]
    exact Real.sqrt_lt_sqrt (by norm_num) (by norm_num)
  have hsin : 1 / 2 < Real.sin (NX_PI / 2 * (1 / 2)) := by
    rw [← Real.sin_pi_div_six]
    apply Real.sin_lt_sin_of_lt_of_le_pi_div_two
    · linarith
    · rw [hNP]; norm_num; linarith
    · rw [hNP]; norm_num; linarith
  refine ⟨fun t => ?_, ⟨hsin, ?_⟩, ⟨?_, ?_⟩⟩
  · simp only [NX_EaseSineIn]
    congr 1
    ring
  · rw [hquarter, Real.cos_pi_div_four]
    linarith
  · have e : NX_EaseSineOut Real.sin (1 / 2) = 1 - Real.sin (NX_PI / 2 * (1 / 2)) := by
      simp only [NX_EaseSineOut]
      rw [show (NX_PI : ℝ) / 2 * (1 / 2 - 1) = -(NX_PI / 2 * (1 / 2)) by ring, Real.sin_neg]
      ring
    rw [e]
    linarith
  · rw [hquarter, Real.sin_pi_div_four]
    linarith

end Algebra

/-! ## Powers of two (C28 to C30) -/

section PowerOfTwo

/-- C28: for `1 ≤ x ≤ 2^63`, `NX_NextPowerOfTwo x` is the smallest power of two
that is at least `x`; it returns powers of two unchanged, is idempotent, the
shift amount stays below 64, and `NX_NextPowerOfTwo 0 = 1`. -/
theorem nextPowerOfTwo_spec (x : Nat) (h1 : 1 ≤ x) (h2 : x ≤ 2 ^ 63) :
    (∃ k : Nat, k ≤ 63 ∧ NX_NextPowerOfTwo x = 2 ^ k)
      ∧ x ≤ NX_NextPowerOfTwo x
      ∧ (∀ j : Nat, x ≤ 2 ^ j → NX_NextPowerOfTwo x ≤ 2 ^ j)
      ∧ ((∃ k : Nat, x = 2 ^ k) → NX_NextPowerOfTwo x = x)
      ∧ NX_NextPowerOfTwo (NX_NextPowerOfTwo x) = NX_NextPowerOfTwo x
      ∧ 64 - NX_Clz64 (x - 1) < 64
      ∧ NX_NextPowerOfTwo 0 = 1 := by
  have hpow : ∃ k : Nat, k ≤ 63 ∧ NX_NextPowerOfTwo x = 2 ^ k := by
    rcases Nat.lt_or_ge x 2 with hlt | hge
    · exact ⟨0, by omega, by simp [NX_NextPowerOfTwo, show x ≤ 1 by omega]⟩
    · obtain ⟨e, hk⟩ := NX_NextPowerOfTwo_eq x hge h2
      exact ⟨_, hk, e⟩
  have hge : x ≤ NX_NextPowerOfTwo x ∧ ∀ j : Nat, x ≤ 2 ^ j → NX_NextPowerOfTwo x ≤ 2 ^ j := by
    rcases Nat.lt_or_ge x 2 with hlt | hge
    · have e : NX_NextPowerOfTwo x = 1 := by simp [NX_NextPowerOfTwo, show x ≤ 1 by omega]
      rw [e]
      exact ⟨by omega, fun j _ => Nat.one_le_two_pow⟩
    · exact next_bounds x hge h2
  have hfix : ∀ y : Nat, 1 ≤ y → y ≤ 2 ^ 63 → (∃ k : Nat, y = 2 ^ k) →
      NX_NextPowerOfTwo y = y := by
    intro y hy1 hy2 ⟨k, hk⟩
    rcases Nat.lt_or_ge y 2 with hlt | hge2
    · have : y = 1 := by omega
      subst this
      simp [NX_NextPowerOfTwo]
    · obtain ⟨b1, b2⟩ := next_bounds y hge2 hy2
      have := b2 k (by omega)
      omega
  refine ⟨hpow, hge.1, hge.2, hfix x h1 h2, ?_, ?_, ?_⟩
  · obtain ⟨k, hk, e⟩ := hpow
    have hle : 2 ^ k ≤ 2 ^ 63 := Nat.pow_le_pow_right (by norm_num) hk
    rw [e]
    exact hfix (2 ^ k) Nat.one_le_two_pow hle ⟨k, rfl⟩
  · rcases Nat.lt_or_ge x 2 with hlt | hge2
    · have : x - 1 = 0 := by omega
      rw [this]
      simp [NX_Clz64]
    · have hx : x - 1 ≠ 0 := by omega
      have hl : Nat.log2 (x - 1) < 63 := (Nat.log2_lt hx).mpr (by omega)
      simp only [NX_Clz64, if_neg hx]
      omega
  · simp [NX_NextPowerOfTwo]

/-- C28 witness: `x = 5` gives 8. -/
theorem nextPowerOfTwo_spec_witness :
    (∃ k : Nat, k ≤ 63 ∧ NX_NextPowerOfTwo 5 = 2 ^ k)
      ∧ 5 ≤ NX_NextPowerOfTwo 5
      ∧ (∀ j : Nat, 5 ≤ 2 ^ j → NX_NextPowerOfTwo 5 ≤ 2 ^ j)
      ∧ ((∃ k : Nat, 5 = 2 ^ k) → NX_NextPowerOfTwo 5 = 5)
      ∧ NX_NextPowerOfTwo (NX_NextPowerOfTwo 5) = NX_NextPowerOfTwo 5
      ∧ 64 - NX_Clz64 (5 - 1) < 64
      ∧ NX_NextPowerOfTwo 0 = 1 :=
  nextPowerOfTwo_spec 5 (by decide) (by decide)

/-- C29: for `1 ≤ x < 2^64`, `NX_PrevPowerOfTwo x` is the largest power of two
that is at most `x`, so `x / 2 < result ≤ x`; and `NX_PrevPowerOfTwo 0 = 0`. -/
theorem prevPowerOfTwo_spec (x : Nat) (h1 : 1 ≤ x) (h2 : x < 2 ^ 64) :
    (∃ k : Nat, k ≤ 63 ∧ NX_PrevPowerOfTwo x = 2 ^ k)
      ∧ NX_PrevPowerOfTwo x ≤ x
      ∧ x / 2 < NX_PrevPowerOfTwo x
      ∧ (∀ j : Nat, 2 ^ j ≤ x → 2 ^ j ≤ NX_PrevPowerOfTwo x)
      ∧ NX_PrevPowerOfTwo 0 = 0 := by
  obtain ⟨b1, b2, b3⟩ := prev_bounds x h1 h2
  have hx : x ≠ 0 := by omega
  have hl : Nat.log2 x < 64 := (Nat.log2_lt hx).mpr h2
  refine ⟨⟨Nat.log2 x, by omega, NX_PrevPowerOfTwo_eq x h1 h2⟩, b1, by omega, b3, ?_⟩
  simp [NX_PrevPowerOfTwo]

/-- C29 witness: `x = 5` gives 4. -/
theorem prevPowerOfTwo_spec_witness :
    (∃ k : Nat, k ≤ 63 ∧ NX_PrevPowerOfTwo 5 = 2 ^ k)
      ∧ NX_PrevPowerOfTwo 5 ≤ 5
      ∧ 5 / 2 < NX_PrevPowerOfTwo 5
      ∧ (∀ j : Nat, 2 ^ j ≤ 5 → 2 ^ j ≤ NX_PrevPowerOfTwo 5)
      ∧ NX_PrevPowerOfTwo 0 = 0 :=
  prevPowerOfTwo_spec 5 (by decide) (by decide)

/-- C30: for `x ≤ 2^63`, `NX_NearPowerOfTwo x` is a power of two at least as
close to `x` as every other power of two, and on a tie between the previous
and the next power of two (as for 3 and 6) the next one is returned. -/
theorem nearPowerOfTwo_spec (x : Nat) (h : x ≤ 2 ^ 63) :
    (∃ k : Nat, k ≤ 63 ∧ NX_NearPowerOfTwo x = 2 ^ k)
      ∧ (∀ j : Nat,
          |((NX_NearPowerOfTwo x : Nat) : Int) - (x : Int)|
            ≤ |((2 ^ j : Nat) : Int) - (x : Int)|)
      ∧ (2 ≤ x → x - NX_PrevPowerOfTwo x = NX_NextPowerOfTwo x - x →
          NX_NearPowerOfTwo x = NX_NextPowerOfTwo x)
      ∧ NX_NearPowerOfTwo 3 = 4 ∧ NX_NearPowerOfTwo 6 = 8 := by
  have h3 : NX_NearPowerOfTwo 3 = 4 := by
    simp [NX_NearPowerOfTwo, NX_NextPowerOfTwo, NX_PrevPowerOfTwo, NX_Clz64, Nat.log2]
  have h6 : NX_NearPowerOfTwo 6 = 8 := by
    simp [NX_NearPowerOfTwo, NX_NextPowerOfTwo, NX_PrevPowerOfTwo, NX_Clz64, Nat.log2]
  rcases Nat.lt_or_ge x 2 with hlt | hge
  · have e : NX_NearPowerOfTwo x = 1 := by simp [NX_NearPowerOfTwo, show x ≤ 1 by omega]
    refine ⟨⟨0, by omega, by rw [e]; rfl⟩, ?_, fun h2 => by omega, h3, h6⟩
    intro j
    have hp : 1 ≤ 2 ^ j := Nat.one_le_two_pow
    rw [e]
    generalize 2 ^ j = p at hp
    rcases abs_cases (((1 : Nat) : Int) - (x : Int)) with ⟨e1, _⟩ | ⟨e1, _⟩ <;>
      rcases abs_cases ((p : Int) - (x : Int)) with ⟨e2, _⟩ | ⟨e2, _⟩ <;>
      rw [e1, e2] <;> omega
  · have h64 : x < 2 ^ 64 := by omega
    obtain ⟨p1, p2, p3⟩ := prev_bounds x (by omega) h64
    obtain ⟨n1, n2⟩ := next_bounds x hge h
    obtain ⟨en, hkn⟩ := NX_NextPowerOfTwo_eq x hge h
    have ep := NX_PrevPowerOfTwo_eq x (by omega) h64
    have hlp : Nat.log2 x < 64 := (Nat.log2_lt (by omega)).mpr h64
    have hN : NX_NextPowerOfTwo x ≤ 2 ^ 63 := n2 63 h
    have hsub1 : (x + 2 ^ 64 - NX_PrevPowerOfTwo x) % 2 ^ 64 = x - NX_PrevPowerOfTwo x := by
      omega
    have hsub2 : (NX_NextPowerOfTwo x + 2 ^ 64 - x) % 2 ^ 64 = NX_NextPowerOfTwo x - x := by
      omega
    have e : NX_NearPowerOfTwo x
        = if x - NX_PrevPowerOfTwo x < NX_NextPowerOfTwo x - x then NX_PrevPowerOfTwo x
          else NX_NextPowerOfTwo x := by
      simp only [NX_NearPowerOfTwo, if_neg (show ¬ x ≤ 1 by omega), hsub1, hsub2]
    refine ⟨?_, ?_, ?_, h3, h6⟩
    · rw [e]
      split_ifs
      · exact ⟨Nat.log2 x, by omega, ep⟩
      · exact ⟨_, hkn, en⟩
    · intro j
      have hlow := p3 j
      have hhigh := n2 j
      rw [e]
      generalize 2 ^ j = p at hlow hhigh
      generalize NX_PrevPowerOfTwo x = P at p1 p2 hlow
      generalize NX_NextPowerOfTwo x = N at n1 hhigh
      split_ifs with hc
      · rcases abs_cases ((P : Int) - (x : Int)) with ⟨e1, _⟩ | ⟨e1, _⟩ <;>
          rcases abs_cases ((p : Int) - (x : Int)) with ⟨e2, _⟩ | ⟨e2, _⟩ <;>
          rw [e1, e2] <;> omega
      · rcases abs_cases ((N : Int) - (x : Int)) with ⟨e1, _⟩ | ⟨e1, _⟩ <;>
          rcases abs_cases ((p : Int) - (x : Int)) with ⟨e2, _⟩ | ⟨e2, _⟩ <;>
          rw [e1, e2] <;> omega
    · intro _ htie
      rw [e, if_neg (by omega)]

/-- C30 witness: `x = 5` gives 4. -/
theorem nearPowerOfTwo_spec_witness :
    (∃ k : Nat, k ≤ 63 ∧ NX_NearPowerOfTwo 5 = 2 ^ k)
      ∧ (∀ j : Nat,
          |((NX_NearPowerOfTwo 5 : Nat) : Int) - ((5 : Nat) : Int)|
            ≤ |((2 ^ j : Nat) : Int) - ((5 : Nat) : Int)|)
      ∧ (2 ≤ 5 → 5 - NX_PrevPowerOfTwo 5 = NX_NextPowerOfTwo 5 - 5 →
          NX_NearPowerOfTwo 5 = NX_NextPowerOfTwo 5)
      ∧ NX_NearPowerOfTwo 3 = 4 ∧ NX_NearPowerOfTwo 6 = 8 :=
  nearPowerOfTwo_spec 5 (by decide)

end PowerOfTwo

/-! ## Integer helpers and the GPU buffer (C31 to C35) -/

section Integer

/-- C31: for every 64-bit unsigned `x`, `NX_IsPowerOfTwo x` is true if and only
if `x = 2^k` for some `k` in `0..63` (so it is false for 0). -/
theorem isPowerOfTwo_spec (x : Nat) (hx : x < 2 ^ 64) :
    NX_IsPowerOfTwo x = true ↔ ∃ k, k ≤ 63 ∧ x = 2 ^ k := by
  simp only [NX_IsPowerOfTwo, Bool.and_eq_true, decide_eq_true_eq]
  constructor
  · rintro ⟨h0, h⟩
    have hpos : 0 < x := Nat.pos_of_ne_zero h0
    have e : (x + 2 ^ 64 - 1) % 2 ^ 64 = x - 1 := by
      have : x + 2 ^ 64 - 1 = (x - 1) + 2 ^ 64 := by omega
      rw [this, Nat.add_mod_right, Nat.mod_eq_of_lt (by omega)]
    rw [e] at h
    obtain ⟨k, rfl⟩ := (and_pred_eq_zero_iff x hpos).mp h
    refine ⟨k, ?_, rfl⟩
    have : k < 64 := (Nat.pow_lt_pow_iff_right (by norm_num)).mp hx
    omega
  · rintro ⟨k, _, rfl⟩
    have hpos : 0 < 2 ^ k := Nat.pos_pow_of_pos _ (by norm_num)
    have e : (2 ^ k + 2 ^ 64 - 1) % 2 ^ 64 = 2 ^ k - 1 := by
      have : 2 ^ k + 2 ^ 64 - 1 = (2 ^ k - 1) + 2 ^ 64 := by omega
      rw [this, Nat.add_mod_right, Nat.mod_eq_of_lt (by omega)]
    rw [e]
    exact ⟨by omega, (and_pred_eq_zero_iff _ hpos).mpr ⟨k, rfl⟩⟩

/-- C31 witness: `x = 8`. -/
theorem isPowerOfTwo_spec_witness :
    NX_IsPowerOfTwo 8 = true ↔ ∃ k, k ≤ 63 ∧ 8 = 2 ^ k :=
  isPowerOfTwo_spec 8 (by norm_num)

/-- C32 (as stated, refuted): `NX_IVec2Any (1, 0)` is true although not all
components are non-zero, and `NX_IVec2All (1, 0)` is false although one
component is non-zero. -/
theorem ivecAnyAll_counterexample :
    (NX_IVec2Any ⟨1, 0⟩ = true ∧ ¬ ((⟨1, 0⟩ : NX_IVec2).x ≠ 0 ∧ (⟨1, 0⟩ : NX_IVec2).y ≠ 0))
      ∧ (NX_IVec2All ⟨1, 0⟩ = false
          ∧ ((⟨1, 0⟩ : NX_IVec2).x ≠ 0 ∨ (⟨1, 0⟩ : NX_IVec2).y ≠ 0)) := by
  decide

/-- C32 (amended): `NX_IVec2Any` / `NX_IVec3Any` / `NX_IVec4Any` are true exactly
when at least one component is non-zero, and `NX_IVec2All` / `NX_IVec3All` /
`NX_IVec4All` exactly when all components are non-zero. -/
theorem ivecAnyAll_spec (u : NX_IVec2) (v : NX_IVec3) (w : NX_IVec4) :
    (NX_IVec2Any u = true ↔ u.x ≠ 0 ∨ u.y ≠ 0)
      ∧ (NX_IVec2All u = true ↔ u.x ≠ 0 ∧ u.y ≠ 0)
      ∧ (NX_IVec3Any v = true ↔ v.x ≠ 0 ∨ v.y ≠ 0 ∨ v.z ≠ 0)
      ∧ (NX_IVec3All v = true ↔ v.x ≠ 0 ∧ v.y ≠ 0 ∧ v.z ≠ 0)
      ∧ (NX_IVec4Any w = true ↔ w.x ≠ 0 ∨ w.y ≠ 0 ∨ w.z ≠ 0 ∨ w.w ≠ 0)
      ∧ (NX_IVec4All w = true ↔ w.x ≠ 0 ∧ w.y ≠ 0 ∧ w.z ≠ 0 ∧ w.w ≠ 0) := by
  refine ⟨?_, ?_, ?_, ?_, ?_, ?_⟩
  · simp [NX_IVec2Any]
  · simp [NX_IVec2All]
  · simp [NX_IVec3Any, or_assoc]
  · simp [NX_IVec3All, and_assoc]
  · simp [NX_IVec4Any, or_assoc]
  · simp [NX_IVec4All, and_assoc]

/-- C33: a `gpu::Buffer` constructed with an invalid target, an invalid usage or
a size `≤ 0` never reaches `createBuffer`, keeps `mID = 0` and is not valid; a
default-constructed buffer and a moved-from buffer (after move construction or
move assignment) are not valid either. -/
theorem buffer_invalid_spec {δ : Type} (gl : GLEnums)
    (createBuffer : Buffer → δ → Nat → Buffer) (target : Nat) (size : Int) (data : δ)
    (usage : Nat) (self other : Buffer)
    (h : Buffer.IsValidTarget gl target = false ∨ Buffer.IsValidUsage gl usage = false
      ∨ size ≤ 0) :
    (BufferEvent.createBuffer ∉ (Buffer.construct gl createBuffer target size data usage).2
        ∧ (Buffer.construct gl createBuffer target size data usage).1.mID = 0
        ∧ (Buffer.construct gl createBuffer target size data usage).1.IsValid = false)
      ∧ (Buffer.default gl).IsValid = false
      ∧ (Buffer.moveConstruct other).2.IsValid = false
      ∧ (Buffer.moveAssign self other).2.1.IsValid = false := by
  refine ⟨?_, by simp [Buffer.default, Buffer.IsValid], by simp [Buffer.moveConstruct, Buffer.IsValid],
    by simp [Buffer.moveAssign, Buffer.IsValid]⟩
  have key : Buffer.construct gl createBuffer target size data usage
      = (⟨0, target, size, usage⟩, [BufferEvent.logError]) := by
    simp only [Buffer.construct]
    by_cases h1 : Buffer.IsValidTarget gl target = true
    · by_cases h2 : Buffer.IsValidUsage gl usage = true
      · have h3 : size ≤ 0 := by
          rcases h with h | h | h
          · rw [h1] at h; exact absurd h (by decide)
          · rw [h2] at h; exact absurd h (by decide)
          · exact h
        simp [h1, h2, h3]
      · simp [h1, h2]
    · simp [h1]
  rw [key]
  simp [Buffer.IsValid]

/-- C33 witness: the target `0` is none of the nine accepted targets of the GL
registry. -/
theorem buffer_invalid_spec_witness :
    (BufferEvent.createBuffer ∉
          (Buffer.construct glRegistry (fun b (_ : Unit) _ => { b with mID := 1 })
            0 16 () 0x88E4).2
        ∧ (Buffer.construct glRegistry (fun b (_ : Unit) _ => { b with mID := 1 })
            0 16 () 0x88E4).1.mID = 0
        ∧ (Buffer.construct glRegistry (fun b (_ : Unit) _ => { b with mID := 1 })
            0 16 () 0x88E4).1.IsValid = false)
      ∧ (Buffer.default glRegistry).IsValid = false
      ∧ (Buffer.moveConstruct ⟨7, 0x8892, 16, 0x88E4⟩).2.IsValid = false
      ∧ (Buffer.moveAssign ⟨3, 0x8892, 8, 0x88E4⟩ ⟨7, 0x8892, 16, 0x88E4⟩).2.1.IsValid = false :=
  buffer_invalid_spec glRegistry (fun b (_ : Unit) _ => { b with mID := 1 }) 0 16 () 0x88E4
    ⟨3, 0x8892, 8, 0x88E4⟩ ⟨7, 0x8892, 16, 0x88E4⟩ (Or.inl (by decide))

/-- C34: for a `w`-bit non-negative `value` and an alignment `2^k` that fits
in `w` bits, with `value + 2^k - 1` not overflowing, `NX_ALIGN_UP` is the
smallest multiple of the alignment that is `≥ value` and `NX_ALIGN_DOWN` is the
largest multiple of the alignment that is `≤ value`. -/
theorem align_spec (w k value : Nat) (hk : k < w) (hv : value + 2 ^ k - 1 < 2 ^ w) :
    (2 ^ k ∣ NX_ALIGN_UP w value (2 ^ k) ∧ value ≤ NX_ALIGN_UP w value (2 ^ k)
        ∧ ∀ m, 2 ^ k ∣ m → value ≤ m → NX_ALIGN_UP w value (2 ^ k) ≤ m)
      ∧ (2 ^ k ∣ NX_ALIGN_DOWN w value (2 ^ k) ∧ NX_ALIGN_DOWN w value (2 ^ k) ≤ value
        ∧ ∀ m, 2 ^ k ∣ m → m ≤ value → m ≤ NX_ALIGN_DOWN w value (2 ^ k)) := by
  have hp : 0 < 2 ^ k := Nat.pos_pow_of_pos _ (by norm_num)
  have hv2 : value < 2 ^ w := by omega
  rw [NX_ALIGN_UP_eq w k value hk hv, NX_ALIGN_DOWN_eq w k value hk hv2]
  generalize 2 ^ k = p at hp hv
  refine ⟨⟨Nat.dvd_mul_left _ _, ?_, ?_⟩, ⟨Nat.dvd_mul_left _ _, Nat.div_mul_le_self _ _, ?_⟩⟩
  · have h1 := Nat.div_add_mod (value + p - 1) p
    have h2 := Nat.mod_lt (value + p - 1) hp
    rw [mul_comm] at h1
    omega
  · rintro m ⟨j, rfl⟩ hm
    rw [mul_comm p j]
    apply Nat.mul_le_mul_right
    apply Nat.le_of_lt_succ
    rw [Nat.div_lt_iff_lt_mul hp, Nat.succ_mul]
    rw [mul_comm] at hm
    omega
  · rintro m ⟨j, rfl⟩ hm
    rw [mul_comm p j]
    apply Nat.mul_le_mul_right
    rw [Nat.le_div_iff_mul_le hp]
    rw [mul_comm] at hm
    exact hm

/-- C34 witness: 32-bit operands, `value = 9`, `alignment = 8`. -/
theorem align_spec_witness :
    (2 ^ 3 ∣ NX_ALIGN_UP 32 9 (2 ^ 3) ∧ 9 ≤ NX_ALIGN_UP 32 9 (2 ^ 3)
        ∧ ∀ m, 2 ^ 3 ∣ m → 9 ≤ m → NX_ALIGN_UP 32 9 (2 ^ 3) ≤ m)
      ∧ (2 ^ 3 ∣ NX_ALIGN_DOWN 32 9 (2 ^ 3) ∧ NX_ALIGN_DOWN 32 9 (2 ^ 3) ≤ 9
        ∧ ∀ m, 2 ^ 3 ∣ m → m ≤ 9 → m ≤ NX_ALIGN_DOWN 32 9 (2 ^ 3)) :=
  align_spec 32 3 9 (by decide) (by norm_num)

/-- C35: for non-negative `a`, `b`, `max`, `NX_WOULD_OVERFLOW_MUL` never
evaluates a division by zero and is true exactly when `a * b > max`; and
`NX_WOULD_OVERFLOW_ADD` is true exactly when `a + b > max` whenever `b ≤ max`
(the difference `max - b` then stays between `0` and `max`). -/
theorem wouldOverflow_spec (a b max : Int) (ha : 0 ≤ a) (hb : 0 ≤ b) (hmax : 0 ≤ max) :
    NX_WOULD_OVERFLOW_MUL a b max = some (decide (a * b > max))
      ∧ (b ≤ max → (0 ≤ max - b ∧ max - b ≤ max)
          ∧ NX_WOULD_OVERFLOW_ADD a b max = decide (a + b > max)) := by
  constructor
  · by_cases h0 : a = 0
    · subst h0
      simp [NX_WOULD_OVERFLOW_MUL, hmax]
    · have hpos : 0 < a := by omega
      have hdiv : Int.tdiv max a = max / a := Int.tdiv_eq_ediv hmax ha
      have hiff : (b > max / a) ↔ (a * b > max) := by
        constructor
        · intro h
          have h1 : max / a + 1 ≤ b := h
          have h2 : max < a * (max / a + 1) := by
            have := Int.lt_ediv_add_one_mul_self max hpos
            linarith [mul_comm a (max / a + 1)]
          calc max < a * (max / a + 1) := h2
            _ ≤ a * b := Int.mul_le_mul_of_nonneg_left h1 ha
        · intro h
          have h1 : max / a * a ≤ max := Int.ediv_mul_le max h0
          by_contra hc
          have h2 : b ≤ max / a := not_lt.mp hc
          have h3 : a * b ≤ a * (max / a) := Int.mul_le_mul_of_nonneg_left h2 ha
          have h4 : a * (max / a) ≤ max := by rw [mul_comm]; exact h1
          have h5 : max < a * b := h
          omega
      simp only [NX_WOULD_OVERFLOW_MUL, cDiv, if_pos h0, if_neg h0, Option.map_some', hdiv]
      congr 1
      exact decide_eq_decide.mpr hiff
  · intro hle
    refine ⟨by omega, ?_⟩
    simp only [NX_WOULD_OVERFLOW_ADD]
    exact decide_eq_decide.mpr ⟨fun h => by omega, fun h => by omega⟩

/-- C35 witness: `3 * 4 = 12 > 11`. -/
theorem wouldOverflow_spec_witness :
    NX_WOULD_OVERFLOW_MUL 3 4 11 = some (decide ((3 : Int) * 4 > 11))
      ∧ ((4 : Int) ≤ 11 →
          ((0 : Int) ≤ 11 - 4 ∧ (11 : Int) - 4 ≤ 11)
            ∧ NX_WOULD_OVERFLOW_ADD 3 4 11 = decide ((3 : Int) + 4 > 11)) :=
  wouldOverflow_spec 3 4 11 (by decide) (by decide) (by decide)

end Integer

/-! ## Quaternion product, reflection and projection (C36 to C39) -/

section VectorAlgebra
variable {α : Type} [LinearOrderedField α]

/-- C36: `NX_QuatMul` is associative, `NX_QUAT_IDENTITY` is a left and right
unit for it, and `i * j = k`. -/
theorem quatMul_monoid (a b c : NX_Quat α) :
    NX_QuatMul (NX_QuatMul a b) c = NX_QuatMul a (NX_QuatMul b c)
      ∧ NX_QuatMul NX_QUAT_IDENTITY a = a
      ∧ NX_QuatMul a NX_QUAT_IDENTITY = a
      ∧ NX_QuatMul (⟨1, 0, 0, 0⟩ : NX_Quat α) ⟨0, 1, 0, 0⟩ = ⟨0, 0, 1, 0⟩ := by
  refine ⟨?_, ?_, ?_, ?_⟩
  · ext <;> simp only [NX_QuatMul] <;> ring
  · ext <;> simp [NX_QuatMul, NX_QUAT_IDENTITY]
  · ext <;> simp [NX_QuatMul, NX_QUAT_IDENTITY]
  · ext <;> simp [NX_QuatMul]

/-- C37: the squared length of `NX_QuatMul a b` is the product of the squared
lengths of `a` and `b`, so the product of two unit quaternions is a unit
quaternion. -/
theorem quatMul_norm (a b : NX_Quat α) :
    (NX_QuatMul a b).x * (NX_QuatMul a b).x + (NX_QuatMul a b).y * (NX_QuatMul a b).y
        + (NX_QuatMul a b).z * (NX_QuatMul a b).z + (NX_QuatMul a b).w * (NX_QuatMul a b).w
      = (a.x * a.x + a.y * a.y + a.z * a.z + a.w * a.w)
          * (b.x * b.x + b.y * b.y + b.z * b.z + b.w * b.w)
      ∧ (a.x * a.x + a.y * a.y + a.z * a.z + a.w * a.w = 1 →
          b.x * b.x + b.y * b.y + b.z * b.z + b.w * b.w = 1 →
          (NX_QuatMul a b).x * (NX_QuatMul a b).x + (NX_QuatMul a b).y * (NX_QuatMul a b).y
            + (NX_QuatMul a b).z * (NX_QuatMul a b).z
            + (NX_QuatMul a b).w * (NX_QuatMul a b).w = 1) := by
  have key : (NX_QuatMul a b).x * (NX_QuatMul a b).x + (NX_QuatMul a b).y * (NX_QuatMul a b).y
        + (NX_QuatMul a b).z * (NX_QuatMul a b).z + (NX_QuatMul a b).w * (NX_QuatMul a b).w
      = (a.x * a.x + a.y * a.y + a.z * a.z + a.w * a.w)
          * (b.x * b.x + b.y * b.y + b.z * b.z + b.w * b.w) := by
    simp only [NX_QuatMul]
    ring
  refine ⟨key, fun ha hb => ?_⟩
  rw [key, ha, hb, mul_one]

/-- C38: for a unit normal `n`, `NX_Vec3Reflect` and `NX_Vec2Reflect` are
involutions and preserve the length, whatever square-root function `sqrtf`
is used. -/
theorem reflect_involution (sqrtf : α → α) (v n : NX_Vec3 α) (u m : NX_Vec2 α)
    (hn : n.x * n.x + n.y * n.y + n.z * n.z = 1) (hm : m.x * m.x + m.y * m.y = 1) :
    NX_Vec3Reflect (NX_Vec3Reflect v n) n = v
      ∧ NX_Vec3Length sqrtf (NX_Vec3Reflect v n) = NX_Vec3Length sqrtf v
      ∧ NX_Vec2Reflect (NX_Vec2Reflect u m) m = u
      ∧ NX_Vec2Length sqrtf (NX_Vec2Reflect u m) = NX_Vec2Length sqrtf u := by
  refine ⟨?_, ?_, ?_, ?_⟩
  · ext
    · simp only [NX_Vec3Reflect, fmaf]
      linear_combination (4 * n.x * (v.x * n.x + v.y * n.y + v.z * n.z)) * hn
    · simp only [NX_Vec3Reflect, fmaf]
      linear_combination (4 * n.y * (v.x * n.x + v.y * n.y + v.z * n.z)) * hn
    · simp only [NX_Vec3Reflect, fmaf]
      linear_combination (4 * n.z * (v.x * n.x + v.y * n.y + v.z * n.z)) * hn
  · simp only [NX_Vec3Length, NX_Vec3Reflect, fmaf]
    congr 1
    linear_combination (4 * (v.x * n.x + v.y * n.y + v.z * n.z) ^ 2) * hn
  · ext
    · simp only [NX_Vec2Reflect, NX_Vec2Sub, NX_Vec2Scale, NX_Vec2Dot]
      linear_combination (4 * m.x * (u.x * m.x + u.y * m.y)) * hm
    · simp only [NX_Vec2Reflect, NX_Vec2Sub, NX_Vec2Scale, NX_Vec2Dot]
      linear_combination (4 * m.y * (u.x * m.x + u.y * m.y)) * hm
  · simp only [NX_Vec2Length, NX_Vec2Reflect, NX_Vec2Sub, NX_Vec2Scale, NX_Vec2Dot]
    congr 1
    linear_combination (4 * (u.x * m.x + u.y * m.y) ^ 2) * hm

/-- C38 witness: the unit normals `(3/5, 4/5, 0)` and `(3/5, 4/5)`, with the
real square root. -/
theorem reflect_involution_witness :
    NX_Vec3Reflect (NX_Vec3Reflect (⟨1, 2, 3⟩ : NX_Vec3 ℝ) ⟨3/5, 4/5, 0⟩) ⟨3/5, 4/5, 0⟩
        = ⟨1, 2, 3⟩
      ∧ NX_Vec3Length Real.sqrt (NX_Vec3Reflect ⟨1, 2, 3⟩ ⟨3/5, 4/5, 0⟩)
        = NX_Vec3Length Real.sqrt ⟨1, 2, 3⟩
      ∧ NX_Vec2Reflect (NX_Vec2Reflect (⟨1, 2⟩ : NX_Vec2 ℝ) ⟨3/5, 4/5⟩) ⟨3/5, 4/5⟩ = ⟨1, 2⟩
      ∧ NX_Vec2Length Real.sqrt (NX_Vec2Reflect ⟨1, 2⟩ ⟨3/5, 4/5⟩)
        = NX_Vec2Length Real.sqrt ⟨1, 2⟩ :=
  reflect_involution Real.sqrt ⟨1, 2, 3⟩ ⟨3/5, 4/5, 0⟩ ⟨1, 2⟩ ⟨3/5, 4/5⟩ (by norm_num)
    (by norm_num)

/-- C39: for a non-zero `onto`, the projection and the rejection of `v` add up
to `v`, and the rejection is orthogonal to `onto`. -/
theorem project_reject_decomposition (v onto : NX_Vec3 α) (h : onto ≠ ⟨0, 0, 0⟩) :
    NX_Vec3Add (NX_Vec3Project v onto) (NX_Vec3Reject v onto) = v
      ∧ NX_Vec3Dot (NX_Vec3Reject v onto) onto = 0 := by
  have hpos := vec3_sumsq_pos onto h
  constructor
  · ext <;> simp only [NX_Vec3Add, NX_Vec3Project, NX_Vec3Reject, fmaf] <;> ring
  · simp only [NX_Vec3Dot, NX_Vec3Reject, fmaf]
    field_simp
    ring

/-- C39 witness: `v = (1, 2, 3)` and `onto = (1, 1, 0)`. -/
theorem project_reject_decomposition_witness :
    NX_Vec3Add (NX_Vec3Project (⟨1, 2, 3⟩ : NX_Vec3 ℚ) ⟨1, 1, 0⟩)
        (NX_Vec3Reject ⟨1, 2, 3⟩ ⟨1, 1, 0⟩) = ⟨1, 2, 3⟩
      ∧ NX_Vec3Dot (NX_Vec3Reject (⟨1, 2, 3⟩ : NX_Vec3 ℚ) ⟨1, 1, 0⟩) ⟨1, 1, 0⟩ = 0 :=
  project_reject_decomposition ⟨1, 2, 3⟩ ⟨1, 1, 0⟩ (by decide)

end VectorAlgebra

end Nexium
